import Mathlib

/-! # Cuttle: request-to-handler argument binder

A shallow embedding of `resolver.go` and `router.go`.

* Go errors are values of `GoError`; a nil error is `none`.
* The request context (`echo.Context`) is the record `Context` of the lookups the
  binder performs on it.  Writing a response, calling the user handler and calling
  the error handler are recorded as `Event`s, in the order they happen.
* `reflect.Type` is represented by the observations the binder makes of it
  (`Kind`, fields, tags, the comparisons against the marker types).
* Standard-library functions whose tables are not part of this repository
  (`strings.ToLower`, `strconv.Quote`, `strconv.ParseFloat`) are the fields of `Lib`.
* A Go panic is the `Except.error` of a `Panic`.
* `int` has 64 bits.
* `http.Header` is the map of canonical keys with `Add` and `Get`; the header lookup
  of a `Context` is a function, which a request answers from its header map.
* `reflect.Value.Set` in the struct assembler panics when the type of the resolved
  value is not assignable to the type of the field; the field type records whether a
  `string` and whether the context value of the router are assignable to it.
-/

set_option autoImplicit false

deriving instance DecidableEq for Except

namespace Binder

/-! ## Errors -/

/-- Error values: `new msg` is `fmt.Errorf(msg)`, and `wrap pre inner` is
`fmt.Errorf(pre ++ "%w", inner)`. -/
inductive GoError where
  | new (msg : String)
  | wrap (pre : String) (inner : GoError)
  deriving DecidableEq, Repr

/-- The method `Error()` of an error value. -/
def GoError.Error : GoError → String
  | .new msg => msg
  | .wrap pre inner => pre ++ inner.Error

/-- Go: `var ErrNoValueOnRequiredField = fmt.Errorf("no value found on required field")` -/
def ErrNoValueOnRequiredField : GoError := .new "no value found on required field"

/-- Standard-library functions used by the binder whose definition is table driven
or floating point.  `ParseFloat` returns the bit pattern of the parsed float64 and
`Float32` rounds such a bit pattern to a float32. -/
structure Lib where
  ToLower : String → String
  Quote : String → String
  ParseFloat : String → Except GoError Nat
  Float32 : Nat → Nat

/-! ## Request context and events -/

/-- A `multipart.FileHeader`. -/
structure FileHeader where
  Filename : String
  Content : String
  deriving DecidableEq, Repr

/-- Values a field resolver can produce (the `interface{}` result of a `ResolverFunc`)
and values a struct field can hold. -/
inductive FieldValue where
  | invalid
  | nil
  | zero
  | bool (b : Bool)
  | str (s : String)
  | int (n : Int)
  | uint (n : Nat)
  | float (bits : Nat)
  | reader (body : String)
  | file (fh : Option FileHeader)
  | context
  deriving DecidableEq, Repr

/-- Values passed to the user handler (`reflect.Value`). -/
inductive Value where
  | invalid
  | struct (fields : List FieldValue)
  | context
  deriving DecidableEq, Repr

/-- The local type `ValidationFail` of `handle`. -/
structure ValidationFail where
  Field : String
  Err : String
  deriving DecidableEq, Repr

/-- The body `map[string]interface{}{"message": ..., "fields": ...}` written on a
validation failure. -/
structure FailureBody where
  message : String
  fields : List ValidationFail
  deriving DecidableEq, Repr

/-- Observable effects of serving a request. -/
inductive Event where
  | JSON (code : Nat) (body : FailureBody)
  | Call (args : List Value)
  | ErrorHandler (err : GoError)
  deriving DecidableEq, Repr

/-- Kinds of `reflect.Kind`. -/
inductive Kind where
  | Invalid | Bool
  | Int | Int8 | Int16 | Int32 | Int64
  | Uint | Uint8 | Uint16 | Uint32 | Uint64 | Uintptr
  | Float32 | Float64 | Complex64 | Complex128
  | Array | Chan | Func | Interface | Map | Ptr | Slice | String | Struct | UnsafePointer
  deriving DecidableEq, Repr

/-- A `reflect.StructTag` in the conventional format, as its key/value pairs in
order of appearance. -/
abbrev StructTag := List (String × String)

/-- Go: `StructTag.Lookup`: the value of the first pair with the given key. -/
def StructTag.Lookup (tag : StructTag) (key : String) : Option String :=
  match tag with
  | [] => none
  | (k, v) :: rest => if k = key then some v else StructTag.Lookup rest key

/-- Observations the binder makes of the `reflect.Type` of a struct field. -/
structure FieldType where
  Kind : Kind
  /-- Go: `t == reflect.TypeOf(FromJson{})` -/
  IsFromJson : Bool
  /-- Go: `t == reflect.TypeOf(AsReturn{})` -/
  IsAsReturn : Bool
  /-- Go: `t == reflect.TypeOf((*io.Reader)(nil)).Elem()` -/
  IsReader : Bool
  /-- Go: `t.AssignableTo(reflect.TypeOf((*multipart.FileHeader)(nil)))` -/
  AssignableToFileHeader : Bool
  /-- Go: `t.ConvertibleTo(cutleContextType)` -/
  ConvertibleToContext : Bool
  /-- Go: `reflect.TypeOf("").AssignableTo(t)`: a value of the predeclared type `string`
  can be stored in a variable of type `t`. -/
  AssignableFromString : Bool
  /-- Go: `reflect.TypeOf(ctx).AssignableTo(t)` for the context value `ctx` that the
  router passes to the resolvers. -/
  AssignableFromContext : Bool
  deriving DecidableEq, Repr

/-- A `reflect.StructField`. -/
structure StructField where
  Name : String
  PkgPath : String
  Typ : FieldType
  Tag : StructTag
  deriving DecidableEq, Repr

/-- Go: `StructField.IsExported` -/
def StructField.IsExported (f : StructField) : Bool := f.PkgPath == ""

/-- Observations the binder makes of the `reflect.Type` of a handler parameter or
result: `Str` is `String()`, `Fields` lists `Field(0) .. Field(NumField()-1)`. -/
structure RType where
  Kind : Kind
  Str : String
  Fields : List StructField
  /-- Go: `t.Implements(cutleContextType)` -/
  ImplementsContext : Bool
  deriving DecidableEq, Repr

/-- The request context: the lookups of `echo.Context` used by the binder.
`Decode t` is the outcome of `json.NewDecoder(ctx.Request().Body).Decode` into a
new `t`; `JSON code body` is the error returned by writing a JSON response. -/
structure Context where
  QueryParam : String → String
  Param : String → String
  Header : String → String
  FormValue : String → String
  FormFile : String → Option FileHeader × Option GoError
  Body : String
  Decode : RType → List FieldValue × Option GoError
  JSON : Nat → FailureBody → Option GoError

/-! ## resolver.go -/

abbrev ContextResolverFunc := String → Context → String

abbrev ContextResolvers := List ContextResolverFunc

/-- Go: `const ResolveAsFile` -/
def ResolveAsFile : String := "locust.resolveasfile"

structure CSRGetOption where
  Sensitive : Bool
  Required : Bool
  deriving DecidableEq, Repr

/-- The loop `for _, resolverFunc := range cr` of `ContextResolvers.Get`; `err` is
the value of the variable `err` when the loop is entered. -/
def ContextResolvers.Get.loop (L : Lib) (name : String) (option : CSRGetOption) (ctx : Context)
    (err : Option GoError) : ContextResolvers → String × Option GoError
  | [] => ("", err)
  | resolverFunc :: rest =>
    let s := resolverFunc name ctx
    let s := if s == "" && !option.Sensitive then resolverFunc (L.ToLower name) ctx else s
    if s != "" then (s, none)
    else ContextResolvers.Get.loop L name option ctx err rest

/-- Go: `func (cr ContextResolvers) Get(name string, option CSRGetOption, ctx Context) (string, error)` -/
def ContextResolvers.Get (L : Lib) (cr : ContextResolvers) (name : String) (option : CSRGetOption)
    (ctx : Context) : String × Option GoError :=
  let err := if option.Required then some ErrNoValueOnRequiredField else none
  ContextResolvers.Get.loop L name option ctx err cr

/-- Go: `var ctxResolvers = map[string]ContextResolverFunc{...}` -/
def ctxResolvers (solver : String) : Option ContextResolverFunc :=
  if solver = "query" then some (fun name ctx => ctx.QueryParam name)
  else if solver = "param" then some (fun name ctx => ctx.Param name)
  else if solver = "header" then some (fun name ctx => ctx.Header name)
  else if solver = "form" then some (fun name ctx => ctx.FormValue name)
  else if solver = "file" then some (fun _ _ => ResolveAsFile)
  else none

/-- Go: `func GetResolvers(solvers ...string) ContextResolvers` -/
def GetResolvers : List String → ContextResolvers
  | [] => []
  | solver :: rest =>
    match ctxResolvers solver with
    | some r => r :: GetResolvers rest
    | none => GetResolvers rest

/-! ## Standard-library functions with a closed definition -/

/-- Go: `strings.Split(s, sep)` for a separator of one character: the pieces of `s`
between the occurrences of `sep`; `cur` holds the piece read so far, reversed. -/
def Split.go (sep : Char) : List Char → List Char → List String
  | [], cur => [String.mk cur.reverse]
  | c :: cs, cur =>
    if c = sep then String.mk cur.reverse :: Split.go sep cs []
    else Split.go sep cs (c :: cur)

def Split (s : String) (sep : Char) : List String := Split.go sep s.data []

/-- The message of a `*strconv.NumError`. -/
def NumError (L : Lib) (fn num err : String) : GoError :=
  .new ("strconv." ++ fn ++ ": parsing " ++ L.Quote num ++ ": " ++ err)

def isDigit (c : Char) : Bool := 48 ≤ c.toNat && c.toNat ≤ 57

/-- The number written by a list of decimal digits. -/
def digitsValue (ds : List Char) : Nat := ds.foldl (fun n c => n * 10 + (c.toNat - 48)) 0

/-- Go: `strconv.Atoi` with a 64-bit `int`: an optional sign followed by one or more
decimal digits, denoting a number of the range of `int`.  The characters are read from
the left: digits that leave the range of `uint64` give the range error before a later
character that is not a digit gives the syntax error. -/
def Atoi (L : Lib) (s : String) : Except GoError Int :=
  let neg : Bool := s.data.head? == some '-'
  let body : List Char :=
    match s.data with
    | '-' :: r => r
    | '+' :: r => r
    | cs => cs
  if body.isEmpty then .error (NumError L "Atoi" s "invalid syntax")
  else if digitsValue (body.takeWhile isDigit) ≥ 2 ^ 64 then
    .error (NumError L "Atoi" s "value out of range")
  else if !body.all isDigit then .error (NumError L "Atoi" s "invalid syntax")
  else
    let un := digitsValue body
    if !neg && un ≥ 2 ^ 63 then .error (NumError L "Atoi" s "value out of range")
    else if neg && un > 2 ^ 63 then .error (NumError L "Atoi" s "value out of range")
    else .ok (if neg then -(un : Int) else (un : Int))

/-- Go: `strconv.ParseUint(s, 10, 64)`: one or more decimal digits, denoting a number
below `2^64`.  The characters are read from the left, as in `Atoi`. -/
def ParseUint (L : Lib) (s : String) : Except GoError Nat :=
  if s.data.isEmpty then .error (NumError L "ParseUint" s "invalid syntax")
  else if digitsValue (s.data.takeWhile isDigit) ≥ 2 ^ 64 then
    .error (NumError L "ParseUint" s "value out of range")
  else if !s.data.all isDigit then .error (NumError L "ParseUint" s "invalid syntax")
  else .ok (digitsValue s.data)

/-- The character of a decimal digit. -/
def digitChar (d : Nat) : Char := Char.ofNat (d + 48)

/-- The decimal digits of `n`, most significant first, in front of `acc`; `fuel` bounds
the number of digits. -/
def decimal.go : Nat → Nat → List Char → List Char
  | 0, _, acc => acc
  | fuel + 1, n, acc =>
    if n < 10 then digitChar n :: acc
    else decimal.go fuel (n / 10) (digitChar (n % 10) :: acc)

def decimal (n : Nat) : List Char := decimal.go (n + 1) n []

/-- Go: `strconv.Itoa`: the decimal representation of an integer. -/
def Itoa (n : Int) : String :=
  if n < 0 then String.mk ('-' :: decimal n.natAbs) else String.mk (decimal n.natAbs)

/-- Two's complement value of the low `bits` bits of `x`. -/
def wrapInt (bits : Nat) (x : Int) : Int :=
  (x + 2 ^ (bits - 1)) % 2 ^ bits - 2 ^ (bits - 1)

/-- Go: `reflect.Value.SetInt(x)` on a value of kind `k` keeps the low bits that the kind
holds. -/
def SetInt (k : Kind) (x : Int) : Int :=
  match k with
  | .Int8 => wrapInt 8 x
  | .Int16 => wrapInt 16 x
  | .Int32 => wrapInt 32 x
  | _ => wrapInt 64 x

/-- Go: `reflect.Value.SetUint(x)` on a value of kind `k`. -/
def SetUint (k : Kind) (x : Nat) : Nat :=
  match k with
  | .Uint8 => x % 2 ^ 8
  | .Uint16 => x % 2 ^ 16
  | .Uint32 => x % 2 ^ 32
  | _ => x % 2 ^ 64

/-- Go: `reflect.Value.SetFloat(x)` on a value of kind `k`. -/
def SetFloat (L : Lib) (k : Kind) (bits : Nat) : Nat :=
  match k with
  | .Float32 => L.Float32 bits
  | _ => bits

/-! ## router.go -/

/-- Go: `type ResolverFunc func(ctx Context) (interface{}, error)` -/
abbrev ResolverFunc := Context → FieldValue × Option GoError

/-- Panics of the binder.  `notAssignable field` is the panic of `reflect.Value.Set` on
the struct field `field`, for a value whose type is not assignable to the type of the
field. -/
inductive Panic where
  | nilDereference
  | notFunc (kind : Kind)
  | noArgument (path : String)
  | notError (path : String)
  | nilFuncCall
  | numFieldOfNonStruct (kind : Kind)
  | notAssignable (field : String)
  deriving DecidableEq, Repr

/-- A per-parameter resolver `func(ctx Context) (reflect.Value, bool, error)`: its
results or its panic, with the events it causes. -/
abbrev InputResolver := Context → Except Panic (Value × Bool × Option GoError) × List Event

/-- Go: `type FinalResolver func(ctx Context) ([]reflect.Value, error)`; a nil slice is
`none`. -/
abbrev FinalResolver := Context → Except Panic (Option (List Value) × Option GoError) × List Event

/-- An installed error handler; its body is application code. -/
structure ErrorHandlerFunc where
  id : Nat
  deriving DecidableEq, Repr

/-- Go: `type Cuttle struct` without the embedded `*echo.Echo`. -/
structure Cuttle where
  ErrorHandler : Option ErrorHandlerFunc
  deriving DecidableEq, Repr

/-- Observations of `reflect.TypeOf(userHandler)`: `In` lists `In(0) .. In(NumIn()-1)`
and `Out` lists `Out(0) .. Out(NumOut()-1)`. -/
structure HandlerType where
  Kind : Kind
  In : List RType
  Out : List RType
  deriving DecidableEq, Repr

/-- The `userHandler interface{}` argument: `TypeOf` is `reflect.TypeOf(userHandler)`
(`none` for a nil interface) and `Call args` is the single result of calling it. -/
structure UserHandler where
  TypeOf : Option HandlerType
  Call : List Value → Option GoError

/-- The loop `for _, v := range i[1:]` of `getTags`. -/
def getTags.loop : List String → CSRGetOption → CSRGetOption
  | [], getOption => getOption
  | v :: rest, getOption =>
    if v = "sensitive" then getTags.loop rest { getOption with Sensitive := true }
    else if v = "required" then getTags.loop rest { getOption with Required := true }
    else getTags.loop rest getOption

/-- Go: `func (r *Cuttle) getTags(structTag reflect.StructTag, tag string) (CSRGetOption, string)` -/
def getTags (structTag : StructTag) (tag : String) : CSRGetOption × String :=
  let getOption : CSRGetOption := { Sensitive := false, Required := false }
  match structTag.Lookup "as" with
  | some asTag =>
    match Split asTag ',' with
    | [] => (getOption, tag)
    | i0 :: rest =>
      let tag := if i0 != "" then i0 else tag
      (getTags.loop rest getOption, tag)
  | none => (getOption, tag)

/-- The body of the loop of `structResolvers` for one field: the resolver appended
for it (`none` is a nil `ResolverFunc`). -/
def structResolver (L : Lib) (field : StructField) : Option ResolverFunc :=
  let structTag := field.Tag
  let (getOption, tag) := getTags structTag field.Name
  let ctxResolvers : ContextResolvers :=
    match structTag.Lookup "bind" with
    | some lookup => GetResolvers (Split lookup ',')
    | none => GetResolvers ["param", "query"]
  if !field.IsExported then none
  else if (structTag.Lookup "return").isSome || !field.IsExported then none
  else
    let structResolver : Option ResolverFunc :=
      match field.Typ.Kind with
      | .String => some (fun ctx =>
          let (s, err) := ContextResolvers.Get L ctxResolvers tag getOption ctx
          (.str s, err))
      | .Int | .Int8 | .Int16 | .Int32 | .Int64 => some (fun ctx =>
          match ContextResolvers.Get L ctxResolvers tag getOption ctx with
          | (_, some err) => (.nil, some err)
          | (get, none) =>
            match Atoi L get with
            | .error err => (.invalid, some (.wrap "not a number: " err))
            | .ok atoi => (.int (SetInt field.Typ.Kind atoi), none))
      | .Float32 | .Float64 => some (fun ctx =>
          match ContextResolvers.Get L ctxResolvers tag getOption ctx with
          | (_, some err) => (.nil, some err)
          | (get, none) =>
            match L.ParseFloat get with
            | .error err => (.invalid, some (.wrap "not a number: " err))
            | .ok val => (.float (SetFloat L field.Typ.Kind val), none))
      | .Uint | .Uint8 | .Uint16 | .Uint32 | .Uint64 => some (fun ctx =>
          match ContextResolvers.Get L ctxResolvers tag getOption ctx with
          | (_, some err) => (.nil, some err)
          | (get, none) =>
            match ParseUint L get with
            | .error err => (.invalid, some (.wrap "not a number: " err))
            | .ok val => (.uint (SetUint field.Typ.Kind val), none))
      | .Interface =>
        if field.Typ.IsReader then some (fun ctx => (.reader ctx.Body, none)) else none
      | .Ptr =>
        if field.Typ.AssignableToFileHeader then some (fun ctx =>
          let (fh, err) := ctx.FormFile tag
          (.file fh, err))
        else none
      | _ => none
    if field.Typ.ConvertibleToContext then some (fun _ => (.context, none))
    else structResolver

/-- Go: `func (r *Cuttle) structResolvers(inT reflect.Type) []ResolverFunc` -/
def structResolvers (L : Lib) (inT : RType) : List (Option ResolverFunc) :=
  inT.Fields.map (structResolver L)

/-- The zero value of a field, which `reflect.New(inType)` gives to every field. -/
def zeroValue (t : FieldType) : FieldValue :=
  match t.Kind with
  | .Bool => .bool false
  | .String => .str ""
  | .Int | .Int8 | .Int16 | .Int32 | .Int64 => .int 0
  | .Uint | .Uint8 | .Uint16 | .Uint32 | .Uint64 | .Uintptr => .uint 0
  | .Float32 | .Float64 => .float 0
  | .Ptr => if t.AssignableToFileHeader then .file none else .nil
  | .Interface | .Slice | .Map | .Chan | .Func => .nil
  | _ => .zero

/-- The condition under which `in.Elem().Field(i).Set(reflect.ValueOf(value))` stores
the value in a field of type `t`; otherwise `Set` panics.  A string value has the type
`string` and the context value its own type, for which `t` records the assignability.
The numbers are made with `reflect.New(field.Type)` and have the type of the field;
the reader is a `*bufio.Reader`, stored in a field of type `io.Reader`, and the file
a `*multipart.FileHeader`, stored in a field whose type is assignable to that type and
from it.  A nil interface or a zero `reflect.Value` gives a `reflect.Value` that `Set`
rejects; no coercion returns one of them, or a bool, without an error. -/
def assignable (t : FieldType) : FieldValue → Bool
  | .str _ => t.AssignableFromString
  | .context => t.AssignableFromContext
  | .int _ | .uint _ | .float _ | .reader _ | .file _ => true
  | .invalid | .nil | .zero | .bool _ => false

/-- The loop `for i, resolver := range resolvers` of the struct assembler: the field
values of `in` after the loop and the failures, in field order, or the panic of the
first `Set` that rejects its value, after which no later resolver runs.  A field whose
resolver is nil or fails keeps its zero value. -/
def assemble.loop (context : Context) :
    List StructField → List (Option ResolverFunc) →
      Except Panic (List FieldValue × List ValidationFail)
  | field :: fields, resolver :: resolvers =>
    match resolver with
    | none =>
      (assemble.loop context fields resolvers).map
        (fun r => (zeroValue field.Typ :: r.1, r.2))
    | some resolver =>
      match resolver context with
      | (_, some err) =>
        (assemble.loop context fields resolvers).map
          (fun r => (zeroValue field.Typ :: r.1,
            { Field := field.Name, Err := err.Error } :: r.2))
      | (value, none) =>
        if assignable field.Typ value then
          (assemble.loop context fields resolvers).map (fun r => (value :: r.1, r.2))
        else .error (.notAssignable field.Name)
  | fields, _ => .ok (fields.map (fun f => zeroValue f.Typ), [])

/-- The struct assembler: the resolver `res` compiled by `handle` in the `default`
case of a struct parameter. -/
def assemble (inType : RType) (resolvers : List (Option ResolverFunc)) : InputResolver :=
  fun context =>
    match assemble.loop context inType.Fields resolvers with
    | .error p => (.error p, [])
    | .ok (inv, failures) =>
      if failures.length != 0 then
        let body : FailureBody := { message := "validation failed", fields := failures }
        (.ok (.invalid, false, context.JSON 400 body), [.JSON 400 body])
      else (.ok (.struct inv, true, none), [])

/-- The body of the loop of `handle` for one parameter: the resolver appended to
`inputResolvers` for it (`none` is a nil func). -/
def inputResolver (L : Lib) (inType : RType) : Option InputResolver :=
  if inType.Kind = .Struct && inType.Fields.length > 0 then
    match inType.Fields with
    | [] => none
    | firstField :: _ =>
      if firstField.Typ.IsFromJson then some (fun ctx =>
        let (val, err) := ctx.Decode inType
        (.ok (.struct val, true, err), []))
      else if firstField.Typ.IsAsReturn then some (fun _ =>
        (.ok (.struct (inType.Fields.map (fun f => zeroValue f.Typ)), true, none), []))
      else
        let resolvers := structResolvers L inType
        some (assemble inType resolvers)
  else if inType.ImplementsContext then some (fun _ => (.ok (.context, true, none), []))
  else none

/-- The loop of `finalResolver`; `vals` is the slice built so far. -/
def finalResolver.loop (ctx : Context) :
    List (Option InputResolver) → List Value →
      Except Panic (Option (List Value) × Option GoError) × List Event
  | [], vals => (.ok (if vals.isEmpty then none else some vals, none), [])
  | none :: _, _ => (.error .nilFuncCall, [])
  | some resolver :: rest, vals =>
    match resolver ctx with
    | (.error p, ev) => (.error p, ev)
    | (.ok (value, ok, err), ev) =>
      if !ok then (.ok (none, some (.new "request validation failed")), ev)
      else
        match err with
        | some e => (.ok (none, some e), ev)
        | none =>
          let (res, ev2) := finalResolver.loop ctx rest (vals ++ [value])
          (res, ev ++ ev2)

/-- The closure `finalResolver` built by `handle`. -/
def finalResolver (inputResolvers : List (Option InputResolver)) : FinalResolver :=
  fun ctx => finalResolver.loop ctx inputResolvers []

/-- Go: `func (r *Cuttle) handle(path string, userHandler interface{}) FinalResolver` -/
def handle (L : Lib) (path : String) (userHandler : UserHandler) : Except Panic FinalResolver :=
  match userHandler.TypeOf with
  | none => .error .nilDereference
  | some handlerType =>
    if handlerType.Kind != .Func then .error (.notFunc handlerType.Kind)
    else if handlerType.In.length < 1 then .error (.noArgument path)
    else if handlerType.Out.length != 1 || (handlerType.Out.head?.map (fun t => t.Str)) != some "error" then
      .error (.notError path)
    else .ok (finalResolver (handlerType.In.map (inputResolver L)))

/-- The function that `Method` registers with `Echo.Add`: `r` is the router when the
request is served. -/
def Method.serve (finalResolver : FinalResolver) (userHandler : UserHandler) (r : Cuttle)
    (context : Context) : Except Panic (Option GoError) × List Event :=
  match finalResolver context with
  | (.error p, ev) => (.error p, ev)
  | (.ok (_, some err), ev) => (.ok (some (.wrap "request validation failed: " err)), ev)
  | (.ok (none, none), ev) => (.ok none, ev)
  | (.ok (some inv, none), ev) =>
    match userHandler.Call inv with
    | none => (.ok none, ev ++ [.Call inv])
    | some retVal =>
      match r.ErrorHandler with
      | some _ => (.ok none, ev ++ [.Call inv, .ErrorHandler retVal])
      | none => (.ok (some retVal), ev ++ [.Call inv])

/-- Go: `func (r *Cuttle) Method(method, path string, userHandler interface{}, ...)`: the
function registered for the route, or the panic of the registration. -/
def Method (L : Lib) (_method path : String) (userHandler : UserHandler) :
    Except Panic (Cuttle → Context → Except Panic (Option GoError) × List Event) :=
  match handle L path userHandler with
  | .error p => .error p
  | .ok finalResolver => .ok (Method.serve finalResolver userHandler)

/-! ## net/http headers -/

/-- Go: `validHeaderFieldByte` of `net/textproto`: the token characters of a header
field name, that is letters, digits and the signs of the code points listed. -/
def validHeaderFieldByte (c : Char) : Bool :=
  let n := c.toNat
  (48 ≤ n && n ≤ 57) || (65 ≤ n && n ≤ 90) || (97 ≤ n && n ≤ 122) ||
    n == 33 || (35 ≤ n && n ≤ 39) || n == 42 || n == 43 || n == 45 || n == 46 ||
    (94 ≤ n && n ≤ 96) || n == 124 || n == 126

/-- The second loop of `canonicalMIMEHeaderKey`: the first letter and every letter
after a dash in upper case, the other letters in lower case. -/
def CanonicalMIMEHeaderKey.go (upper : Bool) : List Char → List Char
  | [] => []
  | c :: cs =>
    let c := if upper then c.toUpper else c.toLower
    c :: CanonicalMIMEHeaderKey.go (c == '-') cs

/-- Go: `textproto.CanonicalMIMEHeaderKey`: a key with a character that is not a token
character is returned unchanged. -/
def CanonicalMIMEHeaderKey (s : String) : String :=
  if s.data.all validHeaderFieldByte then String.mk (CanonicalMIMEHeaderKey.go true s.data)
  else s

/-- Go: `http.Header`, a map from canonical keys to values, as its entries. -/
abbrev Header := List (String × List String)

/-- The map lookup `h[key]`. -/
def Header.values (h : Header) (key : String) : List String :=
  match h with
  | [] => []
  | (k, vs) :: rest => if k = key then vs else Header.values rest key

/-- The map update `h[key] = vs`. -/
def Header.set (h : Header) (key : String) (vs : List String) : Header :=
  match h with
  | [] => [(key, vs)]
  | (k, v) :: rest => if k = key then (k, vs) :: rest else (k, v) :: Header.set rest key vs

/-- Go: `Header.Add(key, value)`: the value is appended under the canonical key. -/
def Header.Add (h : Header) (key value : String) : Header :=
  Header.set h (CanonicalMIMEHeaderKey key)
    (Header.values h (CanonicalMIMEHeaderKey key) ++ [value])

/-- Go: `Header.Get(key)`: the first value under the canonical key, or the empty string. -/
def Header.Get (h : Header) (key : String) : String :=
  match Header.values h (CanonicalMIMEHeaderKey key) with
  | [] => ""
  | v :: _ => v

/-- The header lookup of a request context answers from the header map `h`. -/
def carriesHeaders (ctx : Context) (h : Header) : Prop :=
  ∀ n, ctx.Header n = Header.Get h n

/-! ## type_map.go -/

/-- Go: `func (k Kind) String() string`, the entry of `kindNames` for the kind. -/
def kindNames : Kind → String
  | .Invalid => "invalid"
  | .Bool => "bool"
  | .Int => "int"
  | .Int8 => "int8"
  | .Int16 => "int16"
  | .Int32 => "int32"
  | .Int64 => "int64"
  | .Uint => "uint"
  | .Uint8 => "uint8"
  | .Uint16 => "uint16"
  | .Uint32 => "uint32"
  | .Uint64 => "uint64"
  | .Uintptr => "uintptr"
  | .Float32 => "float32"
  | .Float64 => "float64"
  | .Complex64 => "complex64"
  | .Complex128 => "complex128"
  | .Array => "array"
  | .Chan => "chan"
  | .Func => "func"
  | .Interface => "interface"
  | .Map => "map"
  | .Ptr => "ptr"
  | .Slice => "slice"
  | .String => "string"
  | .Struct => "struct"
  | .UnsafePointer => "unsafe.Pointer"

/-- The identity of a `reflect.Type` of a program.  The types of Go can refer to
themselves through slices, so a field holds the identity of its type and the types
are looked up in the table of the program. -/
abbrev TypeId := Nat

/-- A `reflect.StructField` as `GenerateTypeMap` reads it. -/
structure TypeField where
  Name : String
  PkgPath : String
  Tag : StructTag
  Typ : TypeId
  deriving DecidableEq, Repr

/-- Go: `StructField.IsExported` -/
def TypeField.IsExported (f : TypeField) : Bool := f.PkgPath == ""

/-- A `reflect.Type` as `GenerateTypeMap` reads it: `Fields` lists
`Field(0) .. Field(NumField()-1)` of a struct type and `Elem` is `Elem()` of a slice
type. -/
structure TypeInfo where
  Kind : Kind
  Fields : List TypeField
  Elem : TypeId
  deriving DecidableEq, Repr

/-- The table of the types of a program. -/
abbrev Types := TypeId → TypeInfo

/-- The values of the `map[string]interface{}` built by `GenerateTypeMap`: a kind name,
a nested map as its entries, or a `[]interface{}`. -/
inductive TypeMapValue where
  | kind (name : String)
  | map (entries : List (String × TypeMapValue))
  | slice (elems : List TypeMapValue)

/-- A `map[string]interface{}` as its entries, one per key. -/
abbrev TypeMap := List (String × TypeMapValue)

/-- The map lookup `m[key]`. -/
def TypeMap.get (m : TypeMap) (key : String) : Option TypeMapValue :=
  match m with
  | [] => none
  | (k, v) :: rest => if k = key then some v else TypeMap.get rest key

/-- The map assignment `m[key] = value`: the value of an existing key is replaced. -/
def TypeMap.set (m : TypeMap) (key : String) (value : TypeMapValue) : TypeMap :=
  match m with
  | [] => [(key, value)]
  | (k, v) :: rest =>
    if k = key then (k, value) :: rest else (k, v) :: TypeMap.set rest key value

/-- The variable `name` of `GenerateTypeMap` for a field: `strings.Split(lookup, ",")[0]`
for the `json` tag, or the name of the field without that tag.  `Split` gives at least
one piece (`Split_go_ne_nil`), so the index 0 is always there. -/
def GenerateTypeMap.name (value : TypeField) : String :=
  match value.Tag.Lookup "json" with
  | some lookup =>
    match Split lookup ',' with
    | [] => value.Name
    | s0 :: _ => s0
  | none => value.Name

/-- The variable `t` of `GenerateTypeMap` for a field; `self` is `GenerateTypeMap` for
the recursive calls, `none` when it does not return. -/
def GenerateTypeMap.t (P : Types) (self : TypeId → Option (Except Panic TypeMap))
    (value : TypeField) : Option (Except Panic TypeMapValue) :=
  match (P value.Typ).Kind with
  | .Struct =>
    match self value.Typ with
    | none => none
    | some (.error p) => some (.error p)
    | some (.ok m) => some (.ok (.map m))
  | .Slice =>
    match self (P value.Typ).Elem with
    | none => none
    | some (.error p) => some (.error p)
    | some (.ok m) => some (.ok (.slice [.map m]))
  | k => some (.ok (.kind (kindNames k)))

/-- The loop over the fields in `GenerateTypeMap`; `typeMap` is the map built so far. -/
def GenerateTypeMap.loop (P : Types) (self : TypeId → Option (Except Panic TypeMap)) :
    List TypeField → TypeMap → Option (Except Panic TypeMap)
  | [], typeMap => some (.ok typeMap)
  | value :: rest, typeMap =>
    if !value.IsExported then GenerateTypeMap.loop P self rest typeMap
    else
      match GenerateTypeMap.t P self value with
      | none => none
      | some (.error p) => some (.error p)
      | some (.ok t) =>
        GenerateTypeMap.loop P self rest (typeMap.set (GenerateTypeMap.name value) t)

/-- Go: `func GenerateTypeMap(typeVal reflect.Type) map[string]interface{}`.  `fuel`
bounds the depth of the recursive calls: the result is `none` when the call does not
return within that depth, a panic of `NumField` for a type that is not a struct, and
the map otherwise. -/
def GenerateTypeMap : Nat → Types → TypeId → Option (Except Panic TypeMap)
  | 0, _, _ => none
  | fuel + 1, P, typeVal =>
    if (P typeVal).Kind != .Struct then some (.error (.numFieldOfNonStruct (P typeVal).Kind))
    else GenerateTypeMap.loop P (GenerateTypeMap fuel P) (P typeVal).Fields []

/-- `GenerateTypeMap` returns the map `m` for a type. -/
def returnsMap (P : Types) (typeVal : TypeId) (m : TypeMap) : Prop :=
  ∃ fuel, GenerateTypeMap fuel P typeVal = some (.ok m)

/-- The types `GenerateTypeMap` calls itself with for a struct type: the type of every
exported field of kind struct and the element type of every exported field of kind
slice. -/
def nestedTypes (P : Types) (typeVal : TypeId) : List TypeId :=
  (P typeVal).Fields.filterMap (fun value =>
    if value.IsExported then
      match (P value.Typ).Kind with
      | .Struct => some value.Typ
      | .Slice => some (P value.Typ).Elem
      | _ => none
    else none)

/-- The nesting of the types of `S` is well-founded: every type of `S` is a struct type
and each type nested in it is in `S` again, with a smaller rank. -/
def wellNested (P : Types) (S : TypeId → Prop) (rank : TypeId → Nat) : Prop :=
  ∀ typeVal, S typeVal →
    (P typeVal).Kind = .Struct ∧ ∀ u ∈ nestedTypes P typeVal, S u ∧ rank u < rank typeVal

/-- What the map holds for a field that `GenerateTypeMap` has stored: the kind name of
the type of the field, the map of a struct type, or the one-element list with the map
of the element type of a slice type. -/
def fieldEntry (P : Types) (value : TypeField) (v : TypeMapValue) : Prop :=
  match (P value.Typ).Kind with
  | .Struct => ∃ m, returnsMap P value.Typ m ∧ v = .map m
  | .Slice => ∃ m, returnsMap P (P value.Typ).Elem m ∧ v = .slice [.map m]
  | k => v = .kind (kindNames k)

/-- The key the specification gives to a field: the first comma-segment of its `json`
tag when the tag is present, and the declared name of the field otherwise. -/
def jsonKey (f : TypeField) : String :=
  match f.Tag.Lookup "json" with
  | some tag => (Split tag ',').headD ""
  | none => f.Name

/-- The map the specification describes for a struct type: every key is the key of an
exported field, and the key of every exported field holds the entry of that field. -/
def describes (P : Types) (typeVal : TypeId) (m : TypeMap) : Prop :=
  (∀ key, (m.get key).isSome = true →
    ∃ f ∈ (P typeVal).Fields, f.IsExported = true ∧ jsonKey f = key) ∧
  (∀ f ∈ (P typeVal).Fields, f.IsExported = true →
    ∃ v, m.get (jsonKey f) = some v ∧ fieldEntry P f v)

/-! ## Specification vocabulary for the resolver chain -/

/-- What one resolver of a chain yields for a field: the value under the exact name
and, when that is empty and the lookup is not case sensitive, the value under the
lowercased name. -/
def chainValue (L : Lib) (r : ContextResolverFunc) (name : String) (option : CSRGetOption)
    (ctx : Context) : String :=
  if r name ctx ≠ "" then r name ctx
  else if option.Sensitive then "" else r (L.ToLower name) ctx

/-- No resolver of the chain yields a value. -/
def noValue (L : Lib) (cr : ContextResolvers) (name : String) (option : CSRGetOption)
    (ctx : Context) : Prop :=
  ∀ r ∈ cr, chainValue L r name option ctx = ""

instance (L : Lib) (cr : ContextResolvers) (name : String) (option : CSRGetOption)
    (ctx : Context) : Decidable (noValue L cr name option ctx) := by
  unfold noValue; infer_instance

/-- The chain compiled by `structResolvers` for a field: the resolvers named by its
`bind` tag, or `param` followed by `query`. -/
def fieldChain (field : StructField) : ContextResolvers :=
  match field.Tag.Lookup "bind" with
  | some lookup => GetResolvers (Split lookup ',')
  | none => GetResolvers ["param", "query"]

/-- The lookup name of a field: the second component of `getTags`. -/
def fieldTag (field : StructField) : String := (getTags field.Tag field.Name).2

/-- The options of a field: the first component of `getTags`. -/
def fieldOption (field : StructField) : CSRGetOption := (getTags field.Tag field.Name).1

def intKind (k : Kind) : Bool :=
  match k with
  | .Int | .Int8 | .Int16 | .Int32 | .Int64 => true
  | _ => false

def uintKind (k : Kind) : Bool :=
  match k with
  | .Uint | .Uint8 | .Uint16 | .Uint32 | .Uint64 => true
  | _ => false

def floatKind (k : Kind) : Bool :=
  match k with
  | .Float32 | .Float64 => true
  | _ => false

/-- The failure that the struct assembler records for a field under a resolver. -/
def failureOf (context : Context) (field : StructField) (resolver : Option ResolverFunc) :
    Option ValidationFail :=
  match resolver with
  | none => none
  | some resolver =>
    match (resolver context).2 with
    | some err => some { Field := field.Name, Err := err.Error }
    | none => none

/-- The failures of a field plan: in field order, the failure of every field whose
resolver returned an error. -/
def planFailures (context : Context) (fields : List StructField)
    (resolvers : List (Option ResolverFunc)) : List ValidationFail :=
  (fields.zip resolvers).filterMap (fun p => failureOf context p.1 p.2)

/-- The failures that the struct assembler of a struct type reports for a request:
the second component of its loop over the compiled plan; none when the loop panics. -/
def structFailures (L : Lib) (T : RType) (context : Context) : List ValidationFail :=
  match assemble.loop context T.Fields (structResolvers L T) with
  | .ok r => r.2
  | .error _ => []

/-- The type of a field accepts the value that its coercion returns: a field that is
convertible to the request context has a type to which the context value is
assignable, and any other field of string kind a type to which a `string` is
assignable, which among the types of string kind is the type `string` alone. -/
def accepts (t : FieldType) : Bool :=
  if t.ConvertibleToContext then t.AssignableFromContext
  else t.Kind != .String || t.AssignableFromString

/-- Every resolver of a plan that returns without an error on a request returns a value
that `Set` stores in its field. -/
def storable (context : Context) (fields : List StructField)
    (resolvers : List (Option ResolverFunc)) : Prop :=
  ∀ p ∈ fields.zip resolvers, ∀ r, p.2 = some r → (r context).2 = none →
    assignable p.1.Typ (r context).1 = true

/-- The values of the fields after the loop of the struct assembler, when no `Set`
panics: the value of the resolver where it returned without an error, the zero value
of the field elsewhere. -/
def planValues (context : Context) : List StructField → List (Option ResolverFunc) →
    List FieldValue
  | field :: fields, resolver :: resolvers =>
    (match resolver with
      | none => zeroValue field.Typ
      | some r =>
        match r context with
        | (_, some _) => zeroValue field.Typ
        | (value, none) => value) :: planValues context fields resolvers
  | fields, _ => fields.map (fun f => zeroValue f.Typ)

/-- A field is marked required and its value is absent from the request: no resolver
of its chain yields a value under its lookup name. -/
def requiredAbsent (L : Lib) (field : StructField) (context : Context) : Prop :=
  (fieldOption field).Required = true ∧
    noValue L (fieldChain field) (fieldTag field) (fieldOption field) context

instance (L : Lib) (field : StructField) (context : Context) :
    Decidable (requiredAbsent L field context) := by
  unfold requiredAbsent; infer_instance

/-- Kinds whose coercion reads the resolver chain: string, integer, unsigned, float. -/
def chainKind (k : Kind) : Bool :=
  k == .String || intKind k || uintKind k || floatKind k

/-- The handler shape that registration rejects: the handler is not a function (a nil
handler included), or has no parameter, or does not have exactly one return value,
or its return value is not of type `error`. -/
def malformed (userHandler : UserHandler) : Prop :=
  match userHandler.TypeOf with
  | none => True
  | some t =>
    t.Kind ≠ .Func ∨ t.In.length < 1 ∨ t.Out.length ≠ 1 ∨ ∃ out, t.Out = [out] ∧ out.Str ≠ "error"

/-- A bindable struct parameter: a struct with one field or more whose first field is
neither the `FromJson` nor the `AsReturn` marker. -/
def bindable (T : RType) : Bool :=
  T.Kind == .Struct &&
    match T.Fields with
    | [] => false
    | first :: _ => !first.Typ.IsFromJson && !first.Typ.IsAsReturn

/-- A parameter that receives the request context: it is not a struct with fields and
its type implements `Context`. -/
def contextParam (T : RType) : Bool :=
  !(T.Kind == .Struct && T.Fields.length > 0) && T.ImplementsContext

/-- The source names that `ctxResolvers` knows. -/
def knownSource (n : String) : Bool :=
  n == "query" || n == "param" || n == "header" || n == "form" || n == "file"

/-- A field type for which `structResolvers` has a coercion: a string, integer,
unsigned or float kind, the interface `io.Reader`, a pointer assignable to
`*multipart.FileHeader`, or a type convertible to the request context. -/
def coercible (t : FieldType) : Bool :=
  chainKind t.Kind || (t.Kind == .Interface && t.IsReader) ||
    (t.Kind == .Ptr && t.AssignableToFileHeader) || t.ConvertibleToContext

/-- What the dispatch adapter does once the arguments are resolved: it calls the
handler with them and maps its result. -/
def handlerOutcome (userHandler : UserHandler) (r : Cuttle) (args : List Value) :
    Except Panic (Option GoError) × List Event :=
  match userHandler.Call args with
  | none => (.ok none, [.Call args])
  | some e =>
    match r.ErrorHandler with
    | none => (.ok (some e), [.Call args])
    | some _ => (.ok none, [.Call args, .ErrorHandler e])

/-- A per-parameter resolver succeeds on a request: it returns, reports that validation
passed and returns no error. -/
def succeeds (res : InputResolver) (ctx : Context) : Prop :=
  match (res ctx).1 with
  | .ok (_, ok, err) => ok = true ∧ err = none
  | .error _ => False

instance (res : InputResolver) (ctx : Context) : Decidable (succeeds res ctx) := by
  unfold succeeds
  split <;> infer_instance

/-- The value that a per-parameter resolver returns on a request. -/
def resolvedValue (res : InputResolver) (ctx : Context) : Value :=
  match (res ctx).1 with
  | .ok (value, _, _) => value
  | .error _ => .invalid

/-- What the final resolver returns for a parameter resolver that does not succeed: no
argument list, with the fixed validation error when validation did not pass and the
resolver's own error otherwise; the panic of a resolver that panics. -/
def failureError (res : InputResolver) (ctx : Context) :
    Except Panic (Option (List Value) × Option GoError) :=
  match (res ctx).1 with
  | .ok (_, ok, err) =>
    .ok (none, if ok = false then some (.new "request validation failed") else err)
  | .error p => .error p

/-- A request that carries no data: every query, path, header and form lookup is
empty. -/
def noData (ctx : Context) : Prop :=
  ∀ n, ctx.QueryParam n = "" ∧ ctx.Param n = "" ∧ ctx.Header n = "" ∧ ctx.FormValue n = ""

/-- A bindable field: exported and without a `return` tag. -/
def bindableField (f : StructField) : Bool :=
  f.IsExported && !(f.Tag.Lookup "return").isSome

/-- The comma-segments of the `bind` tag of a field; none when the tag is absent. -/
def bindSegments (f : StructField) : List String :=
  match f.Tag.Lookup "bind" with
  | some tag => Split tag ','
  | none => []

/-- A base-10 signed integer literal, an optional sign followed by one or more decimal
digits, and the integer it denotes. -/
def signedLiteral (s : String) : Option Int :=
  let body : List Char :=
    match s.data with
    | '-' :: r => r
    | '+' :: r => r
    | cs => cs
  if body.isEmpty || !body.all isDigit then none
  else if s.data.head? == some '-' then some (-(digitsValue body : Int))
  else some (digitsValue body : Int)

/-- A base-10 unsigned integer literal, one or more decimal digits, and the number it
denotes. -/
def unsignedLiteral (s : String) : Option Nat :=
  if s.data.isEmpty || !s.data.all isDigit then none else some (digitsValue s.data)

/-- The number of bits of an integer or unsigned kind. -/
def kindBits (k : Kind) : Nat :=
  match k with
  | .Int8 | .Uint8 => 8
  | .Int16 | .Uint16 => 16
  | .Int32 | .Uint32 => 32
  | _ => 64

/-- What the coercion of a field of kind `k` makes of the result of the chain lookup:
for the string kind the value and the error as they are; for an integer, unsigned or
float kind the error of the lookup, or else the error of the parse, or else the parsed
number stored in a value of kind `k`. -/
def coercion (L : Lib) (k : Kind) (got : String × Option GoError) :
    FieldValue × Option GoError :=
  if k = .String then (.str got.1, got.2)
  else
    match got with
    | (_, some err) => (.nil, some err)
    | (get, none) =>
      if intKind k then
        match Atoi L get with
        | .error err => (.invalid, some (.wrap "not a number: " err))
        | .ok atoi => (.int (SetInt k atoi), none)
      else if uintKind k then
        match ParseUint L get with
        | .error err => (.invalid, some (.wrap "not a number: " err))
        | .ok val => (.uint (SetUint k val), none)
      else
        match L.ParseFloat get with
        | .error err => (.invalid, some (.wrap "not a number: " err))
        | .ok val => (.float (SetFloat L k val), none)

/-- The header map of a request to which the header lines `lines`, each a name and a
value, were added in order with `Header.Add`. -/
def headerOf (lines : List (String × String)) : Header :=
  lines.foldl (fun h l => Header.Add h l.1 l.2) []

/-! ## Concrete data used by examples -/

/-- Lowercasing of the ASCII letters, on which `strings.ToLower` agrees. -/
def asciiLower (s : String) : String := String.mk (s.data.map Char.toLower)

/-- Quoting of a string without characters that need an escape. -/
def plainQuote (s : String) : String := "\"" ++ s ++ "\""

/-- The library instance of the examples, none of which has a float field: names are
ASCII, quoted strings need no escape, and `ParseFloat`, which is not modelled,
rejects every input. -/
def asciiLib : Lib where
  ToLower := asciiLower
  Quote := plainQuote
  ParseFloat := fun _ => .error (.new "strconv.ParseFloat: invalid syntax")
  Float32 := fun b => b

/-- The predeclared type `string` as a field type. -/
def stringT : FieldType := ⟨.String, false, false, false, false, false, true, false⟩

/-- The predeclared type `int` as a field type. -/
def intT : FieldType := ⟨.Int, false, false, false, false, false, false, false⟩

/-- The predeclared type `bool` as a field type. -/
def boolT : FieldType := ⟨.Bool, false, false, false, false, false, false, false⟩

/-- The field `Count int`. -/
def countField : StructField := ⟨"Count", "", intT, []⟩

/-- The field `Query string`. -/
def queryField : StructField := ⟨"Query", "", stringT, []⟩

/-- The field ``Flag bool `as:"flag,required"` ``. -/
def flagField : StructField := ⟨"Flag", "", boolT, [("as", "flag,required")]⟩

/-- The struct type `struct { Flag bool; Query string }` with the tags above. -/
def flagStruct : RType :=
  { Kind := .Struct, Str := "struct", ImplementsContext := false,
    Fields := [flagField, queryField] }

/-- The field ``Query string `bind:"query" as:"q,required"` ``. -/
def qField : StructField := ⟨"Query", "", stringT, [("bind", "query"), ("as", "q,required")]⟩

/-- The struct type of the handler of `TestRouter_GET`, without its context and
unexported fields: `struct { Query string; Count int }` with the tags above. -/
def getStruct : RType :=
  { Kind := .Struct, Str := "struct", ImplementsContext := false,
    Fields := [qField, countField] }

/-- The predeclared interface type `error` as a result type. -/
def errorT : RType := ⟨.Interface, "error", [], false⟩

/-- A handler `func(a struct { Query string; Count int }) error` that returns nil. -/
def getHandler : UserHandler := ⟨some ⟨.Func, [getStruct], [errorT]⟩, fun _ => none⟩

/-- A request with the query `q=hello+world&Count=wow`. -/
def wowCtx : Context where
  QueryParam := fun n => if n = "Count" then "wow" else if n = "q" then "hello world" else ""
  Param := fun _ => ""
  Header := fun _ => ""
  FormValue := fun _ => ""
  FormFile := fun _ => (none, some (.new "http: no such file"))
  Body := ""
  Decode := fun _ => ([], some (.new "EOF"))
  JSON := fun _ _ => none

/-- A request with the query `q=hello+world&Count=69`. -/
def okCtx : Context where
  QueryParam := fun n => if n = "Count" then "69" else if n = "q" then "hello world" else ""
  Param := fun _ => ""
  Header := fun _ => ""
  FormValue := fun _ => ""
  FormFile := fun _ => (none, some (.new "http: no such file"))
  Body := ""
  Decode := fun _ => ([], some (.new "EOF"))
  JSON := fun _ _ => none

/-- The interface type `Context` as a parameter type. -/
def contextT : RType := ⟨.Interface, "cuttle.Context", [], true⟩

/-- A handler `func(a struct { Query string; Count int }) error` that returns an error. -/
def failHandler : UserHandler :=
  ⟨some ⟨.Func, [getStruct], [errorT]⟩, fun _ => some (.new "boom")⟩

/-- The predeclared type `int` as a parameter type. -/
def intParamT : RType := ⟨.Int, "int", [], false⟩

/-- A handler `func(n int) error` that returns nil. -/
def intHandler : UserHandler := ⟨some ⟨.Func, [intParamT], [errorT]⟩, fun _ => none⟩

/-- A request on a route with the path parameter `Count`, as in `/t/5?Count=7`. -/
def pathCtx : Context where
  QueryParam := fun n => if n = "Count" then "7" else ""
  Param := fun n => if n = "Count" then "5" else ""
  Header := fun _ => ""
  FormValue := fun _ => ""
  FormFile := fun _ => (none, some (.new "http: no such file"))
  Body := ""
  Decode := fun _ => ([], some (.new "EOF"))
  JSON := fun _ _ => none

/-- The type `*multipart.FileHeader` as a field type. -/
def fileHeaderT : FieldType := ⟨.Ptr, false, false, false, true, false, false, false⟩

/-- The interface type `Context` as a field type. -/
def contextFieldT : FieldType := ⟨.Interface, false, false, false, false, true, false, true⟩

/-- The marker type `FromJson` as a field type. -/
def fromJsonT : FieldType := ⟨.Struct, true, false, false, false, false, false, false⟩

/-- The field ``Avatar *multipart.FileHeader `as:"avatar"` ``. -/
def avatarField : StructField := ⟨"Avatar", "", fileHeaderT, [("as", "avatar")]⟩

/-- The struct type of the handler of `TestHandler_FormFileDump`:
``ID string `bind:"form"` ``, ``Avatar *multipart.FileHeader `as:"avatar"` `` and
``Ctx Context `json:"-"` ``. -/
def formStruct : RType :=
  { Kind := .Struct, Str := "struct", ImplementsContext := false,
    Fields := [⟨"ID", "", stringT, [("bind", "form")]⟩, avatarField,
      ⟨"Ctx", "", contextFieldT, [("json", "-")]⟩] }

/-- The upload of `TestHandler_FormFileDump`. -/
def wowFile : FileHeader := ⟨"wow.txt", "hello world!"⟩

/-- The multipart request of `TestHandler_FormFileDump`: the form field `id` and the
file `avatar`. -/
def uploadCtx : Context where
  QueryParam := fun _ => ""
  Param := fun _ => ""
  Header := fun _ => ""
  FormValue := fun n => if n = "id" then "furry.png" else ""
  FormFile := fun n => if n = "avatar" then (some wowFile, none)
    else (none, some (.new "http: no such file"))
  Body := ""
  Decode := fun _ => ([], some (.new "EOF"))
  JSON := fun _ _ => none

/-- The struct type of the handler of `TestHandler_DumpJson`: the embedded `FromJson`
followed by `FirstName string`, `LastName string` and `Age int`. -/
def jsonStruct : RType :=
  { Kind := .Struct, Str := "struct", ImplementsContext := false,
    Fields := [⟨"FromJson", "", fromJsonT, []⟩,
      ⟨"FirstName", "", stringT, [("json", "first_name,omitempty")]⟩,
      ⟨"LastName", "", stringT, [("json", "last_name,omitempty")]⟩,
      ⟨"Age", "", intT, [("json", "age,omitempty")]⟩] }

/-- A request whose body decodes into `jsonStruct` as joe mama, age 0. -/
def jsonCtx : Context where
  QueryParam := fun _ => ""
  Param := fun _ => ""
  Header := fun _ => ""
  FormValue := fun _ => ""
  FormFile := fun _ => (none, some (.new "http: no such file"))
  Body := "first_name joe last_name mama"
  Decode := fun _ => ([.zero, .str "joe", .str "mama", .int 0], none)
  JSON := fun _ _ => none

/-- A request whose body is not JSON. -/
def badJsonCtx : Context where
  QueryParam := fun _ => ""
  Param := fun _ => ""
  Header := fun _ => ""
  FormValue := fun _ => ""
  FormFile := fun _ => (none, some (.new "http: no such file"))
  Body := "not json"
  Decode := fun _ => ([.zero, .str "", .str "", .int 0],
    some (.new "unexpected end of JSON input"))
  JSON := fun _ _ => none

/-- The field ``Name string `bind:"file"` ``. -/
def fileBoundField : StructField := ⟨"Name", "", stringT, [("bind", "file")]⟩

/-- The struct type ``struct { Name string `bind:"file"` }``. -/
def fileBoundStruct : RType :=
  { Kind := .Struct, Str := "struct", ImplementsContext := false, Fields := [fileBoundField] }

/-- The struct type ``struct { ID string `bind:"form"`; Query string; _ int }``. -/
def stringsStruct : RType :=
  { Kind := .Struct, Str := "struct", ImplementsContext := false,
    Fields := [⟨"ID", "", stringT, [("bind", "form")]⟩, queryField, ⟨"_", "locust", intT, []⟩] }

/-- The predeclared type `int8` as a field type. -/
def int8T : FieldType := ⟨.Int8, false, false, false, false, false, false, false⟩

/-- The predeclared type `uint8` as a field type. -/
def uint8T : FieldType := ⟨.Uint8, false, false, false, false, false, false, false⟩

/-- The field `Level int8`. -/
def levelField : StructField := ⟨"Level", "", int8T, []⟩

/-- The field `Age uint8`. -/
def ageField : StructField := ⟨"Age", "", uint8T, []⟩

/-- A request with the query `Level=300&Count=9223372036854775808&Age=42`. -/
def numbersCtx : Context where
  QueryParam := fun n =>
    if n = "Level" then "300" else if n = "Count" then "9223372036854775808"
    else if n = "Age" then "42" else ""
  Param := fun _ => ""
  Header := fun _ => ""
  FormValue := fun _ => ""
  FormFile := fun _ => (none, some (.new "http: no such file"))
  Body := ""
  Decode := fun _ => ([], some (.new "EOF"))
  JSON := fun _ _ => none

/-- The field ``Token string `bind:"header" as:"X-Security-Token,sensitive"` `` of
`TestRouter_TagAs`. -/
def tokenField : StructField :=
  ⟨"Token", "", stringT, [("bind", "header"), ("as", "X-Security-Token,sensitive")]⟩

/-- A request that carries the header `x-security-token: my humps`, in lower case. -/
def lowerHeaderCtx : Context where
  QueryParam := fun _ => ""
  Param := fun _ => ""
  Header := fun n => Header.Get (Header.Add [] "x-security-token" "my humps") n
  FormValue := fun _ => ""
  FormFile := fun _ => (none, some (.new "http: no such file"))
  Body := ""
  Decode := fun _ => ([], some (.new "EOF"))
  JSON := fun _ _ => none

/-- The types of `type_map_test.go`: 0 is `Sample`, 1 is `Batters`, 2 is `Topping`, 3 is
`[]Topping`, 4 is `string`, 5 is `float64`. -/
def sampleTypes : Types := fun id =>
  if id = 0 then
    ⟨.Struct, [⟨"ID", "", [("json", "id")], 4⟩, ⟨"Type", "", [("json", "type")], 4⟩,
      ⟨"Name", "", [("json", "name")], 4⟩, ⟨"Ppu", "", [("json", "ppu")], 5⟩,
      ⟨"Batters", "", [("json", "batters")], 1⟩, ⟨"Topping", "", [("json", "topping")], 3⟩], 0⟩
  else if id = 1 then ⟨.Struct, [⟨"Batter", "", [("json", "batter")], 3⟩], 0⟩
  else if id = 2 then
    ⟨.Struct, [⟨"ID", "", [("json", "id")], 4⟩, ⟨"Type", "", [("json", "type")], 4⟩], 0⟩
  else if id = 3 then ⟨.Slice, [], 2⟩
  else if id = 5 then ⟨.Float64, [], 0⟩
  else ⟨.String, [], 0⟩

/-- The field ``Password string `json:"-"` `` of `dashTypes`. -/
def passwordField : TypeField := ⟨"Password", "", [("json", "-")], 1⟩

/-- The field ``Attempts int `json:"-"` `` of `dashTypes`. -/
def attemptsField : TypeField := ⟨"Attempts", "", [("json", "-")], 2⟩

/-- The types of ``struct { Password string `json:"-"`; Attempts int `json:"-"` }``:
0 is the struct, 1 is `string`, 2 is `int`. -/
def dashTypes : Types := fun id =>
  if id = 0 then ⟨.Struct, [passwordField, attemptsField], 0⟩
  else if id = 1 then ⟨.String, [], 0⟩
  else ⟨.Int, [], 0⟩

/-- The types of `struct { Tags []string }`: 0 is the struct, 1 is `[]string`, 2 is
`string`. -/
def tagsTypes : Types := fun id =>
  if id = 0 then ⟨.Struct, [⟨"Tags", "", [], 1⟩], 0⟩
  else if id = 1 then ⟨.Slice, [], 2⟩
  else ⟨.String, [], 0⟩

/-- The types of `type Node struct { Children []Node }`: 0 is `Node`, 1 is `[]Node`. -/
def nodeTypes : Types := fun id =>
  if id = 0 then ⟨.Struct, [⟨"Children", "", [], 1⟩], 0⟩
  else ⟨.Slice, [], 0⟩

/-- A request with the path parameter `id` and the query parameter `ID`. -/
def tagAsCtx : Context where
  QueryParam := fun n => if n = "ID" then "999" else ""
  Param := fun n => if n = "id" then "123" else ""
  Header := fun _ => ""
  FormValue := fun _ => ""
  FormFile := fun _ => (none, some (.new "http: no such file"))
  Body := ""
  Decode := fun _ => ([], some (.new "EOF"))
  JSON := fun _ _ => none

/-- A request without any data: every lookup is empty. -/
def emptyCtx : Context where
  QueryParam := fun _ => ""
  Param := fun _ => ""
  Header := fun _ => ""
  FormValue := fun _ => ""
  FormFile := fun _ => (none, some (.new "http: no such file"))
  Body := ""
  Decode := fun _ => ([], some (.new "EOF"))
  JSON := fun _ _ => none

/-- A defined type `type MyString string` as a field type: of string kind, and a
`string` is not assignable to it. -/
def myStringT : FieldType := ⟨.String, false, false, false, false, false, false, false⟩

/-- The field `Name MyString`. -/
def nameField : StructField := ⟨"Name", "", myStringT, []⟩

/-- The struct type `struct { Count int; Name MyString }`. -/
def countNameStruct : RType :=
  { Kind := .Struct, Str := "struct", ImplementsContext := false,
    Fields := [countField, nameField] }

/-- The struct type `struct { Name MyString; Count int }`. -/
def nameCountStruct : RType :=
  { Kind := .Struct, Str := "struct", ImplementsContext := false,
    Fields := [nameField, countField] }

/-- A request with the query `Count=wow&Name=joe`. -/
def wowNameCtx : Context where
  QueryParam := fun n => if n = "Count" then "wow" else if n = "Name" then "joe" else ""
  Param := fun _ => ""
  Header := fun _ => ""
  FormValue := fun _ => ""
  FormFile := fun _ => (none, some (.new "http: no such file"))
  Body := ""
  Decode := fun _ => ([], some (.new "EOF"))
  JSON := fun _ _ => none

/-- A request with the query `q=hello+world&Count=9223372036854775808`. -/
def bigCountCtx : Context where
  QueryParam := fun n =>
    if n = "Count" then "9223372036854775808" else if n = "q" then "hello world" else ""
  Param := fun _ => ""
  Header := fun _ => ""
  FormValue := fun _ => ""
  FormFile := fun _ => (none, some (.new "http: no such file"))
  Body := ""
  Decode := fun _ => ([], some (.new "EOF"))
  JSON := fun _ _ => none

/-- A request on a route with the path parameter `Count`, as in
`/t/5?q=hello+world&Count=7`. -/
def pathQueryCtx : Context where
  QueryParam := fun n => if n = "Count" then "7" else if n = "q" then "hello world" else ""
  Param := fun n => if n = "Count" then "5" else ""
  Header := fun _ => ""
  FormValue := fun _ => ""
  FormFile := fun _ => (none, some (.new "http: no such file"))
  Body := ""
  Decode := fun _ => ([], some (.new "EOF"))
  JSON := fun _ _ => none

/-- A request that carries the headers `Accept: text/html` and
`x-security-token: my humps`, the second in lower case. -/
def twoHeadersCtx : Context where
  QueryParam := fun _ => ""
  Param := fun _ => ""
  Header := fun n =>
    Header.Get (headerOf ([("Accept", "text/html")] ++ ("x-security-token", "my humps") :: [])) n
  FormValue := fun _ => ""
  FormFile := fun _ => (none, some (.new "http: no such file"))
  Body := ""
  Decode := fun _ => ([], some (.new "EOF"))
  JSON := fun _ _ => none

/-! ## The resolver chain -/

theorem Get_loop_noValue (L : Lib) (name : String) (option : CSRGetOption) (ctx : Context)
    (err : Option GoError) (cr : ContextResolvers) (h : noValue L cr name option ctx) :
    ContextResolvers.Get.loop L name option ctx err cr = ("", err) := by
  induction cr with
  | nil => rfl
  | cons r rest ih =>
    have hr : chainValue L r name option ctx = "" := h r (List.mem_cons_self _ _)
    have hrest : noValue L rest name option ctx := fun p hp => h p (List.mem_cons_of_mem _ hp)
    unfold chainValue at hr
    unfold ContextResolvers.Get.loop
    by_cases h1 : r name ctx = ""
    · cases hs : option.Sensitive <;> simp_all
    · simp_all

theorem Get_loop_hit (L : Lib) (name : String) (option : CSRGetOption) (ctx : Context)
    (err : Option GoError) (r : ContextResolverFunc) (rest : ContextResolvers)
    (h : chainValue L r name option ctx ≠ "") :
    ContextResolvers.Get.loop L name option ctx err (r :: rest)
      = (chainValue L r name option ctx, none) := by
  unfold chainValue at h ⊢
  unfold ContextResolvers.Get.loop
  by_cases h1 : r name ctx = ""
  · cases hs : option.Sensitive <;> simp_all
  · simp_all

theorem Get_loop_skip (L : Lib) (name : String) (option : CSRGetOption) (ctx : Context)
    (err : Option GoError) (r : ContextResolverFunc) (rest : ContextResolvers)
    (h : chainValue L r name option ctx = "") :
    ContextResolvers.Get.loop L name option ctx err (r :: rest)
      = ContextResolvers.Get.loop L name option ctx err rest := by
  unfold chainValue at h
  conv_lhs => unfold ContextResolvers.Get.loop
  by_cases h1 : r name ctx = ""
  · cases hs : option.Sensitive <;> simp_all
  · simp_all

theorem Get_loop_append (L : Lib) (name : String) (option : CSRGetOption) (ctx : Context)
    (err : Option GoError) (pre post : ContextResolvers) (h : noValue L pre name option ctx) :
    ContextResolvers.Get.loop L name option ctx err (pre ++ post)
      = ContextResolvers.Get.loop L name option ctx err post := by
  induction pre with
  | nil => rfl
  | cons r rest ih =>
    have hr : chainValue L r name option ctx = "" := h r (List.mem_cons_self _ _)
    have hrest : noValue L rest name option ctx := fun p hp => h p (List.mem_cons_of_mem _ hp)
    rw [List.cons_append, Get_loop_skip L name option ctx err r _ hr]
    exact ih hrest

/-- C1: `Get` visits the resolvers in list order; each resolver is asked for the exact
name and, only when that is empty and the lookup is not sensitive, for the lowercased
name; the first non-empty value obtained this way is returned with a nil error, and
the resolvers after it do not contribute. -/
theorem C1_Get_first_value (L : Lib) (pre post : ContextResolvers) (r : ContextResolverFunc)
    (name : String) (option : CSRGetOption) (ctx : Context)
    (hpre : ∀ p ∈ pre, chainValue L p name option ctx = "")
    (hr : chainValue L r name option ctx ≠ "") :
    ContextResolvers.Get L (pre ++ r :: post) name option ctx
      = (chainValue L r name option ctx, none) := by
  unfold ContextResolvers.Get
  rw [Get_loop_append L name option ctx _ pre (r :: post) hpre]
  exact Get_loop_hit L name option ctx _ r post hr

theorem Get_loop_snd_of_value (L : Lib) (name : String) (option : CSRGetOption) (ctx : Context)
    (err : Option GoError) (cr : ContextResolvers) (h : ¬ noValue L cr name option ctx) :
    (ContextResolvers.Get.loop L name option ctx err cr).2 = none := by
  induction cr with
  | nil => exact absurd (fun r hr => absurd hr (List.not_mem_nil r)) h
  | cons r rest ih =>
    by_cases hr : chainValue L r name option ctx = ""
    · rw [Get_loop_skip L name option ctx err r rest hr]
      apply ih
      intro hrest
      apply h
      intro p hp
      rcases List.mem_cons.mp hp with rfl | hp
      · exact hr
      · exact hrest p hp
    · rw [Get_loop_hit L name option ctx err r rest hr]

theorem Get_of_noValue (L : Lib) (cr : ContextResolvers) (name : String)
    (option : CSRGetOption) (ctx : Context) (h : noValue L cr name option ctx) :
    ContextResolvers.Get L cr name option ctx
      = ("", if option.Required = true then some ErrNoValueOnRequiredField else none) := by
  unfold ContextResolvers.Get
  exact Get_loop_noValue L name option ctx _ cr h

theorem Get_of_value (L : Lib) (cr : ContextResolvers) (name : String)
    (option : CSRGetOption) (ctx : Context) (h : ¬ noValue L cr name option ctx) :
    (ContextResolvers.Get L cr name option ctx).2 = none := by
  unfold ContextResolvers.Get
  exact Get_loop_snd_of_value L name option ctx _ cr h

/-- C2: `Get` returns a non-nil error exactly when the field is required and no resolver
of the chain yields a value; when nothing is found the returned string is empty and
the error is `ErrNoValueOnRequiredField` for a required field, whatever `Sensitive`
is, and nil for an optional one. -/
theorem C2_Get_error (L : Lib) (cr : ContextResolvers) (name : String) (option : CSRGetOption)
    (ctx : Context) :
    ((ContextResolvers.Get L cr name option ctx).2 ≠ none
        ↔ (option.Required = true ∧ noValue L cr name option ctx)) ∧
    (noValue L cr name option ctx →
      ContextResolvers.Get L cr name option ctx
        = ("", if option.Required = true then some ErrNoValueOnRequiredField else none)) := by
  refine ⟨?_, Get_of_noValue L cr name option ctx⟩
  by_cases h : noValue L cr name option ctx
  · rw [Get_of_noValue L cr name option ctx h]
    cases hreq : option.Required <;> simp [h]
  · simp [Get_of_value L cr name option ctx h, h]

/-- An instance: a required field `Count` in a request without data. -/
theorem C2_Get_error_witness :
    noValue asciiLib (GetResolvers ["param", "query"]) "Count" ⟨true, true⟩ emptyCtx ∧
    ContextResolvers.Get asciiLib (GetResolvers ["param", "query"]) "Count" ⟨true, true⟩ emptyCtx
      = ("", if (CSRGetOption.mk true true).Required = true
               then some ErrNoValueOnRequiredField else none) :=
  ⟨by decide,
   (C2_Get_error asciiLib (GetResolvers ["param", "query"]) "Count" ⟨true, true⟩ emptyCtx).2
     (by decide)⟩

/-- An instance: in the chain header, param, query the header has no `ID`, the path
parameter `id` is found under the lowercased name and wins over the query parameter
`ID`. -/
theorem C1_Get_first_value_witness :
    (∀ p ∈ [fun name (ctx : Context) => ctx.Header name],
      chainValue asciiLib p "ID" ⟨false, false⟩ tagAsCtx = "") ∧
    chainValue asciiLib (fun name ctx => ctx.Param name) "ID" ⟨false, false⟩ tagAsCtx ≠ "" ∧
    (fun name (ctx : Context) => ctx.QueryParam name) "ID" tagAsCtx = "999" ∧
    ContextResolvers.Get asciiLib
        ([fun name ctx => ctx.Header name] ++
          (fun name ctx => ctx.Param name) :: [fun name ctx => ctx.QueryParam name])
        "ID" ⟨false, false⟩ tagAsCtx
      = ("123", none) :=
  ⟨by decide, by decide, by decide,
   (C1_Get_first_value asciiLib [fun name ctx => ctx.Header name]
     [fun name ctx => ctx.QueryParam name]
     (fun name ctx => ctx.Param name) "ID" ⟨false, false⟩ tagAsCtx (by decide) (by decide)).trans
     (by decide)⟩

/-! ## Field resolvers -/

theorem structResolver_exported (L : Lib) (field : StructField) (f : ResolverFunc)
    (h : structResolver L field = some f) :
    field.IsExported = true ∧ field.Tag.Lookup "return" = none := by
  unfold structResolver at h
  cases hexp : field.IsExported
  · simp [hexp] at h
  · cases hret : field.Tag.Lookup "return"
    · simp
    · simp [hexp, hret] at h

theorem structResolver_context (L : Lib) (field : StructField)
    (hexp : field.IsExported = true) (hret : field.Tag.Lookup "return" = none)
    (hconv : field.Typ.ConvertibleToContext = true) :
    structResolver L field = some (fun _ => (.context, none)) := by
  unfold structResolver
  simp [hexp, hret, hconv]

theorem structResolver_string (L : Lib) (field : StructField)
    (hexp : field.IsExported = true) (hret : field.Tag.Lookup "return" = none)
    (hconv : field.Typ.ConvertibleToContext = false) (hkind : field.Typ.Kind = .String) :
    structResolver L field = some (fun ctx =>
      ((.str (ContextResolvers.Get L (fieldChain field) (fieldTag field) (fieldOption field) ctx).1),
        (ContextResolvers.Get L (fieldChain field) (fieldTag field) (fieldOption field) ctx).2)) := by
  unfold structResolver
  simp [hexp, hret, hconv, hkind, fieldChain, fieldTag, fieldOption]

theorem structResolver_int (L : Lib) (field : StructField)
    (hexp : field.IsExported = true) (hret : field.Tag.Lookup "return" = none)
    (hconv : field.Typ.ConvertibleToContext = false) (hkind : intKind field.Typ.Kind = true) :
    structResolver L field = some (fun ctx =>
      match ContextResolvers.Get L (fieldChain field) (fieldTag field) (fieldOption field) ctx with
      | (_, some err) => (.nil, some err)
      | (get, none) =>
        match Atoi L get with
        | .error err => (.invalid, some (.wrap "not a number: " err))
        | .ok atoi => (.int (SetInt field.Typ.Kind atoi), none)) := by
  unfold structResolver
  cases hk : field.Typ.Kind <;> simp [intKind, hk] at hkind <;>
    simp [hexp, hret, hconv, hk, fieldChain, fieldTag, fieldOption]

theorem structResolver_uint (L : Lib) (field : StructField)
    (hexp : field.IsExported = true) (hret : field.Tag.Lookup "return" = none)
    (hconv : field.Typ.ConvertibleToContext = false) (hkind : uintKind field.Typ.Kind = true) :
    structResolver L field = some (fun ctx =>
      match ContextResolvers.Get L (fieldChain field) (fieldTag field) (fieldOption field) ctx with
      | (_, some err) => (.nil, some err)
      | (get, none) =>
        match ParseUint L get with
        | .error err => (.invalid, some (.wrap "not a number: " err))
        | .ok val => (.uint (SetUint field.Typ.Kind val), none)) := by
  unfold structResolver
  cases hk : field.Typ.Kind <;> simp [uintKind, hk] at hkind <;>
    simp [hexp, hret, hconv, hk, fieldChain, fieldTag, fieldOption]

theorem structResolver_float (L : Lib) (field : StructField)
    (hexp : field.IsExported = true) (hret : field.Tag.Lookup "return" = none)
    (hconv : field.Typ.ConvertibleToContext = false) (hkind : floatKind field.Typ.Kind = true) :
    structResolver L field = some (fun ctx =>
      match ContextResolvers.Get L (fieldChain field) (fieldTag field) (fieldOption field) ctx with
      | (_, some err) => (.nil, some err)
      | (get, none) =>
        match L.ParseFloat get with
        | .error err => (.invalid, some (.wrap "not a number: " err))
        | .ok val => (.float (SetFloat L field.Typ.Kind val), none)) := by
  unfold structResolver
  cases hk : field.Typ.Kind <;> simp [floatKind, hk] at hkind <;>
    simp [hexp, hret, hconv, hk, fieldChain, fieldTag, fieldOption]

/-- C3 (as stated, refuted): the field `Count int` is optional and no resolver of its
chain yields a value in a request without data, yet its compiled resolver returns
an error. -/
theorem C3_optional_int_absent_fails :
    countField.Typ.Kind = .Int ∧ (fieldOption countField).Required = false ∧
    noValue asciiLib (fieldChain countField) (fieldTag countField) (fieldOption countField)
      emptyCtx ∧
    (structResolver asciiLib countField).map (fun f => (f emptyCtx).2)
      = some (some (.wrap "not a number: "
          (.new "strconv.Atoi: parsing \"\": invalid syntax"))) := by
  decide

/-- C3 (amended): for every bindable struct field of string kind that is not marked
required, when no resolver of its chain yields a value for it in the request, the
compiled resolver returns no error, so the struct assembler records no failure for
the field. -/
theorem C3_optional_string_absent (L : Lib) (field : StructField) (f : ResolverFunc)
    (ctx : Context) (hkind : field.Typ.Kind = .String)
    (hres : structResolver L field = some f)
    (hopt : (fieldOption field).Required = false)
    (habs : noValue L (fieldChain field) (fieldTag field) (fieldOption field) ctx) :
    (f ctx).2 = none ∧ failureOf ctx field (structResolver L field) = none := by
  obtain ⟨hexp, hret⟩ := structResolver_exported L field f hres
  have hf : (f ctx).2 = none := by
    cases hconv : field.Typ.ConvertibleToContext
    · rw [structResolver_string L field hexp hret hconv hkind] at hres
      cases hres
      simp [Get_of_noValue L _ _ _ ctx habs, hopt]
    · rw [structResolver_context L field hexp hret hconv] at hres
      cases hres
      rfl
  refine ⟨hf, ?_⟩
  rw [hres]
  simp [failureOf, hf]

/-- An instance: the optional field `Query string` in a request without data. -/
theorem C3_optional_string_absent_witness :
    queryField.Typ.Kind = .String ∧
    (fieldOption queryField).Required = false ∧
    noValue asciiLib (fieldChain queryField) (fieldTag queryField) (fieldOption queryField)
      emptyCtx ∧
    failureOf emptyCtx queryField (structResolver asciiLib queryField) = none :=
  ⟨by decide, by decide, by decide,
   (C3_optional_string_absent asciiLib queryField
     (fun ctx =>
      ((.str (ContextResolvers.Get asciiLib (fieldChain queryField) (fieldTag queryField)
          (fieldOption queryField) ctx).1),
        (ContextResolvers.Get asciiLib (fieldChain queryField) (fieldTag queryField)
          (fieldOption queryField) ctx).2))
     emptyCtx (by decide)
     (structResolver_string asciiLib queryField (by decide) (by decide) (by decide) (by decide))
     (by decide) (by decide)).2⟩

/-! ## The struct assembler -/

theorem storable_tail (ctx : Context) (field : StructField) (fields : List StructField)
    (resolver : Option ResolverFunc) (resolvers : List (Option ResolverFunc))
    (h : storable ctx (field :: fields) (resolver :: resolvers)) :
    storable ctx fields resolvers := by
  intro p hp r hr he
  exact h p (by rw [List.zip_cons_cons]; exact List.mem_cons_of_mem _ hp) r hr he

/-- When every value that a resolver of the plan returns is stored by `Set`, the loop of
the struct assembler returns the values of the fields and the failures of the plan. -/
theorem assemble_loop_ok (ctx : Context) (fields : List StructField)
    (resolvers : List (Option ResolverFunc)) (h : storable ctx fields resolvers) :
    assemble.loop ctx fields resolvers
      = .ok (planValues ctx fields resolvers, planFailures ctx fields resolvers) := by
  induction fields generalizing resolvers with
  | nil => cases resolvers <;> simp [assemble.loop, planValues, planFailures]
  | cons field fields ih =>
    cases resolvers with
    | nil => simp [assemble.loop, planValues, planFailures]
    | cons resolver resolvers =>
      have ih2 := ih resolvers (storable_tail ctx field fields resolver resolvers h)
      unfold assemble.loop
      cases resolver with
      | none =>
        rw [ih2]
        simp [planValues, planFailures, failureOf, Except.map]
      | some r =>
        have hr := h (field, some r) (by rw [List.zip_cons_cons]; exact List.mem_cons_self _ _)
          r rfl
        rcases hrc : r ctx with ⟨v, e⟩
        rw [hrc] at hr
        cases e with
        | none =>
          simp only [true_implies] at hr
          simp only [hrc, if_pos hr, ih2]
          simp [planValues, planFailures, failureOf, hrc, Except.map]
        | some err =>
          simp only [hrc, ih2]
          simp [planValues, planFailures, failureOf, hrc, Except.map]

/-- The loop of the struct assembler panics exactly when a resolver of the plan returns,
without an error, a value that `Set` does not store in its field. -/
theorem assemble_loop_error_iff (ctx : Context) (fields : List StructField)
    (resolvers : List (Option ResolverFunc)) :
    (∃ p, assemble.loop ctx fields resolvers = .error p) ↔ ¬ storable ctx fields resolvers := by
  constructor
  · rintro ⟨p, hp⟩ hs
    rw [assemble_loop_ok ctx fields resolvers hs] at hp
    cases hp
  · intro hns
    induction fields generalizing resolvers with
    | nil =>
      exfalso
      apply hns
      intro p hp
      simp at hp
    | cons field fields ih =>
      cases resolvers with
      | nil =>
        exfalso
        apply hns
        intro p hp
        simp at hp
      | cons resolver resolvers =>
        unfold assemble.loop
        by_cases htail : storable ctx fields resolvers
        · cases resolver with
          | none =>
            exfalso
            apply hns
            intro p hp r hr he
            rw [List.zip_cons_cons] at hp
            rcases List.mem_cons.mp hp with h | h
            · subst h
              cases hr
            · exact htail p h r hr he
          | some r =>
            rcases hrc : r ctx with ⟨v, e⟩
            cases e with
            | some err =>
              exfalso
              apply hns
              intro p hp r2 hr2 he
              rw [List.zip_cons_cons] at hp
              rcases List.mem_cons.mp hp with h | h
              · subst h
                cases hr2
                rw [hrc] at he
                cases he
              · exact htail p h r2 hr2 he
            | none =>
              simp only [hrc]
              by_cases ha : assignable field.Typ v = true
              · exfalso
                apply hns
                intro p hp r2 hr2 he
                rw [List.zip_cons_cons] at hp
                rcases List.mem_cons.mp hp with h | h
                · subst h
                  cases hr2
                  rw [hrc]
                  exact ha
                · exact htail p h r2 hr2 he
              · rw [if_neg ha]
                exact ⟨_, rfl⟩
        · obtain ⟨p, hp⟩ := ih resolvers htail
          cases resolver with
          | none =>
            rw [hp]
            exact ⟨p, rfl⟩
          | some r =>
            rcases hrc : r ctx with ⟨v, e⟩
            cases e with
            | some err =>
              simp only [hrc, hp]
              exact ⟨p, rfl⟩
            | none =>
              simp only [hrc]
              by_cases ha : assignable field.Typ v = true
              · rw [if_pos ha, hp]
                exact ⟨p, rfl⟩
              · rw [if_neg ha]
                exact ⟨_, rfl⟩

theorem planFailures_structResolvers (L : Lib) (ctx : Context) (fields : List StructField) :
    planFailures ctx fields (fields.map (structResolver L))
      = fields.filterMap (fun f => failureOf ctx f (structResolver L f)) := by
  unfold planFailures
  induction fields with
  | nil => rfl
  | cons field fields ih =>
    simp only [List.map_cons, List.zip_cons_cons, List.filterMap_cons, ih]

/-- When every value is stored, the struct assembler reports failure, writing the 400
response that lists the failures of the plan, exactly when that list is not empty, and
returns the struct otherwise. -/
theorem assemble_eq (T : RType) (resolvers : List (Option ResolverFunc)) (ctx : Context)
    (h : storable ctx T.Fields resolvers) :
    assemble T resolvers ctx
      = if planFailures ctx T.Fields resolvers = [] then
          (.ok (.struct (planValues ctx T.Fields resolvers), true, none), [])
        else
          (.ok (.invalid, false,
              ctx.JSON 400 ⟨"validation failed", planFailures ctx T.Fields resolvers⟩),
            [.JSON 400 ⟨"validation failed", planFailures ctx T.Fields resolvers⟩]) := by
  unfold assemble
  rw [assemble_loop_ok ctx T.Fields resolvers h]
  cases planFailures ctx T.Fields resolvers <;> simp

/-- When a value is not stored, the struct assembler panics and writes nothing. -/
theorem assemble_panics (T : RType) (resolvers : List (Option ResolverFunc)) (ctx : Context)
    (h : ¬ storable ctx T.Fields resolvers) :
    ∃ p, assemble T resolvers ctx = (.error p, []) := by
  obtain ⟨p, hp⟩ := (assemble_loop_error_iff ctx T.Fields resolvers).mpr h
  refine ⟨p, ?_⟩
  unfold assemble
  rw [hp]

/-- The value that the coercion of a field returns without an error is stored in the
field when the type of the field accepts it. -/
theorem structResolver_assignable (L : Lib) (field : StructField) (r : ResolverFunc)
    (ctx : Context) (hacc : accepts field.Typ = true)
    (hr : structResolver L field = some r) (he : (r ctx).2 = none) :
    assignable field.Typ (r ctx).1 = true := by
  obtain ⟨hexp, hret⟩ := structResolver_exported L field r hr
  unfold accepts at hacc
  cases hconv : field.Typ.ConvertibleToContext
  · rw [hconv] at hacc
    simp only [Bool.false_eq_true, if_false, Bool.or_eq_true, bne_iff_ne, ne_eq] at hacc
    by_cases hs : field.Typ.Kind = .String
    · rw [structResolver_string L field hexp hret hconv hs] at hr
      cases hr
      rcases hacc with h | h
      · exact absurd hs h
      · simpa [assignable] using h
    · by_cases hi : intKind field.Typ.Kind = true
      · rw [structResolver_int L field hexp hret hconv hi] at hr
        cases hr
        simp only [] at he ⊢
        rcases hg : ContextResolvers.Get L (fieldChain field) (fieldTag field)
          (fieldOption field) ctx with ⟨s, _ | e⟩
        · simp only [hg] at he ⊢
          rcases hA : Atoi L s with err | n
          · simp [hA] at he
          · simp [assignable]
        · simp [hg] at he
      · by_cases hu : uintKind field.Typ.Kind = true
        · rw [structResolver_uint L field hexp hret hconv hu] at hr
          cases hr
          simp only [] at he ⊢
          rcases hg : ContextResolvers.Get L (fieldChain field) (fieldTag field)
            (fieldOption field) ctx with ⟨s, _ | e⟩
          · simp only [hg] at he ⊢
            rcases hA : ParseUint L s with err | n
            · simp [hA] at he
            · simp [assignable]
          · simp [hg] at he
        · by_cases hf : floatKind field.Typ.Kind = true
          · rw [structResolver_float L field hexp hret hconv hf] at hr
            cases hr
            simp only [] at he ⊢
            rcases hg : ContextResolvers.Get L (fieldChain field) (fieldTag field)
              (fieldOption field) ctx with ⟨s, _ | e⟩
            · simp only [hg] at he ⊢
              rcases hA : L.ParseFloat s with err | n
              · simp [hA] at he
              · simp [assignable]
            · simp [hg] at he
          · cases hk : field.Typ.Kind <;>
              simp [hk, intKind, uintKind, floatKind] at hs hi hu hf <;>
              simp [structResolver, hexp, hret, hconv, hk] at hr <;>
              (obtain ⟨_, rfl⟩ := hr; rfl)
  · rw [structResolver_context L field hexp hret hconv] at hr
    cases hr
    rw [hconv] at hacc
    simpa [assignable] using hacc

theorem storable_structResolvers (L : Lib) (ctx : Context) (fields : List StructField)
    (h : ∀ f ∈ fields, bindableField f = true → accepts f.Typ = true) :
    storable ctx fields (fields.map (structResolver L)) := by
  intro p hp r hr he
  rw [List.zip_map_right] at hp
  obtain ⟨⟨f, g⟩, hfg, rfl⟩ := List.mem_map.mp hp
  have hfg2 : f = g ∧ f ∈ fields := by
    rw [List.zip_eq_zipWith] at hfg
    clear hp hr he h
    induction fields with
    | nil => simp at hfg
    | cons a fields ih =>
      rw [List.zipWith_cons_cons] at hfg
      rcases List.mem_cons.mp hfg with h | h
      · cases h
        exact ⟨rfl, List.mem_cons_self _ _⟩
      · exact ⟨(ih h).1, List.mem_cons_of_mem _ (ih h).2⟩
  obtain ⟨rfl, hmem⟩ := hfg2
  obtain ⟨hexp, hret⟩ := structResolver_exported L f r hr
  exact structResolver_assignable L f r ctx
    (h f hmem (by simp [bindableField, hexp, hret])) hr he

theorem failureOf_field (ctx : Context) (field : StructField) (resolver : Option ResolverFunc)
    (e : ValidationFail) (h : failureOf ctx field resolver = some e) :
    e.Field = field.Name ∧ resolver ≠ none := by
  unfold failureOf at h
  cases resolver with
  | none => simp at h
  | some r =>
    rcases hr : (r ctx).2 with _ | err
    · simp [hr] at h
    · simp [hr] at h
      subst h
      simp

/-- For a struct whose field types accept the values of their coercions, the loop of
the struct assembler over the compiled plan returns. -/
theorem assemble_loop_structResolvers (L : Lib) (T : RType) (ctx : Context)
    (hset : ∀ f ∈ T.Fields, bindableField f = true → accepts f.Typ = true) :
    assemble.loop ctx T.Fields (structResolvers L T)
      = .ok (planValues ctx T.Fields (structResolvers L T),
          T.Fields.filterMap (fun f => failureOf ctx f (structResolver L f))) := by
  unfold structResolvers
  rw [assemble_loop_ok ctx _ _ (storable_structResolvers L ctx T.Fields hset),
    planFailures_structResolvers]

theorem structFailures_eq (L : Lib) (T : RType) (ctx : Context)
    (hset : ∀ f ∈ T.Fields, bindableField f = true → accepts f.Typ = true) :
    structFailures L T ctx
      = T.Fields.filterMap (fun f => failureOf ctx f (structResolver L f)) := by
  unfold structFailures
  rw [assemble_loop_structResolvers L T ctx hset]

theorem assemble_structResolvers (L : Lib) (T : RType) (ctx : Context)
    (hset : ∀ f ∈ T.Fields, bindableField f = true → accepts f.Typ = true) :
    assemble T (structResolvers L T) ctx
      = if structFailures L T ctx = [] then
          (.ok (.struct (planValues ctx T.Fields (structResolvers L T)), true, none), [])
        else
          (.ok (.invalid, false, ctx.JSON 400 ⟨"validation failed", structFailures L T ctx⟩),
            [.JSON 400 ⟨"validation failed", structFailures L T ctx⟩]) := by
  have hs : storable ctx T.Fields (structResolvers L T) :=
    storable_structResolvers L ctx T.Fields hset
  have hpf : planFailures ctx T.Fields (structResolvers L T) = structFailures L T ctx := by
    unfold structFailures
    rw [assemble_loop_ok ctx _ _ hs]
  rw [assemble_eq T _ ctx hs, hpf]

theorem failures_filter_of_not_mem (L : Lib) (ctx : Context) (name : String)
    (fields : List StructField)
    (h : name ∉ (fields.filter (fun f => f.IsExported)).map (fun f => f.Name)) :
    (fields.filterMap (fun f => failureOf ctx f (structResolver L f))).filter
      (fun e => e.Field = name) = [] := by
  induction fields with
  | nil => rfl
  | cons g fields ih =>
    rw [List.filterMap_cons]
    have hrest : name ∉ (fields.filter (fun f => f.IsExported)).map (fun f => f.Name) := by
      intro hm
      apply h
      rw [List.filter_cons]
      split
      · exact List.mem_cons_of_mem _ hm
      · exact hm
    rcases hg : failureOf ctx g (structResolver L g) with _ | e
    · simpa using ih hrest
    · obtain ⟨hname, hsome⟩ := failureOf_field ctx g _ e hg
      have hexp : g.IsExported = true := by
        rcases hs : structResolver L g with _ | f
        · exact absurd hs hsome
        · exact (structResolver_exported L g f hs).1
      have hne : e.Field ≠ name := by
        intro heq
        apply h
        rw [List.filter_cons, if_pos hexp, List.map_cons]
        rw [← heq, hname]
        exact List.mem_cons_self _ _
      simp only []
      rw [List.filter_cons, if_neg (by simpa using hne)]
      exact ih hrest

theorem failures_filter_of_mem (L : Lib) (ctx : Context) (field : StructField)
    (e : ValidationFail) (he : failureOf ctx field (structResolver L field) = some e)
    (fields : List StructField)
    (hnodup : ((fields.filter (fun f => f.IsExported)).map (fun f => f.Name)).Nodup)
    (hmem : field ∈ fields) :
    (fields.filterMap (fun f => failureOf ctx f (structResolver L f))).filter
      (fun e => e.Field = field.Name) = [e] := by
  obtain ⟨hname, hsome⟩ := failureOf_field ctx field _ e he
  have hexpF : field.IsExported = true := by
    rcases hs : structResolver L field with _ | f
    · exact absurd hs hsome
    · exact (structResolver_exported L field f hs).1
  induction fields with
  | nil => exact absurd hmem (List.not_mem_nil _)
  | cons g fields ih =>
    rw [List.filterMap_cons]
    by_cases hgf : g = field
    · subst hgf
      rw [List.filter_cons, if_pos hexpF, List.map_cons, List.nodup_cons] at hnodup
      rw [he]
      simp only []
      rw [List.filter_cons, if_pos (by simpa using hname),
        failures_filter_of_not_mem L ctx g.Name fields hnodup.1]
    · have hmem2 : field ∈ fields := by
        rcases List.mem_cons.mp hmem with h | h
        · exact absurd h.symm hgf
        · exact h
      have hnodup2 : ((fields.filter (fun f => f.IsExported)).map (fun f => f.Name)).Nodup := by
        rw [List.filter_cons] at hnodup
        split at hnodup
        · exact (List.nodup_cons.mp hnodup).2
        · exact hnodup
      rcases hg : failureOf ctx g (structResolver L g) with _ | e2
      · simpa using ih hnodup2 hmem2
      · obtain ⟨hname2, hsome2⟩ := failureOf_field ctx g _ e2 hg
        have hexp : g.IsExported = true := by
          rcases hs : structResolver L g with _ | f
          · exact absurd hs hsome2
          · exact (structResolver_exported L g f hs).1
        have hne : e2.Field ≠ field.Name := by
          intro heq
          rw [List.filter_cons, if_pos hexp, List.map_cons, List.nodup_cons] at hnodup
          apply hnodup.1
          rw [← hname2, heq]
          exact List.mem_map.mpr ⟨field, List.mem_filter.mpr ⟨hmem2, by simpa using hexpF⟩, rfl⟩
        simp only []
        rw [List.filter_cons, if_neg (by simpa using hne)]
        exact ih hnodup2 hmem2

theorem requiredAbsent_failure (L : Lib) (field : StructField) (ctx : Context)
    (hexp : field.IsExported = true) (hret : field.Tag.Lookup "return" = none)
    (hkind : chainKind field.Typ.Kind = true)
    (hconv : field.Typ.ConvertibleToContext = false)
    (habs : requiredAbsent L field ctx) :
    failureOf ctx field (structResolver L field)
      = some ⟨field.Name, "no value found on required field"⟩ := by
  have hget := Get_of_noValue L _ _ _ ctx habs.2
  rw [habs.1] at hget
  simp only [if_true] at hget
  unfold chainKind at hkind
  simp only [Bool.or_eq_true, beq_iff_eq] at hkind
  rcases hkind with ((hk | hk) | hk) | hk
  · rw [structResolver_string L field hexp hret hconv hk]
    simp [failureOf, hget, ErrNoValueOnRequiredField, GoError.Error]
  · rw [structResolver_int L field hexp hret hconv hk]
    simp [failureOf, hget, ErrNoValueOnRequiredField, GoError.Error]
  · rw [structResolver_uint L field hexp hret hconv hk]
    simp [failureOf, hget, ErrNoValueOnRequiredField, GoError.Error]
  · rw [structResolver_float L field hexp hret hconv hk]
    simp [failureOf, hget, ErrNoValueOnRequiredField, GoError.Error]
/-- C4 (as stated, refuted): in `struct { Flag bool; Query string }` the field `Flag` is
marked required and its value is absent from a request without data, yet the failure
list is empty and no response is written. -/
theorem C4_required_bool_absent_no_entry :
    flagField ∈ flagStruct.Fields ∧ requiredAbsent asciiLib flagField emptyCtx ∧
    structFailures asciiLib flagStruct emptyCtx = [] ∧
    assemble flagStruct (structResolvers asciiLib flagStruct) emptyCtx
      = (.ok (.struct [.bool false, .str ""], true, none), []) := by
  decide

/-- C4 (amended): for every bindable struct whose bindable fields have types that accept
the values of their coercions (a field of string kind has the type `string`, a field
that receives the request context a type to which the context is assignable) and
every request, the
failure list of the struct assembler contains exactly one entry for each exported field
without a `return` tag, of string, integer, unsigned or float kind and not convertible
to the request context, that is marked required and whose value is absent from the
request; the entry carries the declared field name and the message of
`ErrNoValueOnRequiredField`; whenever such a field exists the assembler writes the
failure list with status 400. -/
theorem C4_required_absent_entries (L : Lib) (T : RType) (ctx : Context) (field : StructField)
    (hset : ∀ f ∈ T.Fields, bindableField f = true → accepts f.Typ = true)
    (hmem : field ∈ T.Fields)
    (hnodup : ((T.Fields.filter (fun f => f.IsExported)).map (fun f => f.Name)).Nodup)
    (hexp : field.IsExported = true) (hret : field.Tag.Lookup "return" = none)
    (hkind : chainKind field.Typ.Kind = true)
    (hconv : field.Typ.ConvertibleToContext = false)
    (habs : requiredAbsent L field ctx) :
    (structFailures L T ctx).filter (fun e => e.Field = field.Name)
        = [⟨field.Name, "no value found on required field"⟩] ∧
    assemble T (structResolvers L T) ctx
      = (.ok (.invalid, false, ctx.JSON 400 ⟨"validation failed", structFailures L T ctx⟩),
          [.JSON 400 ⟨"validation failed", structFailures L T ctx⟩]) := by
  have hfail := requiredAbsent_failure L field ctx hexp hret hkind hconv habs
  have hone : (structFailures L T ctx).filter (fun e => e.Field = field.Name)
      = [⟨field.Name, "no value found on required field"⟩] := by
    rw [structFailures_eq L T ctx hset]
    exact failures_filter_of_mem L ctx field _ hfail T.Fields hnodup hmem
  refine ⟨hone, ?_⟩
  have hne : structFailures L T ctx ≠ [] := by
    intro hnil
    rw [hnil] at hone
    simp at hone
  rw [assemble_structResolvers L T ctx hset, if_neg hne]

/-- An instance: the required field `Query` (lookup name `q`) of the handler struct in a
request without data; the entry carries the declared name `Query`. -/
theorem C4_required_absent_entries_witness :
    (∀ f ∈ getStruct.Fields, bindableField f = true → accepts f.Typ = true) ∧
    qField ∈ getStruct.Fields ∧
    ((getStruct.Fields.filter (fun f => f.IsExported)).map (fun f => f.Name)).Nodup ∧
    requiredAbsent asciiLib qField emptyCtx ∧
    (structFailures asciiLib getStruct emptyCtx).filter (fun e => e.Field = qField.Name)
        = [⟨qField.Name, "no value found on required field"⟩] ∧
    assemble getStruct (structResolvers asciiLib getStruct) emptyCtx
      = (.ok (.invalid, false, none),
          [.JSON 400 ⟨"validation failed",
            [⟨"Query", "no value found on required field"⟩,
             ⟨"Count", "not a number: strconv.Atoi: parsing \"\": invalid syntax"⟩]⟩]) := by
  have h := C4_required_absent_entries asciiLib getStruct emptyCtx qField (by decide)
    (by decide) (by decide) (by decide) (by decide) (by decide) (by decide) (by decide)
  exact ⟨by decide, by decide, by decide, by decide, h.1, h.2.trans (by decide)⟩

/-- C5 (the code at the failing input): in `struct { Count int; Name MyString }`, with
`type MyString string`, on the request `Count=wow&Name=joe` the resolver of `Count`
returns an error, for which the claim lists one failure, and the resolver of `Name`
returns the string `joe`; `Set` does not store a `string` in a field of type
`MyString`, so the assembler panics: it reports neither the failure nor the struct and
writes no response. -/
theorem C5_defined_string_field_panics :
    failureOf wowNameCtx countField (structResolver asciiLib countField)
      = some ⟨"Count", "not a number: strconv.Atoi: parsing \"wow\": invalid syntax"⟩ ∧
    (structResolver asciiLib nameField).map (fun f => f wowNameCtx)
      = some (.str "joe", none) ∧
    nameField.Typ.AssignableFromString = false ∧
    assemble countNameStruct (structResolvers asciiLib countNameStruct) wowNameCtx
      = (.error (.notAssignable "Name"), []) := by
  decide

/-! ## Integer parsing -/

theorem Atoi_empty (L : Lib) : ∀ n, Atoi L "" ≠ .ok n := by
  intro n h
  simp [Atoi] at h

theorem Atoi_ne_empty (L : Lib) (s : String) (n : Int) (h : Atoi L s = .ok n) : s ≠ "" := by
  intro hs
  subst hs
  exact Atoi_empty L n h

theorem Atoi_range (L : Lib) (s : String) (n : Int) (h : Atoi L s = .ok n) :
    -(2 : Int) ^ 63 ≤ n ∧ n < (2 : Int) ^ 63 := by
  unfold Atoi at h
  simp only [] at h
  split at h
  · cases h
  · split at h
    · cases h
    · split at h
      · cases h
      · generalize digitsValue _ = un at h
        generalize (s.data.head? == some '-') = neg at h
        split at h
        · cases h
        · split at h
          · cases h
          · rename_i h1 h2
            injection h with h
            subst h
            have hpow : ((2 ^ 63 : Nat) : Int) = (2 : Int) ^ 63 := by norm_num
            cases neg
            · simp at h1
              have : ((un : Nat) : Int) < ((2 ^ 63 : Nat) : Int) := Int.ofNat_lt.mpr h1
              simp only [Bool.false_eq_true, if_false]
              omega
            · simp at h2
              have : ((un : Nat) : Int) ≤ ((2 ^ 63 : Nat) : Int) := Int.ofNat_le.mpr h2
              simp only [if_true]
              omega

theorem wrapInt_of_range (x : Int) (h : -(2 : Int) ^ 63 ≤ x ∧ x < (2 : Int) ^ 63) :
    wrapInt 64 x = x := by
  unfold wrapInt
  have h1 : (0 : Int) ≤ x + 2 ^ (64 - 1) := by norm_num at h ⊢; omega
  have h2 : x + 2 ^ (64 - 1) < 2 ^ 64 := by norm_num at h ⊢; omega
  rw [Int.emod_eq_of_lt h1 h2]
  omega

/-! ## Registration and dispatch -/

theorem handle_ok (L : Lib) (path : String) (userHandler : UserHandler) (out : RType)
    (ins : List RType) (hT : userHandler.TypeOf = some ⟨.Func, ins, [out]⟩)
    (hin : 1 ≤ ins.length) (hs : out.Str = "error") :
    handle L path userHandler = .ok (finalResolver (ins.map (inputResolver L))) := by
  unfold handle
  rw [hT]
  have : ¬ ins.length < 1 := by omega
  simp [this, hs]

theorem handle_error_iff (L : Lib) (path : String) (userHandler : UserHandler) :
    (∃ p, handle L path userHandler = .error p) ↔ malformed userHandler := by
  unfold handle malformed
  rcases hT : userHandler.TypeOf with _ | t
  · simp
  · simp only []
    by_cases hk : t.Kind = .Func
    · by_cases hin : t.In.length < 1
      · simp [hk, hin]
      · rcases hout : t.Out with _ | ⟨out, rest⟩
        · simp [hk, hin]
        · cases rest with
          | nil =>
            by_cases hs : out.Str = "error"
            · simp [hk, hin, hs]
            · simp [hk, hin, hs]
          | cons o2 rest => simp [hk, hin]
    · simp [hk]

theorem Method_error_iff (L : Lib) (m path : String) (userHandler : UserHandler) :
    (∃ p, Method L m path userHandler = .error p) ↔ malformed userHandler := by
  rw [← handle_error_iff L path userHandler]
  unfold Method
  rcases handle L path userHandler with p | fr <;> simp

theorem Method_ok (L : Lib) (m path : String) (userHandler : UserHandler)
    (fr : FinalResolver) (h : handle L path userHandler = .ok fr) :
    Method L m path userHandler = .ok (Method.serve fr userHandler) := by
  unfold Method
  rw [h]

/-- C10: registration panics exactly when the handler is not a function, or has no
parameter, or does not have exactly one return value, or its return value is not of
type `error`; every function with one parameter or more and the single result
`error` is accepted. -/
theorem C10_registration_shape (L : Lib) (m path : String) (userHandler : UserHandler) :
    ((∃ p, Method L m path userHandler = .error p) ↔ malformed userHandler) ∧
    (∀ ins out, userHandler.TypeOf = some ⟨.Func, ins, [out]⟩ → 1 ≤ ins.length →
      out.Str = "error" →
      Method L m path userHandler
        = .ok (Method.serve (finalResolver (ins.map (inputResolver L))) userHandler)) := by
  refine ⟨Method_error_iff L m path userHandler, ?_⟩
  intro ins out hT hin hs
  exact Method_ok L m path userHandler _ (handle_ok L path userHandler out ins hT hin hs)

/-- An instance: the handler `func(a struct { Query string; Count int }) error`. -/
theorem C10_registration_shape_witness :
    getHandler.TypeOf = some ⟨.Func, [getStruct], [errorT]⟩ ∧ 1 ≤ [getStruct].length ∧
    errorT.Str = "error" ∧
    Method asciiLib "GET" "/test" getHandler
      = .ok (Method.serve (finalResolver ([getStruct].map (inputResolver asciiLib))) getHandler) :=
  ⟨rfl, by decide, by decide,
   (C10_registration_shape asciiLib "GET" "/test" getHandler).2 [getStruct] errorT rfl
     (by decide) (by decide)⟩

theorem handle_ok_inv (L : Lib) (path : String) (userHandler : UserHandler)
    (fr : FinalResolver) (h : handle L path userHandler = .ok fr) :
    ∃ t, userHandler.TypeOf = some t ∧ 1 ≤ t.In.length ∧
      fr = finalResolver (t.In.map (inputResolver L)) := by
  unfold handle at h
  rcases hT : userHandler.TypeOf with _ | t
  · simp [hT] at h
  · simp only [hT] at h
    split at h
    · cases h
    · split at h
      · cases h
      · split at h
        · cases h
        · rename_i h1 h2 h3
          injection h with h
          exact ⟨t, rfl, by omega, h.symm⟩

theorem inputResolver_ok_events (L : Lib) (T : RType) (res : InputResolver) (ctx : Context)
    (h : inputResolver L T = some res) (value : Value) (err : Option GoError)
    (hok : (res ctx).1 = .ok (value, true, err)) : (res ctx).2 = [] := by
  unfold inputResolver at h
  split at h
  · split at h
    · cases h
    · split at h
      · cases h; rfl
      · split at h
        · cases h; rfl
        · injection h with h
          subst h
          unfold assemble at hok ⊢
          rcases hl : assemble.loop ctx T.Fields (structResolvers L T) with p | ⟨inv, failures⟩
          · simp only [hl] at hok
            cases hok
          · simp only [hl] at hok ⊢
            split
            · rename_i hne
              rw [if_pos hne] at hok
              cases hok
            · rfl
  · split at h
    · cases h; rfl
    · cases h

theorem finalResolver_loop_success (L : Lib) (ctx : Context) (ins : List RType) :
    ∀ (vals : List Value) (inv : Option (List Value)) (ev : List Event),
      finalResolver.loop ctx (ins.map (inputResolver L)) vals = (.ok (inv, none), ev) →
      (ins ≠ [] ∨ vals ≠ []) → (∃ args, inv = some args) ∧ ev = [] := by
  induction ins with
  | nil =>
    intro vals inv ev h hne
    rcases hne with hne | hne
    · exact absurd rfl hne
    · cases vals with
      | nil => exact absurd rfl hne
      | cons v vs =>
        simp [finalResolver.loop] at h
        exact ⟨⟨v :: vs, h.1.symm⟩, h.2⟩
  | cons T ins ih =>
    intro vals inv ev h _
    rw [List.map_cons] at h
    rcases hres : inputResolver L T with _ | res
    · rw [hres] at h
      simp [finalResolver.loop] at h
    · rw [hres] at h
      unfold finalResolver.loop at h
      have hev := inputResolver_ok_events L T res ctx hres
      rcases hr : res ctx with ⟨p | ⟨value, ok, err⟩, ev1⟩
      · rw [hr] at h
        simp at h
      · rw [hr] at h hev
        simp only [] at h hev
        cases ok with
        | false => simp at h
        | true =>
          cases err with
          | some e => simp at h
          | none =>
            simp only [Bool.not_true, Bool.false_eq_true, if_false] at h
            rcases hrest : finalResolver.loop ctx (ins.map (inputResolver L)) (vals ++ [value])
              with ⟨res2, ev2⟩
            rw [hrest] at h
            simp only [Prod.mk.injEq] at h
            obtain ⟨h1, h2⟩ := h
            subst h1
            have := ih (vals ++ [value]) inv ev2 hrest (Or.inr (by simp))
            refine ⟨this.1, ?_⟩
            rw [← h2, this.2, hev value none rfl]
            rfl

/-- C9: after the final resolver succeeds, the dispatch adapter calls the handler once
with the resolved arguments; a nil result gives nil; an error `e` gives `e` itself
when no `ErrorHandler` is set, and one call of the `ErrorHandler` with `e` followed by
a nil result when it is set. -/
theorem C9_handler_result (L : Lib) (m path : String) (userHandler : UserHandler)
    (served : Cuttle → Context → Except Panic (Option GoError) × List Event)
    (fr : FinalResolver) (r : Cuttle) (ctx : Context) (inv : Option (List Value))
    (ev : List Event)
    (hM : Method L m path userHandler = .ok served)
    (hfr : handle L path userHandler = .ok fr)
    (hres : fr ctx = (.ok (inv, none), ev)) :
    ∃ args, inv = some args ∧
      served r ctx =
        match userHandler.Call args with
        | none => (.ok none, [.Call args])
        | some e =>
          match r.ErrorHandler with
          | none => (.ok (some e), [.Call args])
          | some _ => (.ok none, [.Call args, .ErrorHandler e]) := by
  rw [Method_ok L m path userHandler fr hfr] at hM
  injection hM with hM
  subst hM
  obtain ⟨t, _, hin, hfr2⟩ := handle_ok_inv L path userHandler fr hfr
  subst hfr2
  unfold finalResolver at hres
  have hne : t.In ≠ [] := by
    intro h0
    rw [h0] at hin
    simp at hin
  obtain ⟨⟨args, hargs⟩, hev⟩ := finalResolver_loop_success L ctx t.In [] inv ev hres (Or.inl hne)
  subst hargs hev
  refine ⟨args, rfl, ?_⟩
  unfold Method.serve finalResolver
  rw [hres]
  simp only []
  cases userHandler.Call args with
  | none => rfl
  | some e => cases r.ErrorHandler <;> rfl

/-- An instance: a handler that returns the error `boom` on a router with an
`ErrorHandler`, for the request `q=hello+world&Count=69`. -/
theorem C9_handler_result_witness :
    Method asciiLib "GET" "/test" failHandler
      = .ok (Method.serve (finalResolver ([getStruct].map (inputResolver asciiLib)))
          failHandler) ∧
    handle asciiLib "/test" failHandler
      = .ok (finalResolver ([getStruct].map (inputResolver asciiLib))) ∧
    finalResolver ([getStruct].map (inputResolver asciiLib)) okCtx
      = (.ok (some [.struct [.str "hello world", .int 69]], none), []) ∧
    Method.serve (finalResolver ([getStruct].map (inputResolver asciiLib))) failHandler
        ⟨some ⟨0⟩⟩ okCtx
      = (.ok none, [.Call [.struct [.str "hello world", .int 69]],
          .ErrorHandler (.new "boom")]) := by
  have h2 : handle asciiLib "/test" failHandler
      = .ok (finalResolver ([getStruct].map (inputResolver asciiLib))) :=
    handle_ok asciiLib "/test" failHandler errorT [getStruct] rfl (by decide) (by decide)
  have h1 := Method_ok asciiLib "GET" "/test" failHandler _ h2
  have h3 : finalResolver ([getStruct].map (inputResolver asciiLib)) okCtx
      = (.ok (some [.struct [.str "hello world", .int 69]], none), []) := by decide
  refine ⟨h1, h2, h3, ?_⟩
  obtain ⟨args, hargs, hserved⟩ :=
    C9_handler_result asciiLib "GET" "/test" failHandler _ _ ⟨some ⟨0⟩⟩ okCtx _ _ h1 h2 h3
  injection hargs with hargs
  subst hargs
  exact hserved

theorem inputResolver_bindable (L : Lib) (T : RType) (h : bindable T = true) :
    inputResolver L T = some (assemble T (structResolvers L T)) := by
  unfold bindable at h
  unfold inputResolver
  rcases hF : T.Fields with _ | ⟨first, rest⟩
  · simp [hF] at h
  · simp [hF] at h
    simp [h.1, h.2.1, h.2.2]

theorem inputResolver_contextParam (L : Lib) (T : RType) (h : contextParam T = true) :
    inputResolver L T = some (fun _ => (.ok (.context, true, none), [])) := by
  unfold contextParam at h
  unfold inputResolver
  simp only [Bool.and_eq_true, Bool.not_eq_true'] at h
  have hc : ¬ ((decide (T.Kind = .Struct) && decide (T.Fields.length > 0)) = true) := by
    have h1 := h.1
    by_cases hk : T.Kind = .Struct
    · simp [hk] at h1 ⊢
      exact h1
    · simp [hk]
  rw [if_neg hc, if_pos h.2]

theorem finalResolver_loop_context (L : Lib) (ctx : Context) (pre : List RType)
    (rest : List (Option InputResolver)) (hpre : ∀ p ∈ pre, contextParam p = true) :
    ∀ vals, finalResolver.loop ctx (pre.map (inputResolver L) ++ rest) vals
      = finalResolver.loop ctx rest (vals ++ pre.map (fun _ => Value.context)) := by
  induction pre with
  | nil => intro vals; simp
  | cons p pre ih =>
    intro vals
    have hp := inputResolver_contextParam L p (hpre p (List.mem_cons_self _ _))
    have ih2 := ih (fun q hq => hpre q (List.mem_cons_of_mem _ hq)) (vals ++ [Value.context])
    rw [List.map_cons, List.cons_append, hp]
    conv_lhs => unfold finalResolver.loop
    simp only [Bool.not_true, Bool.false_eq_true, if_false, List.nil_append]
    rw [ih2]
    simp

/-- One step of the final resolver on a resolver that succeeds. -/
theorem finalResolver_loop_cons_ok (ctx : Context) (res : InputResolver)
    (rest : List (Option InputResolver)) (vals : List Value) (value : Value)
    (ev : List Event) (h : res ctx = (.ok (value, true, none), ev)) :
    finalResolver.loop ctx (some res :: rest) vals
      = ((finalResolver.loop ctx rest (vals ++ [value])).1,
          ev ++ (finalResolver.loop ctx rest (vals ++ [value])).2) := by
  conv_lhs => unfold finalResolver.loop
  rw [h]
  simp

theorem finalResolver_loop_struct_fail (L : Lib) (ctx : Context) (T : RType)
    (rest : List (Option InputResolver)) (vals : List Value)
    (hset : ∀ f ∈ T.Fields, bindableField f = true → accepts f.Typ = true)
    (hne : structFailures L T ctx ≠ []) :
    finalResolver.loop ctx (some (assemble T (structResolvers L T)) :: rest) vals
      = (.ok (none, some (.new "request validation failed")),
          [.JSON 400 ⟨"validation failed", structFailures L T ctx⟩]) := by
  unfold finalResolver.loop
  rw [assemble_structResolvers L T ctx hset, if_neg hne]
  simp

theorem failureOf_int_invalid (L : Lib) (field : StructField) (ctx : Context) (raw : String)
    (hexp : field.IsExported = true) (hret : field.Tag.Lookup "return" = none)
    (hkind : intKind field.Typ.Kind = true)
    (hconv : field.Typ.ConvertibleToContext = false)
    (hraw : ContextResolvers.Get L (fieldChain field) (fieldTag field) (fieldOption field) ctx
      = (raw, none))
    (hbad : ∀ n, Atoi L raw ≠ .ok n) :
    ∃ rest, failureOf ctx field (structResolver L field)
      = some ⟨field.Name, "not a number" ++ rest⟩ := by
  rw [structResolver_int L field hexp hret hconv hkind]
  unfold failureOf
  simp only [hraw]
  rcases hA : Atoi L raw with err | n
  · refine ⟨": " ++ err.Error, ?_⟩
    simp only [GoError.Error]
    rw [← String.append_assoc]
    rfl
  · exact absurd hA (hbad n)

/-- For a handler struct whose field types accept the values of their coercions: when
the raw value that the chain yields for an integer field is not a base-10 integer, the
adapter writes the response with status 400 and the body `message: validation failed,
fields: ...`, the fields hold an entry with the declared field name and an error
starting with `not a number`, and the handler is not called. -/
theorem invalid_integer_400 (L : Lib) (m path : String) (call : List Value → Option GoError)
    (pre post : List RType) (T out : RType) (field : StructField) (ctx : Context)
    (raw : String) (r : Cuttle)
    (hpre : ∀ p ∈ pre, contextParam p = true)
    (hT : bindable T = true) (hout : out.Str = "error")
    (hset : ∀ f ∈ T.Fields, bindableField f = true → accepts f.Typ = true)
    (hmem : field ∈ T.Fields)
    (hexp : field.IsExported = true) (hret : field.Tag.Lookup "return" = none)
    (hkind : intKind field.Typ.Kind = true)
    (hconv : field.Typ.ConvertibleToContext = false)
    (hraw : ContextResolvers.Get L (fieldChain field) (fieldTag field) (fieldOption field) ctx
      = (raw, none))
    (hbad : ∀ n, Atoi L raw ≠ .ok n) :
    ∃ served entry rest,
      Method L m path ⟨some ⟨.Func, pre ++ T :: post, [out]⟩, call⟩ = .ok served ∧
      served r ctx = (.ok (some (.wrap "request validation failed: "
          (.new "request validation failed"))),
        [.JSON 400 ⟨"validation failed", structFailures L T ctx⟩]) ∧
      entry ∈ structFailures L T ctx ∧ entry.Field = field.Name ∧
      entry.Err = "not a number" ++ rest := by
  obtain ⟨rest, hfail⟩ := failureOf_int_invalid L field ctx raw hexp hret hkind hconv hraw hbad
  have hentry : (⟨field.Name, "not a number" ++ rest⟩ : ValidationFail)
      ∈ structFailures L T ctx := by
    rw [structFailures_eq L T ctx hset]
    exact List.mem_filterMap.mpr ⟨field, hmem, hfail⟩
  have hne : structFailures L T ctx ≠ [] := List.ne_nil_of_mem hentry
  have hh : handle L path ⟨some ⟨.Func, pre ++ T :: post, [out]⟩, call⟩
      = .ok (finalResolver ((pre ++ T :: post).map (inputResolver L))) :=
    handle_ok L path _ out (pre ++ T :: post) rfl (by simp; omega) hout
  have hrun : finalResolver ((pre ++ T :: post).map (inputResolver L)) ctx
      = (.ok (none, some (.new "request validation failed")),
          [.JSON 400 ⟨"validation failed", structFailures L T ctx⟩]) := by
    unfold finalResolver
    rw [List.map_append, List.map_cons, finalResolver_loop_context L ctx pre _ hpre,
      inputResolver_bindable L T hT, finalResolver_loop_struct_fail L ctx T _ _ hset hne]
  refine ⟨_, ⟨field.Name, "not a number" ++ rest⟩, rest, Method_ok L m path _ _ hh, ?_,
    hentry, rfl, rfl⟩
  unfold Method.serve
  rw [hrun]

theorem Atoi_wow : ∀ n, Atoi asciiLib "wow" ≠ .ok n := by
  intro n h
  have hw : Atoi asciiLib "wow" = .error (NumError asciiLib "Atoi" "wow" "invalid syntax") := by
    decide
  rw [hw] at h
  cases h

/-- C6 (the code at the failing input): the handler takes
`struct { Name MyString; Count int }`, with `type MyString string`, and the request is
`Count=wow&Name=joe`, so the raw value of the integer field `Count` is not a base-10
integer.  The resolver of `Name` returns the string `joe`, `Set` does not store a
`string` in a field of type `MyString`, and serving the request panics before `Count`
is looked at: no response with status 400 is written. -/
theorem C6_defined_string_field_no_response :
    countField ∈ nameCountStruct.Fields ∧
    ContextResolvers.Get asciiLib (fieldChain countField) (fieldTag countField)
        (fieldOption countField) wowNameCtx = ("wow", none) ∧
    Atoi asciiLib "wow" = .error (NumError asciiLib "Atoi" "wow" "invalid syntax") ∧
    (Method asciiLib "GET" "/test"
        ⟨some ⟨.Func, [nameCountStruct], [errorT]⟩, fun _ => none⟩).toOption.map
        (fun served => served ⟨none⟩ wowNameCtx)
      = some (.error (.notAssignable "Name"), []) := by
  decide

theorem Get_single_hit (L : Lib) (r : ContextResolverFunc) (name : String)
    (option : CSRGetOption) (ctx : Context) (h : r name ctx ≠ "") :
    ContextResolvers.Get L [r] name option ctx = (r name ctx, none) := by
  have hv : chainValue L r name option ctx = r name ctx := by
    unfold chainValue
    rw [if_pos h]
  unfold ContextResolvers.Get
  rw [Get_loop_hit L name option ctx _ r [] (by rw [hv]; exact h), hv]

theorem Get_second_hit (L : Lib) (r1 r2 : ContextResolverFunc) (name : String)
    (option : CSRGetOption) (ctx : Context) (h1 : r1 name ctx = "")
    (h1l : r1 (L.ToLower name) ctx = "") (h2 : r2 name ctx ≠ "") :
    ContextResolvers.Get L [r1, r2] name option ctx = (r2 name ctx, none) := by
  have hv1 : chainValue L r1 name option ctx = "" := by
    unfold chainValue
    rw [if_neg (by simp [h1])]
    split
    · rfl
    · exact h1l
  have hv2 : chainValue L r2 name option ctx = r2 name ctx := by
    unfold chainValue
    rw [if_pos h2]
  unfold ContextResolvers.Get
  rw [Get_loop_skip L name option ctx _ r1 [r2] hv1,
    Get_loop_hit L name option ctx _ r2 [] (by rw [hv2]; exact h2), hv2]

theorem getStruct_assemble (L : Lib) (ctx : Context) (v raw : String) (n : Int)
    (hv : v ≠ "") (hq : ctx.QueryParam "q" = v) (hc : ctx.QueryParam "Count" = raw)
    (hn : Atoi L raw = .ok n) (hp1 : ctx.Param "Count" = "")
    (hp2 : ctx.Param (L.ToLower "Count") = "") :
    assemble getStruct (structResolvers L getStruct) ctx
      = (.ok (.struct [.str v, .int n], true, none), []) := by
  have hchainQ : fieldChain qField = [fun name ctx => ctx.QueryParam name] := by rfl
  have hchainC : fieldChain countField
      = [fun name ctx => ctx.Param name, fun name ctx => ctx.QueryParam name] := by rfl
  have htagQ : fieldTag qField = "q" := by decide
  have htagC : fieldTag countField = "Count" := by decide
  have hgetQ : ContextResolvers.Get L (fieldChain qField) (fieldTag qField) (fieldOption qField)
      ctx = (v, none) := by
    rw [hchainQ, htagQ, Get_single_hit L _ "q" _ ctx (by show ctx.QueryParam "q" ≠ ""; rw [hq]; exact hv)]
    show (ctx.QueryParam "q", none) = (v, none)
    rw [hq]
  have hraw : raw ≠ "" := Atoi_ne_empty L raw n hn
  have hgetC : ContextResolvers.Get L (fieldChain countField) (fieldTag countField)
      (fieldOption countField) ctx = (raw, none) := by
    rw [hchainC, htagC, Get_second_hit L _ _ "Count" _ ctx hp1 hp2
      (by show ctx.QueryParam "Count" ≠ ""; rw [hc]; exact hraw)]
    show (ctx.QueryParam "Count", none) = (raw, none)
    rw [hc]
  have hset : SetInt countField.Typ.Kind n = n := by
    have : countField.Typ.Kind = .Int := by decide
    rw [this]
    exact wrapInt_of_range n (Atoi_range L raw n hn)
  have hfields : getStruct.Fields = [qField, countField] := rfl
  have hstr : assignable qField.Typ (.str v) = true := rfl
  have hint : assignable countField.Typ (.int n) = true := rfl
  unfold assemble structResolvers
  rw [hfields]
  simp only [List.map_cons, List.map_nil]
  rw [structResolver_string L qField (by decide) (by decide) (by decide) (by decide),
    structResolver_int L countField (by decide) (by decide) (by decide) (by decide)]
  simp [assemble.loop, hgetQ, hgetC, hn, hset, hstr, hint, Except.map]

theorem digitChar_toNat (d : Nat) (h : d < 10) : (digitChar d).toNat = d + 48 := by
  interval_cases d <;> rfl

theorem digitChar_isDigit (d : Nat) (h : d < 10) : isDigit (digitChar d) = true := by
  unfold isDigit
  rw [digitChar_toNat d h]
  simp
  omega

theorem decimal_go_value (fuel : Nat) :
    ∀ (n : Nat) (acc : List Char), n < fuel →
      (decimal.go fuel n acc).foldl (fun k c => k * 10 + (c.toNat - 48)) 0
        = acc.foldl (fun k c => k * 10 + (c.toNat - 48)) n := by
  induction fuel with
  | zero => intro n acc h; omega
  | succ fuel ih =>
    intro n acc h
    unfold decimal.go
    by_cases hn : n < 10
    · rw [if_pos hn, List.foldl_cons, digitChar_toNat n hn]
      simp
    · rw [if_neg hn, ih (n / 10) _ (by omega), List.foldl_cons,
        digitChar_toNat (n % 10) (Nat.mod_lt _ (by decide))]
      congr 1
      omega

theorem decimal_go_all (fuel : Nat) :
    ∀ (n : Nat) (acc : List Char), acc.all isDigit = true →
      (decimal.go fuel n acc).all isDigit = true := by
  induction fuel with
  | zero => intro n acc h; exact h
  | succ fuel ih =>
    intro n acc h
    unfold decimal.go
    by_cases hn : n < 10
    · rw [if_pos hn, List.all_cons, digitChar_isDigit n hn, h]
      rfl
    · rw [if_neg hn]
      apply ih
      rw [List.all_cons, digitChar_isDigit (n % 10) (Nat.mod_lt _ (by decide)), h]
      rfl

theorem decimal_go_ne_nil (fuel : Nat) :
    ∀ (n : Nat) (acc : List Char), n < fuel → decimal.go fuel n acc ≠ [] := by
  induction fuel with
  | zero => intro n acc h; omega
  | succ fuel ih =>
    intro n acc h
    unfold decimal.go
    by_cases hn : n < 10
    · rw [if_pos hn]; simp
    · rw [if_neg hn]
      exact ih (n / 10) _ (by omega)

theorem digitsValue_decimal (n : Nat) : digitsValue (decimal n) = n := by
  unfold digitsValue decimal
  rw [decimal_go_value (n + 1) n [] (by omega)]
  rfl

theorem Atoi_digits (L : Lib) (ds : List Char) (hne : ds ≠ []) (hall : ds.all isDigit = true)
    (hlt : digitsValue ds < 2 ^ 63) : Atoi L (String.mk ds) = .ok (digitsValue ds : Int) := by
  cases ds with
  | nil => exact absurd rfl hne
  | cons c cs =>
    have hc : isDigit c = true := by
      rw [List.all_cons] at hall
      exact (Bool.and_eq_true _ _ ▸ hall).1
    have hm : c ≠ '-' := by
      intro h
      subst h
      exact absurd hc (by decide)
    have hp : c ≠ '+' := by
      intro h
      subst h
      exact absurd hc (by decide)
    have hbody : (match c :: cs with
        | '-' :: r => r
        | '+' :: r => r
        | cs => cs) = c :: cs := by
      split
      · rename_i heq; injection heq with h1 h2; exact absurd h1 hm
      · rename_i heq; injection heq with h1 h2; exact absurd h1 hp
      · rfl
    have htake : (c :: cs).takeWhile isDigit = c :: cs :=
      List.takeWhile_eq_self_iff.mpr (fun x hx => List.all_eq_true.mp hall x hx)
    unfold Atoi
    simp only [hbody]
    have hneg : ((c :: cs).head? == some '-') = false := by
      simp [hm]
    simp only [hneg, hall, htake]
    simp
    rw [if_neg (by omega), if_neg (by omega)]

theorem Atoi_neg_digits (L : Lib) (ds : List Char) (hne : ds ≠ [])
    (hall : ds.all isDigit = true) (hle : digitsValue ds ≤ 2 ^ 63) :
    Atoi L (String.mk ('-' :: ds)) = .ok (-(digitsValue ds : Int)) := by
  unfold Atoi
  have hneg : (('-' :: ds).head? == some '-') = true := by simp
  have hbody : (match '-' :: ds with
      | '-' :: r => r
      | '+' :: r => r
      | cs => cs) = ds := rfl
  have htake : ds.takeWhile isDigit = ds :=
    List.takeWhile_eq_self_iff.mpr (fun x hx => List.all_eq_true.mp hall x hx)
  simp only [hbody, hneg, hall, htake]
  have : ds.isEmpty = false := by
    cases ds with
    | nil => exact absurd rfl hne
    | cons c cs => rfl
  simp [this]
  rw [if_neg (by omega), if_neg (by omega)]

theorem Atoi_Itoa (L : Lib) (n : Int) (h : -(2 : Int) ^ 63 ≤ n ∧ n < (2 : Int) ^ 63) :
    Atoi L (Itoa n) = .ok n := by
  have hne : decimal n.natAbs ≠ [] := decimal_go_ne_nil _ _ _ (by omega)
  have hall : (decimal n.natAbs).all isDigit = true := decimal_go_all _ _ _ rfl
  unfold Itoa
  by_cases hn : n < 0
  · rw [if_pos hn, Atoi_neg_digits L _ hne hall (by rw [digitsValue_decimal]; omega),
      digitsValue_decimal]
    congr 1
    omega
  · rw [if_neg hn, Atoi_digits L _ hne hall (by rw [digitsValue_decimal]; omega),
      digitsValue_decimal]
    congr 1
    omega

/-- C7 (as stated, refuted): for the integer `n = 2^63` the request
`q=hello+world&Count=9223372036854775808` is answered with status 400 and the handler
is not called, `Count` being an `int` of 64 bits; and on a route `/t/:Count` the
request `/t/5?q=hello+world&Count=7` calls the handler with `Count == 5`, the path
parameter, not with the 7 of the query. -/
theorem C7_count_out_of_range_or_from_path :
    bigCountCtx.QueryParam "q" = "hello world" ∧
    bigCountCtx.QueryParam "Count" = Itoa (2 ^ 63) ∧
    (Method asciiLib "GET" "/test" getHandler).toOption.map
        (fun served => served ⟨none⟩ bigCountCtx)
      = some (.ok (some (.wrap "request validation failed: "
            (.new "request validation failed"))),
          [.JSON 400 ⟨"validation failed",
            [⟨"Count", "not a number: strconv.Atoi: parsing \"9223372036854775808\": value out of range"⟩]⟩]) ∧
    pathQueryCtx.QueryParam "q" = "hello world" ∧
    pathQueryCtx.QueryParam "Count" = Itoa 7 ∧
    (Method asciiLib "GET" "/t/:Count" getHandler).toOption.map
        (fun served => served ⟨none⟩ pathQueryCtx)
      = some (.ok none, [.Call [.struct [.str "hello world", .int 5]]]) := by
  decide

/-- C7 (amended): for every non-empty string `v` and every integer `n` of the range of a
64-bit `int`, a request whose query carries `q=v` and `Count=n`, on a route that binds
no path parameter `Count` or `count`, handled by a handler taking
`struct { Query string; Count int }` with `bind:"query" as:"q,required"` on `Query`,
produces no validation failure and calls the handler exactly once, with `Query == v`
and `Count == n`. -/
theorem C7_get_binds_query_and_count (L : Lib) (m path : String)
    (call : List Value → Option GoError) (r : Cuttle) (ctx : Context) (v : String) (n : Int)
    (hv : v ≠ "") (hn : -(2 : Int) ^ 63 ≤ n ∧ n < (2 : Int) ^ 63)
    (hq : ctx.QueryParam "q" = v) (hc : ctx.QueryParam "Count" = Itoa n)
    (hp1 : ctx.Param "Count" = "") (hp2 : ctx.Param (L.ToLower "Count") = "") :
    ∃ served,
      Method L m path ⟨some ⟨.Func, [getStruct], [errorT]⟩, call⟩ = .ok served ∧
      served r ctx =
        match call [.struct [.str v, .int n]] with
        | none => (.ok none, [.Call [.struct [.str v, .int n]]])
        | some e =>
          match r.ErrorHandler with
          | none => (.ok (some e), [.Call [.struct [.str v, .int n]]])
          | some _ => (.ok none, [.Call [.struct [.str v, .int n]], .ErrorHandler e]) := by
  have hasm := getStruct_assemble L ctx v (Itoa n) n hv hq hc (Atoi_Itoa L n hn) hp1 hp2
  have hh : handle L path ⟨some ⟨.Func, [getStruct], [errorT]⟩, call⟩
      = .ok (finalResolver ([getStruct].map (inputResolver L))) :=
    handle_ok L path _ errorT [getStruct] rfl (by decide) (by decide)
  have hrun : finalResolver ([getStruct].map (inputResolver L)) ctx
      = (.ok (some [.struct [.str v, .int n]], none), []) := by
    unfold finalResolver
    rw [List.map_cons, List.map_nil, inputResolver_bindable L getStruct (by decide),
      finalResolver_loop_cons_ok ctx _ [] [] _ _ hasm]
    rfl
  refine ⟨_, Method_ok L m path _ _ hh, ?_⟩
  unfold Method.serve
  rw [hrun]
  simp only []
  cases call [.struct [.str v, .int n]] with
  | none => rfl
  | some e => cases r.ErrorHandler <;> rfl

/-- An instance: the request `q=hello+world&Count=69` of `TestRouter_GET`. -/
theorem C7_get_binds_query_and_count_witness :
    ("hello world" : String) ≠ "" ∧ (-(2 : Int) ^ 63 ≤ 69 ∧ (69 : Int) < (2 : Int) ^ 63) ∧
    okCtx.QueryParam "q" = "hello world" ∧ okCtx.QueryParam "Count" = Itoa 69 ∧
    okCtx.Param "Count" = "" ∧ okCtx.Param (asciiLib.ToLower "Count") = "" ∧
    ∃ served,
      Method asciiLib "GET" "/test" ⟨some ⟨.Func, [getStruct], [errorT]⟩, fun _ => none⟩
        = .ok served ∧
      served ⟨none⟩ okCtx =
        match (fun _ => none : List Value → Option GoError)
            [.struct [.str "hello world", .int 69]] with
        | none => (.ok none, [.Call [.struct [.str "hello world", .int 69]]])
        | some e =>
          match (Cuttle.mk none).ErrorHandler with
          | none => (.ok (some e), [.Call [.struct [.str "hello world", .int 69]]])
          | some _ =>
            (.ok none, [.Call [.struct [.str "hello world", .int 69]], .ErrorHandler e]) :=
  ⟨by decide, by decide, by decide, by decide, by decide, by decide,
   C7_get_binds_query_and_count asciiLib "GET" "/test" (fun _ => none) ⟨none⟩ okCtx
     "hello world" 69 (by decide) (by decide) (by decide) (by decide) (by decide) (by decide)⟩

/-- C8 (the code at the failing input): for the request `q=hello+world&Count=wow` the
struct assembler writes the 400 response and the adapter, without calling the
handler, returns the error `request validation failed: request validation failed`
instead of nil. -/
theorem C8_validation_failure_returns_error :
    (Method asciiLib "GET" "/test" getHandler).toOption.map (fun served => served ⟨none⟩ wowCtx)
      = some (.ok (some (.wrap "request validation failed: "
            (.new "request validation failed"))),
          [.JSON 400 ⟨"validation failed",
            [⟨"Count", "not a number: strconv.Atoi: parsing \"wow\": invalid syntax"⟩]⟩]) := by
  decide

/-! ## Parameter resolvers compiled by `handle` -/

/-- C11 (the code at the failing input): registration accepts the handler
`func(n int) error`, the resolver compiled for its parameter is nil, and serving a
request calls that nil func, which panics. -/
theorem C11_int_parameter_nil_resolver :
    (inputResolver asciiLib intParamT).isNone = true ∧
    (Method asciiLib "GET" "/n" intHandler).toOption.map
        (fun served => served ⟨none⟩ emptyCtx)
      = some (.error .nilFuncCall, []) := by
  decide

/-! ## Field plans -/

theorem GetResolvers_eq_filterMap (names : List String) :
    GetResolvers names = names.filterMap ctxResolvers := by
  induction names with
  | nil => rfl
  | cons n names ih =>
    unfold GetResolvers
    rw [List.filterMap_cons]
    cases ctxResolvers n <;> simp [ih]

theorem ctxResolvers_isSome (n : String) : (ctxResolvers n).isSome = knownSource n := by
  unfold ctxResolvers knownSource
  by_cases h1 : n = "query"
  · simp [h1]
  · by_cases h2 : n = "param"
    · simp [h2]
    · by_cases h3 : n = "header"
      · simp [h3]
      · by_cases h4 : n = "form"
        · simp [h4]
        · by_cases h5 : n = "file"
          · simp [h5]
          · simp [h1, h2, h3, h4, h5]

theorem Get_first_hit (L : Lib) (r : ContextResolverFunc) (rest : ContextResolvers)
    (name : String) (option : CSRGetOption) (ctx : Context) (h : r name ctx ≠ "") :
    ContextResolvers.Get L (r :: rest) name option ctx = (r name ctx, none) := by
  have hv : chainValue L r name option ctx = r name ctx := by
    unfold chainValue
    rw [if_pos h]
  unfold ContextResolvers.Get
  rw [Get_loop_hit L name option ctx _ r rest (by rw [hv]; exact h), hv]

/-- The resolver compiled for a field of string, integer, unsigned or float kind is the
coercion of the lookup in the chain of the field. -/
theorem structResolver_chain (L : Lib) (field : StructField)
    (hexp : field.IsExported = true) (hret : field.Tag.Lookup "return" = none)
    (hconv : field.Typ.ConvertibleToContext = false)
    (hkind : chainKind field.Typ.Kind = true) :
    structResolver L field = some (fun ctx => coercion L field.Typ.Kind
      (ContextResolvers.Get L (fieldChain field) (fieldTag field) (fieldOption field) ctx)) := by
  unfold chainKind at hkind
  simp only [Bool.or_eq_true, beq_iff_eq] at hkind
  rcases hkind with ((hk | hk) | hk) | hk
  · rw [structResolver_string L field hexp hret hconv hk]
    congr 1
    funext ctx
    simp [coercion, hk]
  · rw [structResolver_int L field hexp hret hconv hk]
    congr 1
    funext ctx
    have hs : field.Typ.Kind ≠ .String := by
      intro h
      rw [h] at hk
      cases hk
    unfold coercion
    rw [if_neg hs]
    rcases ContextResolvers.Get L (fieldChain field) (fieldTag field) (fieldOption field) ctx
      with ⟨s, _ | e⟩
    · simp [hk]
    · rfl
  · rw [structResolver_uint L field hexp hret hconv hk]
    congr 1
    funext ctx
    have hs : field.Typ.Kind ≠ .String := by
      intro h
      rw [h] at hk
      cases hk
    have hi : intKind field.Typ.Kind = false := by
      cases hkk : field.Typ.Kind <;> simp [hkk, uintKind, intKind] at hk ⊢
    unfold coercion
    rw [if_neg hs]
    rcases ContextResolvers.Get L (fieldChain field) (fieldTag field) (fieldOption field) ctx
      with ⟨s, _ | e⟩
    · simp [hk, hi]
    · rfl
  · rw [structResolver_float L field hexp hret hconv hk]
    congr 1
    funext ctx
    have hs : field.Typ.Kind ≠ .String := by
      intro h
      rw [h] at hk
      cases hk
    have hi : intKind field.Typ.Kind = false := by
      cases hkk : field.Typ.Kind <;> simp [hkk, floatKind, intKind] at hk ⊢
    have hu : uintKind field.Typ.Kind = false := by
      cases hkk : field.Typ.Kind <;> simp [hkk, floatKind, uintKind] at hk ⊢
    unfold coercion
    rw [if_neg hs]
    rcases ContextResolvers.Get L (fieldChain field) (fieldTag field) (fieldOption field) ctx
      with ⟨s, _ | e⟩
    · simp [hi, hu]
    · rfl

/-- C14: `GetResolvers` keeps, in order and with their multiplicity, the resolvers of
the names it knows (query, param, header, form, file) and drops every other name; the
resolver compiled for a field of string, integer, unsigned or float kind looks its
value up in the chain of the resolvers named by the comma-segments of the `bind` tag
of the field, the unknown ones dropped, and without a `bind` tag in the chain of param
followed by query; so without a `bind` tag the compiled resolver coerces the path
parameter of the field whenever there is one, whatever the query holds. -/
theorem C14_source_chain (L : Lib) (names : List String) (field : StructField) :
    GetResolvers names = names.filterMap ctxResolvers ∧
    (∀ n, (ctxResolvers n).isSome = true ↔ n ∈ ["query", "param", "header", "form", "file"]) ∧
    (field.IsExported = true → field.Tag.Lookup "return" = none →
      field.Typ.ConvertibleToContext = false → chainKind field.Typ.Kind = true →
      (∀ tag, field.Tag.Lookup "bind" = some tag →
        structResolver L field = some (fun ctx => coercion L field.Typ.Kind
          (ContextResolvers.Get L ((Split tag ',').filterMap ctxResolvers) (fieldTag field)
            (fieldOption field) ctx))) ∧
      (field.Tag.Lookup "bind" = none →
        structResolver L field = some (fun ctx => coercion L field.Typ.Kind
          (ContextResolvers.Get L
            [fun name ctx => ctx.Param name, fun name ctx => ctx.QueryParam name]
            (fieldTag field) (fieldOption field) ctx)) ∧
        ∀ f, structResolver L field = some f →
          ∀ ctx : Context, ctx.Param (fieldTag field) ≠ "" →
            f ctx = coercion L field.Typ.Kind (ctx.Param (fieldTag field), none))) := by
  refine ⟨GetResolvers_eq_filterMap names, ?_, ?_⟩
  · intro n
    rw [ctxResolvers_isSome]
    simp [knownSource, or_assoc]
  · intro hexp hret hconv hkind
    have hres := structResolver_chain L field hexp hret hconv hkind
    constructor
    · intro tag h
      have hc : fieldChain field = (Split tag ',').filterMap ctxResolvers := by
        unfold fieldChain
        rw [h]
        exact GetResolvers_eq_filterMap _
      rw [hres, hc]
    · intro h
      have hc : fieldChain field
          = [fun name ctx => ctx.Param name, fun name ctx => ctx.QueryParam name] := by
        unfold fieldChain
        rw [h]
        rfl
      rw [hc] at hres
      refine ⟨hres, ?_⟩
      intro f hf ctx hp
      rw [hres] at hf
      injection hf with hf
      subst hf
      simp only []
      rw [Get_first_hit L _ _ _ _ ctx hp]

/-- An instance: the tag `bind:"form,json,query,form"` gives the chain form, query,
form; for the field `Count int` without a `bind` tag, on the request `/t/5?Count=7` of
a route with the path parameter `Count`, the compiled resolver returns 5. -/
theorem C14_source_chain_witness :
    (GetResolvers ["form", "json", "query", "form"]).length = 3 ∧
    countField.Tag.Lookup "bind" = none ∧
    pathCtx.Param (fieldTag countField) = "5" ∧ pathCtx.QueryParam "Count" = "7" ∧
    (structResolver asciiLib countField).map (fun f => f pathCtx) = some (.int 5, none) := by
  have h := ((C14_source_chain asciiLib [] countField).2.2 (by decide) (by decide) (by decide)
    (by decide)).2 (by decide)
  refine ⟨by decide, by decide, by decide, by decide, ?_⟩
  rw [h.1, Option.map_some']
  exact congrArg some ((h.2 _ h.1 pathCtx (by decide)).trans (by decide))

theorem structResolver_isSome (L : Lib) (field : StructField) :
    (structResolver L field).isSome
      = (field.IsExported && !(field.Tag.Lookup "return").isSome && coercible field.Typ) := by
  cases hexp : field.IsExported
  · simp [structResolver, hexp]
  · cases hret : field.Tag.Lookup "return"
    · cases hconv : field.Typ.ConvertibleToContext
      · cases hk : field.Typ.Kind <;> cases hr : field.Typ.IsReader <;>
          cases ha : field.Typ.AssignableToFileHeader <;>
          simp [structResolver, coercible, chainKind, intKind, uintKind, floatKind, hexp,
            hret, hconv, hk, hr, ha]
      · rw [structResolver_context L field hexp hret hconv]
        simp [coercible, hconv]
    · simp [structResolver, hexp, hret]

/-- C20: `structResolvers` returns one slot per struct field, in field order; the slot
of a field is nil when the field is unexported, or carries a `return` tag, or has a
type without coercion, and holds a resolver otherwise. -/
theorem C20_plan_slots (L : Lib) (T : RType) :
    (structResolvers L T).length = T.Fields.length ∧
    ∀ (i : Nat) (field : StructField), T.Fields[i]? = some field →
      ∃ slot, (structResolvers L T)[i]? = some slot ∧
        slot.isSome
          = (field.IsExported && !(field.Tag.Lookup "return").isSome && coercible field.Typ) := by
  unfold structResolvers
  refine ⟨List.length_map _ _, ?_⟩
  intro i field h
  refine ⟨structResolver L field, ?_, structResolver_isSome L field⟩
  rw [List.getElem?_map, h]
  rfl

/-- An instance: in `struct { Flag bool; Query string }` the slot of `Flag` is nil and
the slot of `Query` holds a resolver. -/
theorem C20_plan_slots_witness :
    flagStruct.Fields[0]? = some flagField ∧ flagStruct.Fields[1]? = some queryField ∧
    (structResolvers asciiLib flagStruct).length = 2 ∧
    (∃ slot, (structResolvers asciiLib flagStruct)[0]? = some slot ∧ slot.isSome = false) ∧
    (∃ slot, (structResolvers asciiLib flagStruct)[1]? = some slot ∧ slot.isSome = true) :=
  ⟨rfl, rfl, (C20_plan_slots asciiLib flagStruct).1,
   (C20_plan_slots asciiLib flagStruct).2 0 flagField rfl,
   (C20_plan_slots asciiLib flagStruct).2 1 queryField rfl⟩

/-! ## Tags -/

theorem Split_go_ne_nil (sep : Char) (cs cur : List Char) : Split.go sep cs cur ≠ [] := by
  induction cs generalizing cur with
  | nil => simp [Split.go]
  | cons c cs ih =>
    unfold Split.go
    split
    · simp
    · exact ih _

theorem Split_go_join (sep : Char) (cs cur : List Char) :
    List.intercalate [sep] ((Split.go sep cs cur).map String.data) = cur.reverse ++ cs := by
  induction cs generalizing cur with
  | nil => simp [Split.go, List.intercalate]
  | cons c cs ih =>
    unfold Split.go
    split
    · rename_i hc
      have ih2 := ih []
      rcases hs : Split.go sep cs [] with _ | ⟨a, rest⟩
      · exact absurd hs (Split_go_ne_nil sep cs [])
      · rw [hs] at ih2
        simp only [List.map_cons, List.intercalate, List.intersperse, List.flatten_cons,
          List.reverse_nil, List.nil_append] at ih2 ⊢
        rw [ih2, hc]
        simp
    · rw [ih (c :: cur)]
      simp

theorem Split_go_no_sep (sep : Char) (cs cur : List Char) (hcur : sep ∉ cur) :
    ∀ seg ∈ Split.go sep cs cur, sep ∉ seg.data := by
  induction cs generalizing cur with
  | nil =>
    intro seg hseg
    simp only [Split.go, List.mem_singleton] at hseg
    subst hseg
    simpa using hcur
  | cons c cs ih =>
    intro seg hseg
    unfold Split.go at hseg
    split at hseg
    · rcases List.mem_cons.mp hseg with h | h
      · subst h
        simpa using hcur
      · exact ih [] (by simp) seg h
    · rename_i hc
      refine ih (c :: cur) ?_ seg hseg
      intro hm
      rcases List.mem_cons.mp hm with h | h
      · exact hc h.symm
      · exact hcur h

/-- The pieces of `Split s sep` joined by `sep` give `s` back, and no piece holds `sep`:
they are the `sep`-separated segments of `s`. -/
theorem Split_segments (s : String) (sep : Char) :
    List.intercalate [sep] ((Split s sep).map String.data) = s.data ∧
    ∀ seg ∈ Split s sep, sep ∉ seg.data := by
  unfold Split
  refine ⟨?_, Split_go_no_sep sep s.data [] (by simp)⟩
  rw [Split_go_join]
  rfl

theorem getTags_loop_eq (rest : List String) (o : CSRGetOption) :
    getTags.loop rest o
      = ⟨o.Sensitive || decide ("sensitive" ∈ rest), o.Required || decide ("required" ∈ rest)⟩ := by
  induction rest generalizing o with
  | nil => simp [getTags.loop]
  | cons v rest ih =>
    unfold getTags.loop
    by_cases h1 : v = "sensitive"
    · rw [if_pos h1, ih]
      subst h1
      simp
    · rw [if_neg h1]
      by_cases h2 : v = "required"
      · rw [if_pos h2, ih]
        subst h2
        simp
      · rw [if_neg h2, ih]
        have e1 : ("sensitive" ∈ v :: rest) ↔ ("sensitive" ∈ rest) := by
          simp [List.mem_cons, Ne.symm h1]
        have e2 : ("required" ∈ v :: rest) ↔ ("required" ∈ rest) := by
          simp [List.mem_cons, Ne.symm h2]
        simp [e1, e2]

theorem getTags_absent (structTag : StructTag) (name : String)
    (h : structTag.Lookup "as" = none) : getTags structTag name = (⟨false, false⟩, name) := by
  unfold getTags
  rw [h]

theorem getTags_present (structTag : StructTag) (name : String) :
    ∀ asTag, structTag.Lookup "as" = some asTag →
      ∃ first rest, Split asTag ',' = first :: rest ∧
        getTags structTag name
          = (⟨decide ("sensitive" ∈ rest), decide ("required" ∈ rest)⟩,
              if first = "" then name else first) := by
  intro asTag h
  rcases hs : Split asTag ',' with _ | ⟨first, rest⟩
  · exact absurd hs (Split_go_ne_nil ',' asTag.data [])
  · refine ⟨first, rest, rfl, ?_⟩
    unfold getTags
    rw [h]
    simp only [hs, getTags_loop_eq]
    by_cases hf : first = ""
    · simp [hf]
    · simp [hf]

/-- C15 (as stated, refuted): for the tag `as:",required"` the first comma-segment is
empty and `getTags` returns the declared field name `Query` as lookup name. -/
theorem C15_empty_first_segment_keeps_name :
    StructTag.Lookup [("as", ",required")] "as" = some ",required" ∧
    Split ",required" ',' = ["", "required"] ∧
    getTags [("as", ",required")] "Query" = (⟨false, true⟩, "Query") := by
  decide

/-- C15 (amended): `getTags` returns as lookup name the first comma-segment of the `as`
tag when the tag is present and that segment is not empty, and the declared field
name when the tag is absent (with `Sensitive` and `Required` false) or its first
segment is empty; when the tag is present, `Sensitive` is true exactly when a segment
after the first equals `sensitive` and `Required` exactly when one equals `required`,
in any order, and every other segment is ignored. -/
theorem C15_getTags (structTag : StructTag) (name : String) :
    (structTag.Lookup "as" = none → getTags structTag name = (⟨false, false⟩, name)) ∧
    (∀ asTag, structTag.Lookup "as" = some asTag →
      ∃ first rest, Split asTag ',' = first :: rest ∧
        getTags structTag name
          = (⟨decide ("sensitive" ∈ rest), decide ("required" ∈ rest)⟩,
              if first = "" then name else first)) := by
  exact ⟨getTags_absent structTag name, getTags_present structTag name⟩

/-- An instance: the tag `as:"q,x,required,sensitive"`. -/
theorem C15_getTags_witness :
    StructTag.Lookup [("as", "q,x,required,sensitive")] "as" = some "q,x,required,sensitive" ∧
    Split "q,x,required,sensitive" ',' = ["q", "x", "required", "sensitive"] ∧
    getTags [("as", "q,x,required,sensitive")] "Query" = (⟨true, true⟩, "q") := by
  refine ⟨by decide, by decide, ?_⟩
  obtain ⟨first, rest, hs, hg⟩ :=
    (C15_getTags [("as", "q,x,required,sensitive")] "Query").2 "q,x,required,sensitive"
      (by decide)
  rw [hg]
  have h2 : Split "q,x,required,sensitive" ',' = ["q", "x", "required", "sensitive"] := by
    decide
  rw [h2] at hs
  injection hs with h1 h3
  subst h1 h3
  decide

/-! ## File fields -/

theorem Lookup_cons_ne (k v key : String) (tag : StructTag) (h : k ≠ key) :
    StructTag.Lookup ((k, v) :: tag) key = StructTag.Lookup tag key := by
  simp [StructTag.Lookup, h]

theorem structResolver_file (L : Lib) (field : StructField)
    (hexp : field.IsExported = true) (hret : field.Tag.Lookup "return" = none)
    (hkind : field.Typ.Kind = .Ptr) (hfile : field.Typ.AssignableToFileHeader = true)
    (hconv : field.Typ.ConvertibleToContext = false) :
    structResolver L field = some (fun ctx =>
      (.file (ctx.FormFile (fieldTag field)).1, (ctx.FormFile (fieldTag field)).2)) := by
  unfold structResolver
  simp [hexp, hret, hconv, hkind, hfile, fieldTag]

/-- C17: for a struct field whose type is pointer-to-file-header, the compiled resolver
returns what `FormFile` returns for the display name of the field (the declared name
without an `as` tag, the first segment of the `as` tag when that is not empty),
whatever the `bind` tag is; with an uploaded file under that name the value is the
non-nil handle of the upload. -/
theorem C17_file_header_field (L : Lib) (field : StructField)
    (hexp : field.IsExported = true) (hret : field.Tag.Lookup "return" = none)
    (hkind : field.Typ.Kind = .Ptr) (hfile : field.Typ.AssignableToFileHeader = true)
    (hconv : field.Typ.ConvertibleToContext = false) :
    ∃ f, structResolver L field = some f ∧
      (∀ ctx, f ctx = (.file (ctx.FormFile (fieldTag field)).1, (ctx.FormFile (fieldTag field)).2)) ∧
      (∀ ctx fh, ctx.FormFile (fieldTag field) = (some fh, none) →
        f ctx = (.file (some fh), none)) ∧
      (∀ b, structResolver L { field with Tag := ("bind", b) :: field.Tag } = some f) ∧
      (field.Tag.Lookup "as" = none → fieldTag field = field.Name) ∧
      (∀ asTag first rest, field.Tag.Lookup "as" = some asTag →
        Split asTag ',' = first :: rest → first ≠ "" → fieldTag field = first) := by
  refine ⟨_, structResolver_file L field hexp hret hkind hfile hconv, fun _ => rfl, ?_, ?_, ?_, ?_⟩
  · intro ctx fh h
    simp only [h]
  · intro b
    have hret2 : StructTag.Lookup (("bind", b) :: field.Tag) "return" = none := by
      rw [Lookup_cons_ne _ _ _ _ (by decide)]
      exact hret
    rw [structResolver_file L { field with Tag := ("bind", b) :: field.Tag } hexp hret2 hkind
      hfile hconv]
    have htag : fieldTag { field with Tag := ("bind", b) :: field.Tag } = fieldTag field := by
      unfold fieldTag getTags
      simp only []
      rw [Lookup_cons_ne _ _ _ _ (by decide)]
    rw [htag]
  · intro h
    unfold fieldTag
    rw [getTags_absent _ _ h]
  · intro asTag first rest h hs hne
    obtain ⟨first2, rest2, hs2, hg⟩ := getTags_present field.Tag field.Name asTag h
    rw [hs] at hs2
    injection hs2 with h1 h2
    subst h1
    unfold fieldTag
    rw [hg]
    simp [hne]

/-- An instance: the field `Avatar` of `TestHandler_FormFileDump` with the upload of
the test; the assembled struct holds the form value, the handle and the context. -/
theorem C17_file_header_field_witness :
    avatarField.IsExported = true ∧ avatarField.Tag.Lookup "return" = none ∧
    avatarField.Typ.Kind = .Ptr ∧ avatarField.Typ.AssignableToFileHeader = true ∧
    avatarField.Typ.ConvertibleToContext = false ∧
    fieldTag avatarField = "avatar" ∧
    (∃ f, structResolver asciiLib avatarField = some f ∧
      f uploadCtx = (.file (some wowFile), none)) ∧
    assemble formStruct (structResolvers asciiLib formStruct) uploadCtx
      = (.ok (.struct [.str "furry.png", .file (some wowFile), .context], true, none), []) := by
  refine ⟨by decide, by decide, by decide, by decide, by decide, by decide, ?_, by decide⟩
  obtain ⟨f, hf, _, hup, _⟩ :=
    C17_file_header_field asciiLib avatarField (by decide) (by decide) (by decide) (by decide)
      (by decide)
  exact ⟨f, hf, hup uploadCtx wowFile (by decide)⟩

/-! ## The final resolver -/

theorem finalResolver_loop_succeed (ctx : Context) (rs : List InputResolver)
    (rest : List (Option InputResolver)) (h : ∀ res ∈ rs, succeeds res ctx) :
    ∀ vals, finalResolver.loop ctx (rs.map some ++ rest) vals
      = ((finalResolver.loop ctx rest (vals ++ rs.map (fun res => resolvedValue res ctx))).1,
          (rs.map (fun res => (res ctx).2)).flatten
            ++ (finalResolver.loop ctx rest
                (vals ++ rs.map (fun res => resolvedValue res ctx))).2) := by
  induction rs with
  | nil => intro vals; simp
  | cons res rs ih =>
    intro vals
    have hres := h res (List.mem_cons_self _ _)
    have ih2 := ih (fun q hq => h q (List.mem_cons_of_mem _ hq))
      (vals ++ [resolvedValue res ctx])
    unfold succeeds at hres
    unfold resolvedValue at ih2 ⊢
    rw [List.map_cons, List.cons_append]
    conv_lhs => unfold finalResolver.loop
    rcases hr : res ctx with ⟨p | ⟨value, ok, err⟩, ev⟩
    · rw [hr] at hres
      exact absurd hres (by simp)
    · rw [hr] at hres ih2
      simp only [] at hres ih2
      obtain ⟨hok, herr⟩ := hres
      subst hok herr
      simp only [Bool.not_true, Bool.false_eq_true, if_false]
      rw [ih2]
      simp [hr]

theorem finalResolver_loop_fail (ctx : Context) (res : InputResolver)
    (rest : List (Option InputResolver)) (vals : List Value) (h : ¬ succeeds res ctx) :
    finalResolver.loop ctx (some res :: rest) vals
      = (failureError res ctx, (res ctx).2) := by
  unfold finalResolver.loop failureError
  unfold succeeds at h
  rcases hr : res ctx with ⟨p | ⟨value, ok, err⟩, ev⟩
  · rfl
  · rw [hr] at h
    simp only [] at h ⊢
    cases ok with
    | false => simp
    | true =>
      cases err with
      | none => exact absurd ⟨rfl, rfl⟩ h
      | some e => simp

/-- C19: the final resolver runs the per-parameter resolvers in parameter order; when
all succeed it returns one value per parameter, in parameter order; at the first
resolver that reports a validation failure or returns an error it returns no argument
list and an error (at the first that panics, that panic), and the resolvers of the
later parameters are not run. -/
theorem C19_final_resolver_order (ctx : Context) (rs : List InputResolver)
    (h : ∀ res ∈ rs, succeeds res ctx) :
    (rs ≠ [] →
      finalResolver (rs.map some) ctx
        = (.ok (some (rs.map (fun res => resolvedValue res ctx)), none),
            (rs.map (fun res => (res ctx).2)).flatten)) ∧
    (∀ (res : InputResolver) (post : List (Option InputResolver)), ¬ succeeds res ctx →
      finalResolver (rs.map some ++ some res :: post) ctx
        = (failureError res ctx,
            (rs.map (fun res => (res ctx).2)).flatten ++ (res ctx).2)) := by
  constructor
  · intro hne
    have hp := finalResolver_loop_succeed ctx rs [] h []
    rw [List.append_nil] at hp
    unfold finalResolver
    rw [hp]
    cases rs with
    | nil => exact absurd rfl hne
    | cons a rs => simp [finalResolver.loop]
  · intro res post hfail
    unfold finalResolver
    rw [finalResolver_loop_succeed ctx rs _ h [], finalResolver_loop_fail ctx res post _ hfail]

/-- An instance: the resolvers compiled for `func(ctx Context, a struct, n int) error`
on the request `Count=wow`; the context resolver succeeds, the struct resolver reports
the validation failure, and the nil resolver of the third parameter is not called. -/
theorem C19_final_resolver_order_witness :
    (∀ res ∈ [(fun _ => (.ok (Value.context, true, none), []) : InputResolver)],
      succeeds res wowCtx) ∧
    ¬ succeeds (assemble getStruct (structResolvers asciiLib getStruct)) wowCtx ∧
    finalResolver ([contextT, getStruct, intParamT].map (inputResolver asciiLib)) wowCtx
      = (.ok (none, some (.new "request validation failed")),
          [.JSON 400 ⟨"validation failed",
            [⟨"Count", "not a number: strconv.Atoi: parsing \"wow\": invalid syntax"⟩]⟩]) := by
  refine ⟨by decide, by decide, ?_⟩
  have h := (C19_final_resolver_order wowCtx
    [(fun _ => (.ok (Value.context, true, none), []) : InputResolver)] (by decide)).2
    (assemble getStruct (structResolvers asciiLib getStruct)) [none] (by decide)
  have hl : [contextT, getStruct, intParamT].map (inputResolver asciiLib)
      = [(fun _ => (.ok (Value.context, true, none), []) : InputResolver)].map some
        ++ some (assemble getStruct (structResolvers asciiLib getStruct)) :: [none] := by
    rfl
  rw [hl, h]
  decide

/-! ## Body decoding -/

theorem inputResolver_fromJson (L : Lib) (T : RType) (first : StructField)
    (rest : List StructField) (hkind : T.Kind = .Struct) (hfields : T.Fields = first :: rest)
    (hjson : first.Typ.IsFromJson = true) :
    inputResolver L T
      = some (fun c => (.ok (.struct (c.Decode T).1, true, (c.Decode T).2), [])) := by
  unfold inputResolver
  simp [hkind, hfields, hjson]

theorem serve_of_args (fr : FinalResolver) (userHandler : UserHandler) (r : Cuttle)
    (ctx : Context) (args : List Value) (ev : List Event)
    (h : fr ctx = (.ok (some args, none), ev)) :
    Method.serve fr userHandler r ctx
      = ((handlerOutcome userHandler r args).1, ev ++ (handlerOutcome userHandler r args).2) := by
  unfold Method.serve handlerOutcome
  rw [h]
  simp only []
  cases userHandler.Call args with
  | none => rfl
  | some e => cases r.ErrorHandler <;> rfl

theorem serve_of_error (fr : FinalResolver) (userHandler : UserHandler) (r : Cuttle)
    (ctx : Context) (inv : Option (List Value)) (e : GoError) (ev : List Event)
    (h : fr ctx = (.ok (inv, some e), ev)) :
    Method.serve fr userHandler r ctx
      = (.ok (some (.wrap "request validation failed: " e)), ev) := by
  unfold Method.serve
  rw [h]
  cases inv <;> rfl

/-- C18: for a handler parameter that is a struct whose first field is the `FromJson`
marker, the parameter resolver is the decoding of the request body into that struct,
without a field plan; when decoding fails the final resolver returns the decode error
unchanged, nothing is written and the handler is not called (the adapter returns the
wrapped error); when decoding succeeds the handler receives the decoded struct. -/
theorem C18_body_decode (L : Lib) (m path : String) (call : List Value → Option GoError)
    (pre post : List RType) (T out : RType) (first : StructField) (rest : List StructField)
    (ctx : Context) (r : Cuttle)
    (hpre : ∀ p ∈ pre, contextParam p = true)
    (hkind : T.Kind = .Struct) (hfields : T.Fields = first :: rest)
    (hjson : first.Typ.IsFromJson = true) (hout : out.Str = "error") :
    ∃ served,
      Method L m path ⟨some ⟨.Func, pre ++ T :: post, [out]⟩, call⟩ = .ok served ∧
      inputResolver L T
        = some (fun c => (.ok (.struct (c.Decode T).1, true, (c.Decode T).2), [])) ∧
      (∀ e, (ctx.Decode T).2 = some e →
        finalResolver ((pre ++ T :: post).map (inputResolver L)) ctx
          = (.ok (none, some e), []) ∧
        served r ctx = (.ok (some (.wrap "request validation failed: " e)), [])) ∧
      ((ctx.Decode T).2 = none → (∀ p ∈ post, contextParam p = true) →
        served r ctx
          = handlerOutcome ⟨some ⟨.Func, pre ++ T :: post, [out]⟩, call⟩ r
              (pre.map (fun _ => Value.context) ++
                .struct (ctx.Decode T).1 :: post.map (fun _ => Value.context))) := by
  have hres := inputResolver_fromJson L T first rest hkind hfields hjson
  have hh : handle L path ⟨some ⟨.Func, pre ++ T :: post, [out]⟩, call⟩
      = .ok (finalResolver ((pre ++ T :: post).map (inputResolver L))) :=
    handle_ok L path _ out (pre ++ T :: post) rfl (by simp; omega) hout
  refine ⟨_, Method_ok L m path _ _ hh, hres, ?_, ?_⟩
  · intro e he
    have hrun : finalResolver ((pre ++ T :: post).map (inputResolver L)) ctx
        = (.ok (none, some e), []) := by
      unfold finalResolver
      rw [List.map_append, List.map_cons, finalResolver_loop_context L ctx pre _ hpre, hres]
      unfold finalResolver.loop
      simp [he]
    exact ⟨hrun, serve_of_error _ _ r ctx _ e _ hrun⟩
  · intro hnone hpost
    have hrun : finalResolver ((pre ++ T :: post).map (inputResolver L)) ctx
        = (.ok (some (pre.map (fun _ => Value.context) ++
            .struct (ctx.Decode T).1 :: post.map (fun _ => Value.context)), none), []) := by
      unfold finalResolver
      rw [List.map_append, List.map_cons, finalResolver_loop_context L ctx pre _ hpre, hres]
      conv_lhs => unfold finalResolver.loop
      simp only [hnone, Bool.not_true, Bool.false_eq_true, if_false, List.nil_append]
      have hp := finalResolver_loop_context L ctx post [] hpost
      rw [List.append_nil] at hp
      rw [hp]
      simp [finalResolver.loop]
    rw [serve_of_args _ _ r ctx _ _ hrun]
    simp

/-- An instance: the handler of `TestHandler_DumpJson`, which takes the struct with the
`FromJson` marker and the context, on a body that does not decode. -/
theorem C18_body_decode_witness :
    (∀ p ∈ ([] : List RType), contextParam p = true) ∧ jsonStruct.Kind = .Struct ∧
    fromJsonT.IsFromJson = true ∧ errorT.Str = "error" ∧
    (badJsonCtx.Decode jsonStruct).2 = some (.new "unexpected end of JSON input") ∧
    ∃ served,
      Method asciiLib "POST" "/test"
        ⟨some ⟨.Func, [] ++ jsonStruct :: [contextT], [errorT]⟩, fun _ => none⟩ = .ok served ∧
      served ⟨none⟩ badJsonCtx
        = (.ok (some (.wrap "request validation failed: "
            (.new "unexpected end of JSON input"))), []) := by
  refine ⟨by decide, by decide, by decide, by decide, by decide, ?_⟩
  obtain ⟨served, hM, _, hfail, _⟩ :=
    C18_body_decode asciiLib "POST" "/test" (fun _ => none) [] [contextT] jsonStruct errorT
      ⟨"FromJson", "", fromJsonT, []⟩ _ badJsonCtx ⟨none⟩ (by decide) (by decide) rfl
      (by decide) (by decide)
  exact ⟨served, hM, (hfail _ (by decide)).2⟩

/-! ## Requests without data -/

theorem GetResolvers_noData (ctx : Context) (hctx : noData ctx) (names : List String)
    (hfile : "file" ∉ names) : ∀ r ∈ GetResolvers names, ∀ n, r n ctx = "" := by
  induction names with
  | nil => intro r hr; simp [GetResolvers] at hr
  | cons s names ih =>
    have hs : s ≠ "file" := fun h => hfile (h ▸ List.mem_cons_self _ _)
    have hrest : "file" ∉ names := fun h => hfile (List.mem_cons_of_mem _ h)
    intro r hr n
    unfold GetResolvers at hr
    rcases hc : ctxResolvers s with _ | r0
    · rw [hc] at hr
      exact ih hrest r hr n
    · rw [hc] at hr
      rcases List.mem_cons.mp hr with h | h
      · subst h
        unfold ctxResolvers at hc
        split_ifs at hc with h1 h2 h3 h4
        · cases hc; exact (hctx n).1
        · cases hc; exact (hctx n).2.1
        · cases hc; exact (hctx n).2.2.1
        · cases hc; exact (hctx n).2.2.2
      · exact ih hrest r h n

theorem fieldChain_noData (L : Lib) (ctx : Context) (hctx : noData ctx) (f : StructField)
    (hfile : "file" ∉ bindSegments f) :
    noValue L (fieldChain f) (fieldTag f) (fieldOption f) ctx := by
  have hall : ∀ r ∈ fieldChain f, ∀ n, r n ctx = "" := by
    unfold fieldChain
    unfold bindSegments at hfile
    rcases hb : f.Tag.Lookup "bind" with _ | tag
    · exact GetResolvers_noData ctx hctx _ (by decide)
    · rw [hb] at hfile
      exact GetResolvers_noData ctx hctx _ hfile
  intro r hr
  unfold chainValue
  rw [if_neg (by simp [hall r hr])]
  split
  · rfl
  · exact hall r hr _

theorem assemble_loop_zero (L : Lib) (ctx : Context) (fields : List StructField)
    (h : ∀ f ∈ fields, ∀ r, structResolver L f = some r →
      r ctx = (zeroValue f.Typ, none) ∧ assignable f.Typ (zeroValue f.Typ) = true) :
    assemble.loop ctx fields (fields.map (structResolver L))
      = .ok (fields.map (fun f => zeroValue f.Typ), []) := by
  induction fields with
  | nil => rfl
  | cons f fields ih =>
    have ih2 := ih (fun g hg => h g (List.mem_cons_of_mem _ hg))
    have hf := h f (List.mem_cons_self _ _)
    rw [List.map_cons]
    unfold assemble.loop
    rw [ih2]
    rcases hr : structResolver L f with _ | r
    · rfl
    · simp [(hf r hr).1, (hf r hr).2, Except.map]

/-- C13 (as stated, refuted): the only field of ``struct { Name string `bind:"file"` }`` is
an optional string field, and for a request without data the assembled struct holds
the sentinel `locust.resolveasfile` in it, not the empty string. -/
theorem C13_file_source_yields_sentinel :
    fileBoundField.Typ.Kind = .String ∧ (fieldOption fileBoundField).Required = false ∧
    bindSegments fileBoundField = ["file"] ∧
    assemble fileBoundStruct (structResolvers asciiLib fileBoundStruct) emptyCtx
      = (.ok (.struct [.str "locust.resolveasfile"], true, none), []) := by
  decide

/-- C13 (amended): for every struct all of whose bindable fields are optional fields of
the type `string` with a `bind` tag that does not name the source file (or without
one) and every request carrying no data, assembly succeeds with an empty failure list,
and every field of the assembled struct holds its zero value, the empty string for
the bindable fields. -/
theorem C13_optional_strings_no_data (L : Lib) (T : RType) (ctx : Context)
    (hfields : ∀ f ∈ T.Fields, bindableField f = true →
      f.Typ.Kind = .String ∧ f.Typ.AssignableFromString = true ∧
        f.Typ.ConvertibleToContext = false ∧
        (fieldOption f).Required = false ∧ "file" ∉ bindSegments f)
    (hctx : noData ctx) :
    assemble T (structResolvers L T) ctx
        = (.ok (.struct (T.Fields.map (fun f => zeroValue f.Typ)), true, none), []) ∧
    structFailures L T ctx = [] ∧
    ∀ f ∈ T.Fields, bindableField f = true → zeroValue f.Typ = .str "" := by
  have hloop : assemble.loop ctx T.Fields (structResolvers L T)
      = .ok (T.Fields.map (fun f => zeroValue f.Typ), []) := by
    unfold structResolvers
    apply assemble_loop_zero
    intro f hf r hr
    obtain ⟨hexp, hret⟩ := structResolver_exported L f r hr
    have hb : bindableField f = true := by simp [bindableField, hexp, hret]
    obtain ⟨hk, hstr, hconv, hopt, hfile⟩ := hfields f hf hb
    rw [structResolver_string L f hexp hret hconv hk] at hr
    cases hr
    simp only [Get_of_noValue L _ _ _ ctx (fieldChain_noData L ctx hctx f hfile), hopt]
    simp [zeroValue, hk, assignable, hstr]
  have hfail : structFailures L T ctx = [] := by
    unfold structFailures
    rw [hloop]
  refine ⟨?_, hfail, ?_⟩
  · unfold assemble
    rw [hloop]
    rfl
  · intro f hf hb
    simp [zeroValue, (hfields f hf hb).1]

/-- An instance: ``struct { ID string `bind:"form"`; Query string; _ int }`` on a request
without data. -/
theorem C13_optional_strings_no_data_witness :
    (∀ f ∈ stringsStruct.Fields, bindableField f = true →
      f.Typ.Kind = .String ∧ f.Typ.AssignableFromString = true ∧
        f.Typ.ConvertibleToContext = false ∧
        (fieldOption f).Required = false ∧ "file" ∉ bindSegments f) ∧
    noData emptyCtx ∧
    assemble stringsStruct (structResolvers asciiLib stringsStruct) emptyCtx
      = (.ok (.struct [.str "", .str "", .int 0], true, none), []) :=
  ⟨by decide, fun _ => ⟨rfl, rfl, rfl, rfl⟩,
   (C13_optional_strings_no_data asciiLib stringsStruct emptyCtx (by decide)
     (fun _ => ⟨rfl, rfl, rfl, rfl⟩)).1⟩

/-! ## Integer and unsigned fields -/

theorem takeWhile_of_all (ds : List Char) (h : ds.all isDigit = true) :
    ds.takeWhile isDigit = ds :=
  List.takeWhile_eq_self_iff.mpr (fun x hx => List.all_eq_true.mp h x hx)

/-- `Atoi` on a base-10 signed integer literal: the number when it is of the range of
`int`, the range error otherwise. -/
theorem Atoi_of_literal (L : Lib) (s : String) (n : Int) (h : signedLiteral s = some n) :
    Atoi L s =
      if -(2 : Int) ^ 63 ≤ n ∧ n < (2 : Int) ^ 63 then .ok n
      else .error (NumError L "Atoi" s "value out of range") := by
  unfold signedLiteral at h
  unfold Atoi
  simp only [] at h ⊢
  generalize hb : (match s.data with
    | '-' :: r => r
    | '+' :: r => r
    | cs => cs) = body at h ⊢
  generalize (s.data.head? == some '-') = neg at h ⊢
  by_cases he : body.isEmpty = true
  · simp [he] at h
  · by_cases hall : body.all isDigit = true
    · rw [takeWhile_of_all body hall]
      simp only [he, hall, Bool.false_or, Bool.not_true, Bool.false_eq_true, if_false] at h ⊢
      generalize digitsValue body = un at h ⊢
      cases neg
      · simp only [Bool.false_eq_true, if_false, Option.some.injEq] at h
        subst h
        simp only [Bool.not_false, Bool.true_and, Bool.false_and, Bool.false_eq_true, if_false,
          decide_eq_true_eq]
        split_ifs <;> first | rfl | (exfalso; omega)
      · simp only [if_true, Option.some.injEq] at h
        subst h
        simp only [Bool.not_true, Bool.false_and, Bool.true_and, Bool.false_eq_true, if_false,
          if_true, decide_eq_true_eq]
        split_ifs <;> first | rfl | (exfalso; omega)
    · simp [he, hall] at h

/-- `Atoi` on a string that is not a base-10 signed integer literal: an error. -/
theorem Atoi_of_not_literal (L : Lib) (s : String) (h : signedLiteral s = none) :
    ∃ msg, Atoi L s = .error (NumError L "Atoi" s msg) := by
  unfold signedLiteral at h
  unfold Atoi
  simp only [] at h ⊢
  generalize hb : (match s.data with
    | '-' :: r => r
    | '+' :: r => r
    | cs => cs) = body at h ⊢
  generalize (s.data.head? == some '-') = neg at h ⊢
  by_cases he : body.isEmpty = true
  · exact ⟨_, by rw [if_pos he]⟩
  · rw [if_neg he]
    split
    · exact ⟨_, rfl⟩
    · by_cases hall : body.all isDigit = true
      · exfalso
        simp only [he, hall, Bool.false_or, Bool.not_true, Bool.false_eq_true, if_false] at h
        split at h <;> cases h
      · simp only [hall, Bool.not_false, if_true]
        exact ⟨_, rfl⟩

/-- `ParseUint` on a base-10 unsigned integer literal: the number when it is below
`2^64`, the range error otherwise. -/
theorem ParseUint_of_literal (L : Lib) (s : String) (n : Nat)
    (h : unsignedLiteral s = some n) :
    ParseUint L s =
      if n < 2 ^ 64 then .ok n else .error (NumError L "ParseUint" s "value out of range") := by
  unfold unsignedLiteral at h
  unfold ParseUint
  by_cases he : s.data.isEmpty = true
  · simp [he] at h
  · by_cases hall : s.data.all isDigit = true
    · rw [takeWhile_of_all s.data hall]
      simp only [he, hall, Bool.false_or, Bool.not_true, Bool.false_eq_true, if_false,
        Option.some.injEq] at h ⊢
      subst h
      split_ifs with h1 h2 h2 <;> first | rfl | (exfalso; omega)
    · simp [he, hall] at h

/-- `ParseUint` on a string that is not a base-10 unsigned integer literal: an error. -/
theorem ParseUint_of_not_literal (L : Lib) (s : String) (h : unsignedLiteral s = none) :
    ∃ msg, ParseUint L s = .error (NumError L "ParseUint" s msg) := by
  unfold unsignedLiteral at h
  unfold ParseUint
  by_cases he : s.data.isEmpty = true
  · exact ⟨_, by rw [if_pos he]⟩
  · rw [if_neg he]
    split
    · exact ⟨_, rfl⟩
    · by_cases hall : s.data.all isDigit = true
      · simp [he, hall] at h
      · simp only [hall, Bool.not_false, if_true]
        exact ⟨_, rfl⟩

theorem SetInt_of_range (k : Kind) (n : Int) (h1 : -(2 : Int) ^ (kindBits k - 1) ≤ n)
    (h2 : n < (2 : Int) ^ (kindBits k - 1)) : SetInt k n = n := by
  cases k <;> simp only [SetInt, wrapInt, kindBits] at h1 h2 ⊢ <;> norm_num at h1 h2 ⊢ <;> omega

theorem SetUint_of_range (k : Kind) (n : Nat) (h : n < 2 ^ kindBits k) : SetUint k n = n := by
  cases k <;> simp only [SetUint, kindBits] at h ⊢ <;> norm_num at h ⊢ <;> omega

theorem kindBits_le (k : Kind) : (2 : Int) ^ (kindBits k - 1) ≤ (2 : Int) ^ 63 ∧
    2 ^ kindBits k ≤ 2 ^ 64 := by
  cases k <;> simp only [kindBits] <;> norm_num

theorem not_a_number_message (err : GoError) :
    ∃ rest, (GoError.wrap "not a number: " err).Error = "not a number" ++ rest := by
  refine ⟨": " ++ err.Error, ?_⟩
  simp only [GoError.Error]
  rw [← String.append_assoc]
  rfl

theorem int_resolver_result (L : Lib) (field : StructField) (ctx : Context) (raw : String)
    (hexp : field.IsExported = true) (hret : field.Tag.Lookup "return" = none)
    (hconv : field.Typ.ConvertibleToContext = false) (hkind : intKind field.Typ.Kind = true)
    (hraw : ContextResolvers.Get L (fieldChain field) (fieldTag field) (fieldOption field) ctx
      = (raw, none)) :
    ∃ f, structResolver L field = some f ∧
      f ctx =
        match Atoi L raw with
        | .error err => (.invalid, some (.wrap "not a number: " err))
        | .ok atoi => (.int (SetInt field.Typ.Kind atoi), none) := by
  refine ⟨_, structResolver_int L field hexp hret hconv hkind, ?_⟩
  simp only [hraw]

theorem uint_resolver_result (L : Lib) (field : StructField) (ctx : Context) (raw : String)
    (hexp : field.IsExported = true) (hret : field.Tag.Lookup "return" = none)
    (hconv : field.Typ.ConvertibleToContext = false) (hkind : uintKind field.Typ.Kind = true)
    (hraw : ContextResolvers.Get L (fieldChain field) (fieldTag field) (fieldOption field) ctx
      = (raw, none)) :
    ∃ f, structResolver L field = some f ∧
      f ctx =
        match ParseUint L raw with
        | .error err => (.invalid, some (.wrap "not a number: " err))
        | .ok val => (.uint (SetUint field.Typ.Kind val), none) := by
  refine ⟨_, structResolver_uint L field hexp hret hconv hkind, ?_⟩
  simp only [hraw]

/-- C16 (as stated, refuted): for the field `Level int8` the raw value `300` is a base-10
integer literal and the resolver succeeds with the value 44, not 300; for the field
`Count int` the raw value `9223372036854775808` is a base-10 integer literal and the
resolver fails. -/
theorem C16_narrow_kind_truncates :
    signedLiteral "300" = some 300 ∧
    (structResolver asciiLib levelField).map (fun f => f numbersCtx) = some (.int 44, none) ∧
    signedLiteral "9223372036854775808" = some 9223372036854775808 ∧
    (structResolver asciiLib countField).map (fun f => f numbersCtx)
      = some (.invalid, some (.wrap "not a number: "
          (.new "strconv.Atoi: parsing \"9223372036854775808\": value out of range"))) := by
  decide

/-- C16 (amended): for every field of an integer kind and every raw value its chain
yields, the resolver succeeds exactly when the raw value is a base-10 signed integer
literal that denotes a number of the range of `int` (64 bits), and the value bound
equals that number when it is in the range of the kind of the field; when the
resolver fails the message of its error starts with `not a number`.  The same holds
for the unsigned kinds with base-10 unsigned literals below `2^64`. -/
theorem C16_number_fields (L : Lib) (field : StructField) (ctx : Context) (raw : String)
    (hexp : field.IsExported = true) (hret : field.Tag.Lookup "return" = none)
    (hconv : field.Typ.ConvertibleToContext = false)
    (hraw : ContextResolvers.Get L (fieldChain field) (fieldTag field) (fieldOption field) ctx
      = (raw, none)) :
    (intKind field.Typ.Kind = true →
      ∃ f, structResolver L field = some f ∧
        ((f ctx).2 = none ↔
          ∃ n, signedLiteral raw = some n ∧ -(2 : Int) ^ 63 ≤ n ∧ n < (2 : Int) ^ 63) ∧
        (∀ n, signedLiteral raw = some n → -(2 : Int) ^ (kindBits field.Typ.Kind - 1) ≤ n →
          n < (2 : Int) ^ (kindBits field.Typ.Kind - 1) → f ctx = (.int n, none)) ∧
        (∀ e, (f ctx).2 = some e → ∃ rest, e.Error = "not a number" ++ rest)) ∧
    (uintKind field.Typ.Kind = true →
      ∃ f, structResolver L field = some f ∧
        ((f ctx).2 = none ↔ ∃ n, unsignedLiteral raw = some n ∧ n < 2 ^ 64) ∧
        (∀ n, unsignedLiteral raw = some n → n < 2 ^ kindBits field.Typ.Kind →
          f ctx = (.uint n, none)) ∧
        (∀ e, (f ctx).2 = some e → ∃ rest, e.Error = "not a number" ++ rest)) := by
  constructor
  · intro hkind
    obtain ⟨f, hf, hres⟩ := int_resolver_result L field ctx raw hexp hret hconv hkind hraw
    refine ⟨f, hf, ?_, ?_, ?_⟩
    · rw [hres]
      cases hl : signedLiteral raw with
      | none =>
        obtain ⟨msg, hmsg⟩ := Atoi_of_not_literal L raw hl
        rw [hmsg]
        simp
      | some n =>
        rw [Atoi_of_literal L raw n hl]
        by_cases hr : -(2 : Int) ^ 63 ≤ n ∧ n < (2 : Int) ^ 63
        · rw [if_pos hr]
          simp only [true_iff]
          exact ⟨n, rfl, hr⟩
        · rw [if_neg hr]
          simp only [reduceCtorEq, false_iff]
          rintro ⟨n2, h2, h3⟩
          injection h2 with h2
          subst h2
          exact hr h3
    · intro n hl h1 h2
      have hb := (kindBits_le field.Typ.Kind).1
      rw [hres, Atoi_of_literal L raw n hl, if_pos ⟨by omega, by omega⟩]
      simp only []
      rw [SetInt_of_range _ n h1 h2]
    · intro e he
      rw [hres] at he
      rcases hA : Atoi L raw with err | n
      · rw [hA] at he
        simp only [Option.some.injEq] at he
        subst he
        exact not_a_number_message _
      · rw [hA] at he
        cases he
  · intro hkind
    obtain ⟨f, hf, hres⟩ := uint_resolver_result L field ctx raw hexp hret hconv hkind hraw
    refine ⟨f, hf, ?_, ?_, ?_⟩
    · rw [hres]
      cases hl : unsignedLiteral raw with
      | none =>
        obtain ⟨msg, hmsg⟩ := ParseUint_of_not_literal L raw hl
        rw [hmsg]
        simp
      | some n =>
        rw [ParseUint_of_literal L raw n hl]
        by_cases hr : n < 2 ^ 64
        · rw [if_pos hr]
          simp only [true_iff]
          exact ⟨n, rfl, hr⟩
        · rw [if_neg hr]
          simp only [reduceCtorEq, false_iff]
          rintro ⟨n2, h2, h3⟩
          injection h2 with h2
          subst h2
          exact hr h3
    · intro n hl h1
      have hb := (kindBits_le field.Typ.Kind).2
      rw [hres, ParseUint_of_literal L raw n hl, if_pos (by omega)]
      simp only []
      rw [SetUint_of_range _ n h1]
    · intro e he
      rw [hres] at he
      rcases hA : ParseUint L raw with err | n
      · rw [hA] at he
        simp only [Option.some.injEq] at he
        subst he
        exact not_a_number_message _
      · rw [hA] at he
        cases he

/-- An instance: the field `Count int` with the raw value `69` and the field `Age uint8`
with the raw value `42`. -/
theorem C16_number_fields_witness :
    countField.IsExported = true ∧ countField.Tag.Lookup "return" = none ∧
    countField.Typ.ConvertibleToContext = false ∧
    ContextResolvers.Get asciiLib (fieldChain countField) (fieldTag countField)
      (fieldOption countField) okCtx = ("69", none) ∧
    intKind countField.Typ.Kind = true ∧ signedLiteral "69" = some 69 ∧
    (∃ f, structResolver asciiLib countField = some f ∧ f okCtx = (.int 69, none)) ∧
    uintKind ageField.Typ.Kind = true ∧ unsignedLiteral "42" = some 42 ∧
    (∃ f, structResolver asciiLib ageField = some f ∧ f numbersCtx = (.uint 42, none)) := by
  refine ⟨by decide, by decide, by decide, by decide, by decide, by decide, ?_, by decide,
    by decide, ?_⟩
  · obtain ⟨f, hf, _, hval, _⟩ :=
      (C16_number_fields asciiLib countField okCtx "69" (by decide) (by decide) (by decide)
        (by decide)).1 (by decide)
    exact ⟨f, hf, hval 69 (by decide) (by decide) (by decide)⟩
  · obtain ⟨f, hf, _, hval, _⟩ :=
      (C16_number_fields asciiLib ageField numbersCtx "42" (by decide) (by decide) (by decide)
        (by decide)).2 (by decide)
    exact ⟨f, hf, hval 42 (by decide) (by decide)⟩

/-! ## Header lookups -/

theorem toLower_of_not_upper (c : Char) (h : ¬ (c.toNat ≥ 65 ∧ c.toNat ≤ 90)) :
    c.toLower = c := by
  unfold Char.toLower
  simp only []
  rw [if_neg h]

theorem upper_letter_cases (c : Char) (h : c.toNat ≥ 65 ∧ c.toNat ≤ 90) :
    c.toLower.toUpper = c.toUpper ∧ c.toLower.toLower = c.toLower ∧
    validHeaderFieldByte c.toLower = validHeaderFieldByte c := by
  have hc : c = Char.ofNat c.toNat := (Char.ofNat_toNat c).symm
  generalize c.toNat = k at h hc
  subst hc
  obtain ⟨h1, h2⟩ := h
  interval_cases k <;> decide

theorem toLower_facts (c : Char) :
    c.toLower.toUpper = c.toUpper ∧ c.toLower.toLower = c.toLower ∧
    validHeaderFieldByte c.toLower = validHeaderFieldByte c := by
  by_cases h : c.toNat ≥ 65 ∧ c.toNat ≤ 90
  · exact upper_letter_cases c h
  · have hl := toLower_of_not_upper c h
    exact ⟨by rw [hl], by rw [hl, hl], by rw [hl]⟩

theorem canonical_go_lower (cs : List Char) :
    ∀ upper, CanonicalMIMEHeaderKey.go upper (cs.map Char.toLower)
      = CanonicalMIMEHeaderKey.go upper cs := by
  induction cs with
  | nil => intro upper; rfl
  | cons c cs ih =>
    intro upper
    obtain ⟨h1, h2, _⟩ := toLower_facts c
    rw [List.map_cons]
    unfold CanonicalMIMEHeaderKey.go
    cases upper
    · simp only [Bool.false_eq_true, if_false, h2, ih]
    · simp only [if_true, h1, ih]

theorem valid_lower (cs : List Char) :
    (cs.map Char.toLower).all validHeaderFieldByte = cs.all validHeaderFieldByte := by
  induction cs with
  | nil => rfl
  | cons c cs ih =>
    rw [List.map_cons, List.all_cons, List.all_cons, ih, (toLower_facts c).2.2]

/-- Two keys that differ only in the case of their ASCII letters have the same
canonical form, when one of them is made of token characters. -/
theorem canonical_of_same_lower (s t : String) (h : asciiLower s = asciiLower t)
    (hvalid : t.data.all validHeaderFieldByte = true) :
    CanonicalMIMEHeaderKey s = CanonicalMIMEHeaderKey t := by
  unfold asciiLower at h
  have hd : s.data.map Char.toLower = t.data.map Char.toLower := by
    injection h
  have hvs : s.data.all validHeaderFieldByte = true := by
    rw [← valid_lower, hd, valid_lower]
    exact hvalid
  unfold CanonicalMIMEHeaderKey
  rw [if_pos hvs, if_pos hvalid, ← canonical_go_lower s.data, hd, canonical_go_lower]

theorem Header_values_set (h : Header) (key other : String) (vs : List String) :
    Header.values (Header.set h key vs) other
      = if other = key then vs else Header.values h other := by
  induction h with
  | nil =>
    by_cases ho : other = key
    · simp [Header.set, Header.values, ho]
    · simp [Header.set, Header.values, ho, Ne.symm ho]
  | cons e rest ih =>
    obtain ⟨k, v⟩ := e
    by_cases hk : k = key
    · subst hk
      by_cases ho : other = k
      · simp [Header.set, Header.values, ho]
      · simp [Header.set, Header.values, ho, Ne.symm ho]
    · by_cases hko : k = other
      · subst hko
        simp [Header.set, Header.values, hk]
      · simp [Header.set, Header.values, hk, hko, ih]

theorem Header_values_Add (h : Header) (name value key : String) :
    Header.values (Header.Add h name value) key
      = if key = CanonicalMIMEHeaderKey name then Header.values h key ++ [value]
        else Header.values h key := by
  unfold Header.Add
  rw [Header_values_set]
  by_cases hk : key = CanonicalMIMEHeaderKey name
  · rw [if_pos hk, if_pos hk, hk]
  · rw [if_neg hk, if_neg hk]

/-- The values under a key after header lines are added: the values before, followed
by the values of the lines whose name has that key as its canonical form. -/
theorem Header_values_foldl (lines : List (String × String)) (key : String) :
    ∀ h : Header, Header.values (lines.foldl (fun h l => Header.Add h l.1 l.2) h) key
      = Header.values h key
        ++ (lines.filter (fun l => key = CanonicalMIMEHeaderKey l.1)).map (fun l => l.2) := by
  induction lines with
  | nil => intro h; simp
  | cons l lines ih =>
    intro h
    rw [List.foldl_cons, ih, Header_values_Add, List.filter_cons]
    by_cases hk : key = CanonicalMIMEHeaderKey l.1
    · simp [hk]
    · simp [hk]

/-- A header is found under every name with the canonical form of the name of the first
line that carries it. -/
theorem Header_Get_headerOf (pre post : List (String × String)) (name value key : String)
    (hpre : ∀ l ∈ pre, CanonicalMIMEHeaderKey l.1 ≠ CanonicalMIMEHeaderKey name)
    (hkey : CanonicalMIMEHeaderKey key = CanonicalMIMEHeaderKey name) :
    Header.Get (headerOf (pre ++ (name, value) :: post)) key = value := by
  unfold Header.Get headerOf
  rw [Header_values_foldl, hkey]
  have hnone : pre.filter (fun l => CanonicalMIMEHeaderKey name = CanonicalMIMEHeaderKey l.1)
      = [] := by
    rw [List.filter_eq_nil_iff]
    intro l hl
    simpa using Ne.symm (hpre l hl)
  simp [Header.values, List.filter_append, hnone]

/-- C12 (as stated, refuted): the field `Token` is bound to `header` under the name
`X-Security-Token` and marked sensitive; for a request that carries the header as
`x-security-token` the field resolves to the header value, not to not-found. -/
theorem C12_sensitive_header_resolves :
    (fieldOption tokenField).Sensitive = true ∧ fieldTag tokenField = "X-Security-Token" ∧
    asciiLower "x-security-token" = asciiLower (fieldTag tokenField) ∧
    "x-security-token" ≠ fieldTag tokenField ∧
    (structResolver asciiLib tokenField).map (fun f => f lowerHeaderCtx)
      = some (.str "my humps", none) := by
  decide

/-- C12 (amended): for a string field bound to `header` with an `as` name of token
characters, when the request carries that header under a spelling that differs in
letter case from the `as` name, whatever the other header lines of the request are,
the field resolves to the value of the first line of that header, both when the field
is marked sensitive and when it is not: the header lookup of the request is itself
insensitive to case. -/
theorem C12_header_lookup_ignores_case (L : Lib) (field : StructField) (ctx : Context)
    (pre post : List (String × String)) (spelling v : String)
    (hexp : field.IsExported = true) (hret : field.Tag.Lookup "return" = none)
    (hconv : field.Typ.ConvertibleToContext = false) (hkind : field.Typ.Kind = .String)
    (hbind : field.Tag.Lookup "bind" = some "header")
    (hvalid : (fieldTag field).data.all validHeaderFieldByte = true)
    (hcase : asciiLower spelling = asciiLower (fieldTag field))
    (hv : v ≠ "")
    (hpre : ∀ l ∈ pre, CanonicalMIMEHeaderKey l.1 ≠ CanonicalMIMEHeaderKey spelling)
    (hctx : carriesHeaders ctx (headerOf (pre ++ (spelling, v) :: post))) :
    ∃ f, structResolver L field = some f ∧ f ctx = (.str v, none) := by
  refine ⟨_, structResolver_string L field hexp hret hconv hkind, ?_⟩
  have hchain : fieldChain field = [fun name ctx => ctx.Header name] := by
    unfold fieldChain
    rw [hbind]
    rfl
  have hval : ctx.Header (fieldTag field) = v := by
    rw [hctx (fieldTag field)]
    exact Header_Get_headerOf pre post spelling v _ hpre
      (canonical_of_same_lower _ _ hcase hvalid).symm
  have hget : ContextResolvers.Get L (fieldChain field) (fieldTag field) (fieldOption field)
      ctx = (v, none) := by
    rw [hchain, Get_single_hit L _ _ _ ctx
      (by show ctx.Header (fieldTag field) ≠ ""; rw [hval]; exact hv)]
    show (ctx.Header (fieldTag field), none) = (v, none)
    rw [hval]
  simp only [hget]

/-- An instance: the sensitive field `Token` of `TestRouter_TagAs` on a request that
carries the header `Accept` and, in lower case, the header of the field. -/
theorem C12_header_lookup_ignores_case_witness :
    tokenField.IsExported = true ∧ tokenField.Tag.Lookup "return" = none ∧
    tokenField.Typ.ConvertibleToContext = false ∧ tokenField.Typ.Kind = .String ∧
    tokenField.Tag.Lookup "bind" = some "header" ∧
    (fieldTag tokenField).data.all validHeaderFieldByte = true ∧
    asciiLower "x-security-token" = asciiLower (fieldTag tokenField) ∧
    ("my humps" : String) ≠ "" ∧
    (∀ l ∈ [("Accept", "text/html")],
      CanonicalMIMEHeaderKey l.1 ≠ CanonicalMIMEHeaderKey "x-security-token") ∧
    carriesHeaders twoHeadersCtx
      (headerOf ([("Accept", "text/html")] ++ ("x-security-token", "my humps") :: [])) ∧
    (fieldOption tokenField).Sensitive = true ∧
    ∃ f, structResolver asciiLib tokenField = some f ∧
      f twoHeadersCtx = (.str "my humps", none) :=
  ⟨by decide, by decide, by decide, by decide, by decide, by decide, by decide, by decide,
   by decide, fun _ => rfl, by decide,
   C12_header_lookup_ignores_case asciiLib tokenField twoHeadersCtx [("Accept", "text/html")] []
     "x-security-token" "my humps" (by decide) (by decide) (by decide) (by decide) (by decide)
     (by decide) (by decide) (by decide) (by decide) (fun _ => rfl)⟩

/-! ## The type map -/

theorem TypeMap_get_set_self (m : TypeMap) (key : String) (value : TypeMapValue) :
    (m.set key value).get key = some value := by
  induction m with
  | nil => simp [TypeMap.set, TypeMap.get]
  | cons e rest ih =>
    obtain ⟨k, v⟩ := e
    by_cases h : k = key
    · simp [TypeMap.set, TypeMap.get, h]
    · simp [TypeMap.set, TypeMap.get, h, ih]

theorem TypeMap_get_set_ne (m : TypeMap) (key other : String) (value : TypeMapValue)
    (h : other ≠ key) : (m.set key value).get other = m.get other := by
  induction m with
  | nil => simp [TypeMap.set, TypeMap.get, Ne.symm h]
  | cons e rest ih =>
    obtain ⟨k, v⟩ := e
    by_cases hk : k = key
    · subst hk
      simp [TypeMap.set, TypeMap.get, Ne.symm h]
    · by_cases hk2 : k = other
      · subst hk2
        simp [TypeMap.set, TypeMap.get, hk]
      · simp [TypeMap.set, TypeMap.get, hk, hk2, ih]

/-- One step of the loop of `GenerateTypeMap` on an exported field whose value is
computed. -/
theorem GenerateTypeMap_loop_cons (P : Types) (self : TypeId → Option (Except Panic TypeMap))
    (value : TypeField) (rest : List TypeField) (typeMap : TypeMap) (t : TypeMapValue)
    (he : value.IsExported = true) (ht : GenerateTypeMap.t P self value = some (.ok t)) :
    GenerateTypeMap.loop P self (value :: rest) typeMap =
      GenerateTypeMap.loop P self rest (typeMap.set (GenerateTypeMap.name value) t) := by
  simp [GenerateTypeMap.loop, he, ht]

theorem GenerateTypeMap_loop_skip (P : Types) (self : TypeId → Option (Except Panic TypeMap))
    (value : TypeField) (rest : List TypeField) (typeMap : TypeMap)
    (he : value.IsExported = false) :
    GenerateTypeMap.loop P self (value :: rest) typeMap =
      GenerateTypeMap.loop P self rest typeMap := by
  simp [GenerateTypeMap.loop, he]

/-- When the loop returns a map, the value of every exported field was computed. -/
theorem GenerateTypeMap_loop_ok_cons (P : Types)
    (self : TypeId → Option (Except Panic TypeMap))
    (value : TypeField) (rest : List TypeField) (typeMap m : TypeMap)
    (he : value.IsExported = true)
    (h : GenerateTypeMap.loop P self (value :: rest) typeMap = some (.ok m)) :
    ∃ t, GenerateTypeMap.t P self value = some (.ok t) := by
  rcases ht : GenerateTypeMap.t P self value with _ | ⟨p | t⟩
  · simp [GenerateTypeMap.loop, he, ht] at h
  · simp [GenerateTypeMap.loop, he, ht] at h
  · exact ⟨t, rfl⟩

/-- A key that no exported field of the loop has keeps its entry. -/
theorem GenerateTypeMap_loop_keeps (P : Types) (self : TypeId → Option (Except Panic TypeMap))
    (fields : List TypeField) (typeMap m : TypeMap) (key : String)
    (h : GenerateTypeMap.loop P self fields typeMap = some (.ok m))
    (hk : ∀ g ∈ fields, g.IsExported = true → GenerateTypeMap.name g ≠ key) :
    m.get key = typeMap.get key := by
  induction fields generalizing typeMap with
  | nil =>
    simp [GenerateTypeMap.loop] at h
    rw [h]
  | cons value rest ih =>
    by_cases he : value.IsExported = true
    · obtain ⟨t, ht⟩ := GenerateTypeMap_loop_ok_cons P self value rest typeMap m he h
      rw [GenerateTypeMap_loop_cons P self value rest typeMap t he ht] at h
      rw [ih _ h (fun g hg => hk g (List.mem_cons_of_mem _ hg))]
      exact TypeMap_get_set_ne _ _ _ _ (Ne.symm (hk value (List.mem_cons_self _ _) he))
    · have he2 : value.IsExported = false := by simpa using he
      rw [GenerateTypeMap_loop_skip P self value rest typeMap he2] at h
      exact ih _ h (fun g hg => hk g (List.mem_cons_of_mem _ hg))

/-- The keys of the map returned by the loop: the keys it started with and the keys of
the exported fields. -/
theorem GenerateTypeMap_loop_keys (P : Types) (self : TypeId → Option (Except Panic TypeMap))
    (fields : List TypeField) (typeMap m : TypeMap) (key : String)
    (h : GenerateTypeMap.loop P self fields typeMap = some (.ok m)) :
    (m.get key).isSome = true ↔
      ((typeMap.get key).isSome = true ∨
        ∃ f ∈ fields, f.IsExported = true ∧ GenerateTypeMap.name f = key) := by
  induction fields generalizing typeMap with
  | nil =>
    simp [GenerateTypeMap.loop] at h
    simp [h]
  | cons value rest ih =>
    by_cases he : value.IsExported = true
    · obtain ⟨t, ht⟩ := GenerateTypeMap_loop_ok_cons P self value rest typeMap m he h
      rw [GenerateTypeMap_loop_cons P self value rest typeMap t he ht] at h
      rw [ih _ h]
      by_cases hk : GenerateTypeMap.name value = key
      · subst hk
        rw [TypeMap_get_set_self]
        simp [he]
      · rw [TypeMap_get_set_ne _ _ _ _ (Ne.symm hk)]
        simp [he, hk]
    · have he2 : value.IsExported = false := by simpa using he
      rw [GenerateTypeMap_loop_skip P self value rest typeMap he2] at h
      rw [ih _ h]
      simp [he2]

/-- The entry of an exported field whose key no later exported field has is the value
computed for it. -/
theorem GenerateTypeMap_loop_entry (P : Types) (self : TypeId → Option (Except Panic TypeMap))
    (pre post : List TypeField) (f : TypeField) (typeMap m : TypeMap)
    (h : GenerateTypeMap.loop P self (pre ++ f :: post) typeMap = some (.ok m))
    (he : f.IsExported = true)
    (hlast : ∀ g ∈ post, g.IsExported = true → GenerateTypeMap.name g ≠ GenerateTypeMap.name f) :
    ∃ v, m.get (GenerateTypeMap.name f) = some v ∧
      GenerateTypeMap.t P self f = some (.ok v) := by
  induction pre generalizing typeMap with
  | nil =>
    obtain ⟨t, ht⟩ := GenerateTypeMap_loop_ok_cons P self f post typeMap m he h
    rw [List.nil_append, GenerateTypeMap_loop_cons P self f post typeMap t he ht] at h
    refine ⟨t, ?_, ht⟩
    rw [GenerateTypeMap_loop_keeps P self post _ m _ h hlast, TypeMap_get_set_self]
  | cons value rest ih =>
    rw [List.cons_append] at h
    by_cases hv : value.IsExported = true
    · obtain ⟨t, ht⟩ := GenerateTypeMap_loop_ok_cons P self value _ typeMap m hv h
      rw [GenerateTypeMap_loop_cons P self value _ typeMap t hv ht] at h
      exact ih _ h
    · have hv2 : value.IsExported = false := by simpa using hv
      rw [GenerateTypeMap_loop_skip P self value _ typeMap hv2] at h
      exact ih _ h

/-- The value computed for a field with the calls of `GenerateTypeMap` at some depth is
the entry the field is to have. -/
theorem GenerateTypeMap_t_entry (P : Types) (fuel : Nat) (f : TypeField) (v : TypeMapValue)
    (h : GenerateTypeMap.t P (GenerateTypeMap fuel P) f = some (.ok v)) :
    fieldEntry P f v := by
  unfold GenerateTypeMap.t at h
  unfold fieldEntry
  split at h
  · rcases hs : GenerateTypeMap fuel P f.Typ with _ | ⟨p | m⟩
    · simp [hs] at h
    · simp [hs] at h
    · simp [hs] at h
      exact ⟨m, ⟨fuel, hs⟩, h.symm⟩
  · rcases hs : GenerateTypeMap fuel P (P f.Typ).Elem with _ | ⟨p | m⟩
    · simp [hs] at h
    · simp [hs] at h
    · simp [hs] at h
      exact ⟨m, ⟨fuel, hs⟩, h.symm⟩
  · simp at h
    exact h.symm

/-- The value computed for a field stays the same when the recursive calls return
more often. -/
theorem GenerateTypeMap_t_mono (P : Types) (self self2 : TypeId → Option (Except Panic TypeMap))
    (hself : ∀ x r, self x = some r → self2 x = some r) (f : TypeField)
    (r : Except Panic TypeMapValue) (h : GenerateTypeMap.t P self f = some r) :
    GenerateTypeMap.t P self2 f = some r := by
  unfold GenerateTypeMap.t at h ⊢
  split at h
  · rcases hs : self f.Typ with _ | res
    · simp [hs] at h
    · rw [hs] at h
      rw [hself _ _ hs]
      exact h
  · rcases hs : self (P f.Typ).Elem with _ | res
    · simp [hs] at h
    · rw [hs] at h
      rw [hself _ _ hs]
      exact h
  · exact h

theorem GenerateTypeMap_loop_mono (P : Types)
    (self self2 : TypeId → Option (Except Panic TypeMap))
    (hself : ∀ x r, self x = some r → self2 x = some r) (fields : List TypeField)
    (typeMap : TypeMap) (r : Except Panic TypeMap)
    (h : GenerateTypeMap.loop P self fields typeMap = some r) :
    GenerateTypeMap.loop P self2 fields typeMap = some r := by
  induction fields generalizing typeMap with
  | nil => exact h
  | cons value rest ih =>
    by_cases he : value.IsExported = true
    · rcases ht : GenerateTypeMap.t P self value with _ | res
      · simp [GenerateTypeMap.loop, he, ht] at h
      · have ht2 := GenerateTypeMap_t_mono P self self2 hself value res ht
        rcases res with p | t
        · simp only [GenerateTypeMap.loop, he, ht, ht2] at h ⊢
          exact h
        · rw [GenerateTypeMap_loop_cons P self value rest typeMap t he ht] at h
          rw [GenerateTypeMap_loop_cons P self2 value rest typeMap t he ht2]
          exact ih _ h
    · have he2 : value.IsExported = false := by simpa using he
      rw [GenerateTypeMap_loop_skip P self value rest typeMap he2] at h
      rw [GenerateTypeMap_loop_skip P self2 value rest typeMap he2]
      exact ih _ h

/-- A result of `GenerateTypeMap` within some depth is its result within any greater
depth. -/
theorem GenerateTypeMap_succ (P : Types) (fuel : Nat) :
    ∀ typeVal r, GenerateTypeMap fuel P typeVal = some r →
      GenerateTypeMap (fuel + 1) P typeVal = some r := by
  induction fuel with
  | zero => intro typeVal r h; simp [GenerateTypeMap] at h
  | succ n ih =>
    intro typeVal r h
    unfold GenerateTypeMap at h ⊢
    split_ifs at h ⊢ with hk
    · exact h
    · exact GenerateTypeMap_loop_mono P _ _ ih _ _ _ h

theorem GenerateTypeMap_le (P : Types) (fuel fuel2 : Nat) (hle : fuel ≤ fuel2)
    (typeVal : TypeId) (r : Except Panic TypeMap)
    (h : GenerateTypeMap fuel P typeVal = some r) :
    GenerateTypeMap fuel2 P typeVal = some r := by
  induction hle with
  | refl => exact h
  | step _ ih => exact GenerateTypeMap_succ P _ _ _ ih

/-- The loop returns a map when the value of every exported field is computed. -/
theorem GenerateTypeMap_loop_returns (P : Types)
    (self : TypeId → Option (Except Panic TypeMap)) (fields : List TypeField)
    (hf : ∀ f ∈ fields, f.IsExported = true → ∃ v, GenerateTypeMap.t P self f = some (.ok v))
    (typeMap : TypeMap) :
    ∃ m, GenerateTypeMap.loop P self fields typeMap = some (.ok m) := by
  induction fields generalizing typeMap with
  | nil => exact ⟨typeMap, rfl⟩
  | cons value rest ih =>
    have ih2 := ih (fun f hfm => hf f (List.mem_cons_of_mem _ hfm))
    by_cases he : value.IsExported = true
    · obtain ⟨t, ht⟩ := hf value (List.mem_cons_self _ _) he
      rw [GenerateTypeMap_loop_cons P self value rest typeMap t he ht]
      exact ih2 _
    · have he2 : value.IsExported = false := by simpa using he
      rw [GenerateTypeMap_loop_skip P self value rest typeMap he2]
      exact ih2 _

/-- The value of a field is computed when the recursive call for a struct field or a
slice field returns a map. -/
theorem GenerateTypeMap_t_returns (P : Types) (self : TypeId → Option (Except Panic TypeMap))
    (f : TypeField)
    (hstruct : (P f.Typ).Kind = .Struct → ∃ m, self f.Typ = some (.ok m))
    (hslice : (P f.Typ).Kind = .Slice → ∃ m, self (P f.Typ).Elem = some (.ok m)) :
    ∃ v, GenerateTypeMap.t P self f = some (.ok v) := by
  unfold GenerateTypeMap.t
  split
  · rename_i hk
    obtain ⟨m, hm⟩ := hstruct hk
    exact ⟨.map m, by rw [hm]⟩
  · rename_i hk
    obtain ⟨m, hm⟩ := hslice hk
    exact ⟨.slice [.map m], by rw [hm]⟩
  · exact ⟨_, rfl⟩

theorem mem_nestedTypes_struct (P : Types) (typeVal : TypeId) (f : TypeField)
    (hf : f ∈ (P typeVal).Fields) (he : f.IsExported = true)
    (hk : (P f.Typ).Kind = .Struct) : f.Typ ∈ nestedTypes P typeVal := by
  unfold nestedTypes
  rw [List.mem_filterMap]
  exact ⟨f, hf, by simp [he, hk]⟩

theorem mem_nestedTypes_slice (P : Types) (typeVal : TypeId) (f : TypeField)
    (hf : f ∈ (P typeVal).Fields) (he : f.IsExported = true)
    (hk : (P f.Typ).Kind = .Slice) : (P f.Typ).Elem ∈ nestedTypes P typeVal := by
  unfold nestedTypes
  rw [List.mem_filterMap]
  exact ⟨f, hf, by simp [he, hk]⟩

/-- On a struct type `GenerateTypeMap` is the loop over its fields. -/
theorem GenerateTypeMap_struct (P : Types) (fuel : Nat) (typeVal : TypeId)
    (hk : (P typeVal).Kind = .Struct) :
    GenerateTypeMap (fuel + 1) P typeVal =
      GenerateTypeMap.loop P (GenerateTypeMap fuel P) (P typeVal).Fields [] := by
  simp [GenerateTypeMap, hk]

/-- With a well-founded nesting, `GenerateTypeMap` returns a map within any depth
greater than the rank of the type. -/
theorem GenerateTypeMap_returns (P : Types) (S : TypeId → Prop) (rank : TypeId → Nat)
    (hP : wellNested P S rank) :
    ∀ fuel typeVal, S typeVal → rank typeVal < fuel →
      ∃ m, GenerateTypeMap fuel P typeVal = some (.ok m) := by
  intro fuel
  induction fuel with
  | zero => intro typeVal _ h; omega
  | succ n ih =>
    intro typeVal hS hr
    obtain ⟨hk, hn⟩ := hP typeVal hS
    rw [GenerateTypeMap_struct P n typeVal hk]
    apply GenerateTypeMap_loop_returns
    intro f hf he
    apply GenerateTypeMap_t_returns
    · intro hfk
      obtain ⟨hSu, hru⟩ := hn _ (mem_nestedTypes_struct P typeVal f hf he hfk)
      exact ih _ hSu (by omega)
    · intro hfk
      obtain ⟨hSu, hru⟩ := hn _ (mem_nestedTypes_slice P typeVal f hf he hfk)
      exact ih _ hSu (by omega)

/-- A map returned by `GenerateTypeMap` has the keys of the exported fields and, for
an exported field whose key no later exported field has, the entry of that field. -/
theorem GenerateTypeMap_describes (P : Types) (fuel : Nat) (typeVal : TypeId) (m : TypeMap)
    (h : GenerateTypeMap fuel P typeVal = some (.ok m)) :
    (P typeVal).Kind = .Struct ∧
    (∀ key, (m.get key).isSome = true ↔
      ∃ f ∈ (P typeVal).Fields, f.IsExported = true ∧ GenerateTypeMap.name f = key) ∧
    (∀ pre f post, (P typeVal).Fields = pre ++ f :: post → f.IsExported = true →
      (∀ g ∈ post, g.IsExported = true → GenerateTypeMap.name g ≠ GenerateTypeMap.name f) →
      ∃ v, m.get (GenerateTypeMap.name f) = some v ∧ fieldEntry P f v) := by
  cases fuel with
  | zero => simp [GenerateTypeMap] at h
  | succ n =>
    have hk : (P typeVal).Kind = .Struct := by
      by_contra hne
      simp [GenerateTypeMap, hne] at h
    rw [GenerateTypeMap_struct P n typeVal hk] at h
    refine ⟨hk, ?_, ?_⟩
    · intro key
      rw [GenerateTypeMap_loop_keys P _ _ _ m key h]
      simp [TypeMap.get]
    · intro pre f post hfields he hlast
      rw [hfields] at h
      obtain ⟨v, hv, ht⟩ := GenerateTypeMap_loop_entry P _ pre post f [] m h he hlast
      exact ⟨v, hv, GenerateTypeMap_t_entry P n f v ht⟩

/-- When the loop returns a map, the value of each exported field was computed. -/
theorem GenerateTypeMap_loop_ok_mem (P : Types)
    (self : TypeId → Option (Except Panic TypeMap)) (fields : List TypeField)
    (typeMap m : TypeMap) (h : GenerateTypeMap.loop P self fields typeMap = some (.ok m)) :
    ∀ f ∈ fields, f.IsExported = true → ∃ v, GenerateTypeMap.t P self f = some (.ok v) := by
  induction fields generalizing typeMap with
  | nil => intro f hf; simp at hf
  | cons value rest ih =>
    intro f hf he
    by_cases hv : value.IsExported = true
    · obtain ⟨t, ht⟩ := GenerateTypeMap_loop_ok_cons P self value rest typeMap m hv h
      rw [GenerateTypeMap_loop_cons P self value rest typeMap t hv ht] at h
      rcases List.mem_cons.mp hf with rfl | hmem
      · exact ⟨t, ht⟩
      · exact ih _ h f hmem he
    · have hv2 : value.IsExported = false := by simpa using hv
      rw [GenerateTypeMap_loop_skip P self value rest typeMap hv2] at h
      rcases List.mem_cons.mp hf with rfl | hmem
      · exact absurd he hv
      · exact ih _ h f hmem he

/-- A call of `GenerateTypeMap` that returns a map is on a struct type, and its calls
for the nested types return a map within a smaller depth. -/
theorem GenerateTypeMap_ok_nested (P : Types) (fuel : Nat) (typeVal : TypeId) (m : TypeMap)
    (h : GenerateTypeMap (fuel + 1) P typeVal = some (.ok m)) :
    (P typeVal).Kind = .Struct ∧
    ∀ u ∈ nestedTypes P typeVal, ∃ mu, GenerateTypeMap fuel P u = some (.ok mu) := by
  have hk : (P typeVal).Kind = .Struct := by
    by_contra hne
    simp [GenerateTypeMap, hne] at h
  rw [GenerateTypeMap_struct P fuel typeVal hk] at h
  refine ⟨hk, ?_⟩
  intro u hu
  unfold nestedTypes at hu
  rw [List.mem_filterMap] at hu
  obtain ⟨f, hf, hfu⟩ := hu
  by_cases he : f.IsExported = true
  · obtain ⟨v, hv⟩ := GenerateTypeMap_loop_ok_mem P _ _ _ m h f hf he
    simp only [he, if_true] at hfu
    unfold GenerateTypeMap.t at hv
    split at hv
    · rename_i hfk
      simp only [hfk] at hfu
      cases hfu
      rcases hs : GenerateTypeMap fuel P f.Typ with _ | ⟨p | mu⟩
      · simp [hs] at hv
      · simp [hs] at hv
      · exact ⟨mu, rfl⟩
    · rename_i hfk
      simp only [hfk] at hfu
      cases hfu
      rcases hs : GenerateTypeMap fuel P (P f.Typ).Elem with _ | ⟨p | mu⟩
      · simp [hs] at hv
      · simp [hs] at hv
      · exact ⟨mu, rfl⟩
    · rename_i h1 h2
      split at hfu
      · rename_i hfk; exact absurd hfk h1
      · rename_i hfk; exact absurd hfk h2
      · cases hfu
  · simp [he] at hfu

/-- The types for which `GenerateTypeMap` returns a map are the struct types with a
well-founded nesting. -/
theorem returnsMap_iff_wellNested (P : Types) (typeVal : TypeId) :
    (∃ m, returnsMap P typeVal m) ↔ ∃ S rank, wellNested P S rank ∧ S typeVal := by
  classical
  constructor
  · intro hret
    let S : TypeId → Prop := fun u => ∃ n mu, GenerateTypeMap n P u = some (.ok mu)
    let rank : TypeId → Nat := fun u =>
      if hu : ∃ n mu, GenerateTypeMap n P u = some (.ok mu) then Nat.find hu else 0
    refine ⟨S, rank, ?_, ?_⟩
    · intro u hu
      have hu2 : ∃ n mu, GenerateTypeMap n P u = some (.ok mu) := hu
      have hrank : rank u = Nat.find hu2 := by simp only [rank, dif_pos hu2]
      obtain ⟨mu, hmu⟩ := Nat.find_spec hu2
      rcases hn : Nat.find hu2 with _ | n
      · rw [hn] at hmu
        simp [GenerateTypeMap] at hmu
      · rw [hn] at hmu
        obtain ⟨hk, hnested⟩ := GenerateTypeMap_ok_nested P n u mu hmu
        refine ⟨hk, ?_⟩
        intro w hw
        obtain ⟨mw, hmw⟩ := hnested w hw
        have hw2 : ∃ n mu, GenerateTypeMap n P w = some (.ok mu) := ⟨n, mw, hmw⟩
        refine ⟨hw2, ?_⟩
        have hrw : rank w = Nat.find hw2 := by simp only [rank, dif_pos hw2]
        have hle : Nat.find hw2 ≤ n := Nat.find_min' hw2 ⟨mw, hmw⟩
        rw [hrw, hrank, hn]
        omega
    · obtain ⟨m, n, hm⟩ := hret
      exact ⟨n, m, hm⟩
  · rintro ⟨S, rank, hP, hS⟩
    obtain ⟨m, hm⟩ := GenerateTypeMap_returns P S rank hP (rank typeVal + 1) typeVal hS (by omega)
    exact ⟨m, _, hm⟩

/-- The result of `GenerateTypeMap` does not depend on the depth within which it
returns. -/
theorem returnsMap_unique (P : Types) (typeVal : TypeId) (m m2 : TypeMap)
    (h : returnsMap P typeVal m) (h2 : returnsMap P typeVal m2) : m = m2 := by
  obtain ⟨a, ha⟩ := h
  obtain ⟨b, hb⟩ := h2
  have h3 := GenerateTypeMap_le P a (max a b) (le_max_left a b) typeVal _ ha
  have h4 := GenerateTypeMap_le P b (max a b) (le_max_right a b) typeVal _ hb
  rw [h3] at h4
  simpa using h4

/-- The variable `name` of `GenerateTypeMap` is the key of the specification. -/
theorem GenerateTypeMap_name_eq (f : TypeField) : GenerateTypeMap.name f = jsonKey f := by
  unfold GenerateTypeMap.name jsonKey
  rcases f.Tag.Lookup "json" with _ | tag
  · rfl
  · rcases hs : Split tag ',' with _ | ⟨s0, rest⟩
    · exact absurd hs (Split_go_ne_nil ',' tag.data [])
    · simp only [hs, List.headD_cons]

/-- The map of `Sample` of `type_map_test.go`, within any depth from 3 on. -/
theorem GenerateTypeMap_Sample (fuel : Nat) :
    GenerateTypeMap (fuel + 3) sampleTypes 0 = some (.ok
      [("id", .kind "string"), ("type", .kind "string"), ("name", .kind "string"),
       ("ppu", .kind "float64"),
       ("batters", .map [("batter",
          .slice [.map [("id", .kind "string"), ("type", .kind "string")]])]),
       ("topping", .slice [.map [("id", .kind "string"), ("type", .kind "string")]])]) := by
  simp [GenerateTypeMap, GenerateTypeMap.loop, GenerateTypeMap.t, GenerateTypeMap.name,
    sampleTypes, TypeField.IsExported, StructTag.Lookup, TypeMap.set, kindNames, Split, Split.go]

/-- C21 (counterexample): for
``struct { Password string `json:"-"`; Attempts int `json:"-"` }`` `GenerateTypeMap`
returns the map with the single entry `"-": "int"`; the key of the exported field
`Password` holds the kind name of `Attempts`, not `"string"`, so the map is not the one
the claim describes. -/
theorem C21_shared_key_overwritten :
    GenerateTypeMap 1 dashTypes 0 = some (.ok [("-", .kind "int")]) ∧
    ¬ describes dashTypes 0 [("-", .kind "int")] := by
  constructor
  · simp [GenerateTypeMap, GenerateTypeMap.loop, GenerateTypeMap.t, GenerateTypeMap.name,
      dashTypes, passwordField, attemptsField, TypeField.IsExported, StructTag.Lookup,
      TypeMap.set, kindNames, Split, Split.go]
  · rintro ⟨-, h⟩
    obtain ⟨v, hv, he⟩ := h passwordField (by simp [dashTypes]) (by decide)
    have hkey : jsonKey passwordField = "-" := by decide
    rw [hkey] at hv
    simp [TypeMap.get] at hv
    subst hv
    simp [fieldEntry, dashTypes, passwordField, kindNames] at he

/-- C21 (amended): for a struct type whose nesting through exported struct fields and
slice fields is well-founded and reaches struct types only, `GenerateTypeMap` returns a
map, the same within every depth greater than the rank of the type; the keys of the map
are exactly the keys of the exported fields (the first comma-segment of the `json` tag,
or the declared name without the tag), so an unexported field adds no key; and every
exported field whose key no later exported field has is mapped to the kind name of its
type, to the map of its struct type, or to the one-element list holding the map of the
element type of its slice type. -/
theorem C21_type_map (P : Types) (S : TypeId → Prop) (rank : TypeId → Nat) (typeVal : TypeId)
    (hP : wellNested P S rank) (hS : S typeVal) :
    ∃ m, (∀ fuel, rank typeVal < fuel → GenerateTypeMap fuel P typeVal = some (.ok m)) ∧
      (∀ key, (m.get key).isSome = true ↔
        ∃ f ∈ (P typeVal).Fields, f.IsExported = true ∧ jsonKey f = key) ∧
      (∀ pre f post, (P typeVal).Fields = pre ++ f :: post → f.IsExported = true →
        (∀ g ∈ post, g.IsExported = true → jsonKey g ≠ jsonKey f) →
        ∃ v, m.get (jsonKey f) = some v ∧ fieldEntry P f v) := by
  obtain ⟨m, hm⟩ := GenerateTypeMap_returns P S rank hP (rank typeVal + 1) typeVal hS (by omega)
  obtain ⟨-, hkeys, hentries⟩ := GenerateTypeMap_describes P _ typeVal m hm
  refine ⟨m, ?_, ?_, ?_⟩
  · intro fuel hf
    exact GenerateTypeMap_le P _ fuel hf typeVal _ hm
  · intro key
    rw [hkeys key]
    simp only [GenerateTypeMap_name_eq]
  · intro pre f post hfields he hlast
    have h := hentries pre f post hfields he
      (fun g hg hge => by rw [GenerateTypeMap_name_eq, GenerateTypeMap_name_eq]; exact hlast g hg hge)
    rw [GenerateTypeMap_name_eq] at h
    exact h

/-- An instance: `Sample` of `type_map_test.go`, whose nested types `Batters` and
`Topping` have the ranks 1 and 0. -/
theorem C21_type_map_witness :
    wellNested sampleTypes (fun id => id ≤ 2) (fun id => 2 - id) ∧
    ∃ m, (∀ fuel, 2 < fuel → GenerateTypeMap fuel sampleTypes 0 = some (.ok m)) ∧
      (∀ key, (m.get key).isSome = true ↔
        ∃ f ∈ (sampleTypes 0).Fields, f.IsExported = true ∧ jsonKey f = key) ∧
      (∀ pre f post, (sampleTypes 0).Fields = pre ++ f :: post → f.IsExported = true →
        (∀ g ∈ post, g.IsExported = true → jsonKey g ≠ jsonKey f) →
        ∃ v, m.get (jsonKey f) = some v ∧ fieldEntry sampleTypes f v) := by
  have hP : wellNested sampleTypes (fun id => id ≤ 2) (fun id => 2 - id) := by
    intro typeVal h
    have h2 : typeVal ≤ 2 := h
    interval_cases typeVal <;> simp [sampleTypes, nestedTypes, TypeField.IsExported]
  exact ⟨hP, C21_type_map sampleTypes (fun id => id ≤ 2) (fun id => 2 - id) 0 hP (by decide)⟩

/-- C22 (the code at the failing inputs): for `struct { Tags []string }`
`GenerateTypeMap` calls itself with the element type `string` of the slice field and
`NumField` panics there, within every depth that reaches the call; for
`type Node struct { Children []Node }` it returns within no depth, each call reaching
the call for `Node` again. -/
theorem C22_slice_element_not_checked :
    (∀ fuel, GenerateTypeMap (fuel + 2) tagsTypes 0
      = some (.error (.numFieldOfNonStruct .String))) ∧
    (∀ fuel, GenerateTypeMap fuel nodeTypes 0 = none) := by
  constructor
  · intro fuel
    simp [GenerateTypeMap, GenerateTypeMap.loop, GenerateTypeMap.t, tagsTypes,
      TypeField.IsExported]
  · intro fuel
    induction fuel with
    | zero => rfl
    | succ n ih =>
      simp [GenerateTypeMap, GenerateTypeMap.loop, GenerateTypeMap.t, nodeTypes,
        TypeField.IsExported, ih]

end Binder
